import Mathlib

/-!
# lsync: shallow embedding of the backup engine

The development follows the C sources of `lsync`:

* `lsync.h`        constants, `tOptions`, the platform I/O interface;
* `lsync.c`        `backupVisitor`, the per-entry decision procedure;
* `lsync_linux.c`  `isFile`, `isDirectory`, `createDirectory`, `isNewerFile` (POSIX);
* `lsync-win.c`    `isNewerFile` (Windows).

C strings are lists of characters (without the terminating nul), pointers into a
string are suffixes or indices, `int` results are `Int`.  Calls of the platform
I/O operations made by `backupVisitor` are recorded in a trace so that statements
such as "copyFile is not invoked" can be expressed.
-/

set_option linter.unusedVariables false

namespace Lsync

/-! ## Strings

`_tcslen`, `_tcschr` and `_tcspbrk` are the `tchar.h` names of `strlen`, `strchr` and
`strpbrk`. -/

/-- A C string: the characters before the terminating nul. -/
abbrev CStr := List Char

/-- The nul character which terminates every C string. -/
def nul : Char := Char.ofNat 0

/-- Well-formed C string contents: no embedded nul. -/
def IsCStr (s : CStr) : Prop := nul ∉ s

instance (s : CStr) : Decidable (IsCStr s) := by
  unfold IsCStr; infer_instance

/-- The test `strchr(s, c) != NULL`: the character occurs in `s`; the terminating nul of `s`
is part of the searched string, so `c = 0` is always found. -/
def tcschr (s : CStr) (c : Char) : Bool :=
  c == nul || s.contains c

/-- The call `strpbrk(s + start, accept)` as an index into `s`: the position of the first
character at or after `start` that occurs in `accept`; `none` is `NULL`. -/
def tcspbrk (s : CStr) (start : Nat) (accept : List Char) : Option Nat :=
  match (s.drop start).findIdx? (fun c => accept.contains c) with
  | none => none
  | some i => some (start + i)

/-- Modelled from the spec: `_tcsrpbrk` is declared in `tchar.h`, which is not among
the sources.  It is the reverse of `strpbrk`: a pointer to the LAST character of `s`
that occurs in `accept` (the returned suffix starts at that character), or `NULL`.
The spec uses it as `base = basename(src_root)`. -/
def tcsrpbrk : CStr → List Char → Option CStr
  | [], _ => none
  | c :: cs, accept =>
    match tcsrpbrk cs accept with
    | some r => some r
    | none => if accept.contains c then some (c :: cs) else none

/-- Modelled from the spec: `_sntprintf` is a macro of `tchar.h`, which is not among
the sources; the spec has the visitor fail when "the formatted path exceeds the
scratch buffer", which is the C99 `snprintf(buf, size, ...)` the POSIX build gets.
Applied to the already formatted text `s`: the buffer receives at most `size - 1`
characters and the result is the length the complete text has. -/
def sntprintf (size : Nat) (s : CStr) : CStr × Int :=
  (s.take (size - 1), (s.length : Int))

/-! ## lsync.h -/

/-- The constant `#define BUFFER_SIZE 32768`. -/
def BUFFER_SIZE : Nat := 32768

def AT_NONE : Nat := 0x00
def AT_GROUP : Nat := 0x01
def AT_OWNER : Nat := 0x02
def AT_PERMS : Nat := 0x04

def CP_NONE : Nat := 0x00
def CP_DEVICES : Nat := 0x01
def CP_LINKS : Nat := 0x02
def CP_SPECIALS : Nat := 0x04

/-- The two platform dependent constants of `lsync.c` / `target.h`:
`PATH_SEPS` (the characters accepted as path separators) and `PCF_PATH_SEP`
(the separator used when paths are formatted). -/
structure Platform where
  PATH_SEPS : List Char
  PCF_PATH_SEP : Char
deriving Repr, DecidableEq

/-- The build `PCF_IS_LINUX`: `PATH_SEPS = "/"`, `PCF_PATH_SEP = "/"`. -/
def linux : Platform := ⟨['/'], '/'⟩

/-- The build `PCF_IS_WIN`: `PATH_SEPS = "\\/"`, `PCF_PATH_SEP = "\\"`. -/
def windows : Platform := ⟨['\\', '/'], '\\'⟩

/-- The options `tOptions` of `lsync.h`.  `linkDest` is `none` for `NULL`; `dst` and `ref` are
the contents of the two scratch buffers of `BUFFER_SIZE` characters each. -/
structure tOptions where
  devices : Int := 0
  group : Int := 0
  links : Int := 0
  owner : Int := 0
  perms : Int := 0
  recursive : Int := 0
  specials : Int := 0
  verbose : Int := 0
  linkDest : Option CStr := none
  srcArgs : List CStr := []
  srcIndex : Nat := 0
  srcCount : Int := 0
  dstArg : CStr := []
  dst : CStr := []
  ref : CStr := []
  attrMask : Nat := 0
  copyMask : Nat := 0
deriving Repr, DecidableEq

/-- The "I/O operations" declared at the end of `lsync.h`, implemented once per
platform, over a state `σ` of the outside world; `signalReceived` reads the
global cancellation flag. Every operation returns its `int` result and the
state it leaves behind. -/
structure IoOps (σ : Type) where
  signalReceived : σ → Int
  isFile : σ → CStr → Int
  isDirectory : σ → CStr → Int
  createDirectory : σ → CStr → Int → Int × σ
  createHardLink : σ → CStr → CStr → Int → Int × σ
  copyFile : σ → CStr → CStr → Nat → Int → Int × σ
  copyAttributes : σ → CStr → CStr → Nat → Int → Int × σ
  isNewerFile : σ → CStr → CStr → Int → Int × σ

/-- A call of one of the platform I/O operations, with its path arguments. -/
inductive Call where
  | createDirectory (dst : CStr)
  | createHardLink (src dst : CStr)
  | copyFile (src dst : CStr) (mask : Nat)
  | copyAttributes (src dst : CStr) (mask : Nat)
  | isNewerFile (src dst : CStr)
deriving Repr, DecidableEq

/-- A recorded call together with the value it returned. -/
structure Event where
  call : Call
  ret : Int
deriving Repr, DecidableEq

def Call.isCopyFile : Call → Bool
  | .copyFile _ _ _ => true
  | _ => false

def Call.isCreateHardLink : Call → Bool
  | .createHardLink _ _ => true
  | _ => false

def Call.isCreateDirectory : Call → Bool
  | .createDirectory _ => true
  | _ => false

def Call.isCopyAttributes : Call → Bool
  | .copyAttributes _ _ _ => true
  | _ => false

/-! ## lsync.c: backupVisitor -/

/-- What a call of `backupVisitor` leaves behind: the returned `int`, the options
(whose `dst` and `ref` buffers the visitor writes), the state of the outside
world, and the platform I/O operations it invoked, in order. -/
structure VisitorResult (σ : Type) where
  ret : Int
  opt : tOptions
  world : σ
  trace : List Event

/-- The string `opt->srcArgs[opt->srcIndex]`, the source root the driver is working on
(an index beyond the argument vector is undefined in C; the model reads an empty
string there). -/
def srcRoot (opt : tOptions) : CStr :=
  opt.srcArgs.getD opt.srcIndex []

/-- The pointer `srcElement` (lsync.c 284-289): the part of the source root behind its last
path separator, the whole root when it has none. -/
def srcElement (P : Platform) (opt : tOptions) : CStr :=
  match tcsrpbrk (srcRoot opt) P.PATH_SEPS with
  | none => srcRoot opt
  | some p => p.drop 1

/-- The offset `srcLen` (lsync.c 282, 290-292): the length of the source root, plus one when
`src` is longer than the root and the root's last character is no path separator.
For an empty root the C code reads `root[-1]`, which is undefined; the model reads
a nul there. -/
def srcLen (P : Platform) (opt : tOptions) (src : CStr) : Nat :=
  if (srcRoot opt).length < src.length ∧
      tcschr P.PATH_SEPS ((srcRoot opt).getLastD nul) = false then
    (srcRoot opt).length + 1
  else
    (srcRoot opt).length

/-- The text formatted into a scratch buffer (lsync.c 293-305 with `base = dstArg`,
319-329 with `base = linkDest`): `"%s" SEP "%s"` for a single file
(`isDir == 0 && item == NULL`), `"%s" SEP "%s" SEP "%s"` with `src + srcLen` for an
element of a directory tree. -/
def formatPath (P : Platform) (opt : tOptions) (base src : CStr) (item : Option CStr)
    (isDir : Int) : CStr :=
  if isDir = 0 ∧ item = none then
    base ++ P.PCF_PATH_SEP :: srcElement P opt
  else
    base ++ P.PCF_PATH_SEP :: (srcElement P opt ++ P.PCF_PATH_SEP :: src.drop (srcLen P opt src))

/-- The tail shared by all successful paths (lsync.c 349-350): `copyAttributes`
is called, its result is ignored, and the visitor returns 1. -/
def visitorFinish {σ : Type} (ops : IoOps σ) (src : CStr) (opt : tOptions) (w : σ)
    (t : List Event) : VisitorResult σ :=
  ⟨1, opt, (ops.copyAttributes w src opt.dst opt.attrMask opt.verbose).2,
    t ++ [⟨Call.copyAttributes src opt.dst opt.attrMask,
      (ops.copyAttributes w src opt.dst opt.attrMask opt.verbose).1⟩]⟩

/-- The call `copyFile(src, opt->dst, ...)` followed by the shared tail (lsync.c 314, 337, 343):
a result of 0 makes the visitor return 0. -/
def visitorCopy {σ : Type} (ops : IoOps σ) (src : CStr) (opt : tOptions) (w : σ)
    (t : List Event) : VisitorResult σ :=
  if (ops.copyFile w src opt.dst opt.copyMask opt.verbose).1 = 0 then
    ⟨0, opt, (ops.copyFile w src opt.dst opt.copyMask opt.verbose).2,
      t ++ [⟨Call.copyFile src opt.dst opt.copyMask, 0⟩]⟩
  else
    visitorFinish ops src opt (ops.copyFile w src opt.dst opt.copyMask opt.verbose).2
      (t ++ [⟨Call.copyFile src opt.dst opt.copyMask,
        (ops.copyFile w src opt.dst opt.copyMask opt.verbose).1⟩])

/-- The `switch (isNewerFile(opt->ref, src, 0))` of lsync.c 330-346, entered with the
reference path in `opt.ref`. -/
def visitorLinkDest {σ : Type} (ops : IoOps σ) (src : CStr) (opt : tOptions) (w : σ) :
    VisitorResult σ :=
  let n1 := ops.isNewerFile w opt.ref src 0
  let t1 : List Event := [⟨Call.isNewerFile opt.ref src, n1.1⟩]
  if n1.1 = 0 then
    -- case 0
    let l := ops.createHardLink n1.2 opt.ref opt.dst opt.verbose
    let t2 := t1 ++ [⟨Call.createHardLink opt.ref opt.dst, l.1⟩]
    if l.1 = 0 then
      visitorCopy ops src opt l.2 t2
    else
      visitorFinish ops src opt l.2 t2
  else
    -- case 1, default
    let n2 := ops.isNewerFile n1.2 opt.dst src 0
    let t2 := t1 ++ [⟨Call.isNewerFile opt.dst src, n2.1⟩]
    if n2.1 ≠ 0 then
      visitorCopy ops src opt n2.2 t2
    else
      visitorFinish ops src opt n2.2 t2

/-- The visitor `backupVisitor` (lsync.c 275-351).  `item` and `ext` are `none` for `NULL`;
`ext` and `level` are unused, as in the source. -/
def backupVisitor {σ : Type} (P : Platform) (ops : IoOps σ) (src : CStr)
    (item ext : Option CStr) (isDir : Int) (level : Nat) (opt : tOptions) (w : σ) :
    VisitorResult σ :=
  if ops.signalReceived w ≠ 0 then ⟨0, opt, w, []⟩
  else
    let d := sntprintf BUFFER_SIZE (formatPath P opt opt.dstArg src item isDir)
    let opt1 : tOptions := { opt with dst := d.1 }
    if d.2 ≥ (BUFFER_SIZE : Int) then ⟨0, opt1, w, []⟩
    else if isDir ≠ 0 then
      -- create target directory
      let c := ops.createDirectory w opt1.dst opt1.verbose
      if c.1 = 0 then ⟨0, opt1, c.2, [⟨Call.createDirectory opt1.dst, 0⟩]⟩
      else visitorFinish ops src opt1 c.2 [⟨Call.createDirectory opt1.dst, c.1⟩]
    else
      match opt1.linkDest with
      | none =>
        -- no reference directory given to link against; just copy
        visitorCopy ops src opt1 w []
      | some linkDest =>
        let r := sntprintf BUFFER_SIZE (formatPath P opt linkDest src item isDir)
        let opt2 : tOptions := { opt1 with ref := r.1 }
        if r.2 ≥ (BUFFER_SIZE : Int) then ⟨0, opt2, w, []⟩
        else visitorLinkDest ops src opt2 w

/-! ## lsync_linux.c -/

/-- The fields of `struct stat` the program reads.  The times are seconds
(`st_atime`, `st_mtime`, `st_ctime`) with the nanosecond parts of `st_atim` and
`st_mtim` beside them; `st_uid`, `st_gid` and `st_rdev` are unsigned 32 bit values. -/
structure Stat where
  st_mode : Nat
  st_size : Int
  st_mtime : Int
  st_ctime : Int
  st_uid : Nat := 0
  st_gid : Nat := 0
  st_rdev : Nat := 0
  st_atime : Int := 0
  st_atimensec : Nat := 0
  st_mtimensec : Nat := 0
deriving Repr, DecidableEq

/-- The macro `S_ISDIR(m)`: `(m & S_IFMT) == S_IFDIR`. -/
def S_ISDIR (m : Nat) : Bool := (m &&& 0o170000) == 0o040000

/-- The system calls used by the functions embedded so far, over a state `σ` of the
file system.  `stat` is `none` when the call fails (result `< 0`); `mkdir` returns
its `int` result and the new state. -/
structure Posix (σ : Type) where
  stat : σ → CStr → Option Stat
  mkdir : σ → CStr → Nat → Int × σ

namespace Linux

/-- Function `isFile` (lsync_linux.c 68-72). -/
def isFile {σ : Type} (px : Posix σ) (w : σ) (src : CStr) : Int :=
  match px.stat w src with
  | some stats => if !S_ISDIR stats.st_mode then 1 else 0
  | none => 0

/-- Function `isDirectory` (lsync_linux.c 81-85). -/
def isDirectory {σ : Type} (px : Posix σ) (w : σ) (src : CStr) : Int :=
  match px.stat w src with
  | some stats => if S_ISDIR stats.st_mode then 1 else 0
  | none => 0

/-- The `for (;;)` loop of `createDirectory` (lsync_linux.c 114-135), entered after
`end` has been computed for this round: `dir` is tested and, when it is no
directory, created; the loop ends when `end` is `NULL`, otherwise the character
at `end` is overwritten with the separator and `end` moves to the next separator.
Note that `dir` always holds the complete path: the source never writes a nul
at `end`.  The fuel bounds the number of rounds; `none` means it ran out. -/
def createDirectoryLoop {σ : Type} (px : Posix σ) :
    Nat → CStr → Option Nat → σ → Option (Int × σ)
  | 0, _, _, _ => none
  | fuel + 1, dir, e, w =>
    let m : Int × σ := if isDirectory px w dir = 0 then px.mkdir w dir 0o777 else (0, w)
    if m.1 < 0 then some (0, m.2)
    else
      match e with
      | none => some (1, m.2)
      | some i =>
        createDirectoryLoop px fuel (dir.set i '/') (tcspbrk (dir.set i '/') (i + 1) ['/']) m.2

/-- Function `createDirectory` (lsync_linux.c 95-140) for a non-`NULL` `dst`; the allocation
of the working copy `dir` is taken to succeed.  `end` moves strictly forward
through `dir`, so `len + 1` rounds always suffice (`createDirectory_total`).  For an
absolute path shorter than four characters `dir + 4` lies behind the string
(undefined in C); the model finds no separator there. -/
def createDirectory {σ : Type} (px : Posix σ) (w : σ) (dst : CStr) (verbose : Int) :
    Option (Int × σ) :=
  if dst = [] then some (0, w)
  else if dst.getD 1 nul = ':' ∧ dst.length < 4 then some (1, w)
  else
    createDirectoryLoop px (dst.length + 1) dst
      (if dst.head? = some '/' then tcspbrk dst 4 ['/'] else tcspbrk dst 0 ['/']) w

/-- Function `isNewerFile` (lsync_linux.c 375-397) for non-`NULL` arguments. -/
def isNewerFile {σ : Type} (px : Posix σ) (w : σ) (src dst : CStr) (verbose : Int) : Int :=
  match px.stat w src with
  | none => -1
  | some srcStats =>
    match px.stat w dst with
    | none => 0
    | some dstStats =>
      if srcStats.st_size = dstStats.st_size then
        if srcStats.st_mtime < dstStats.st_mtime ∨ srcStats.st_ctime < dstStats.st_ctime then 1
        else 0
      else 1

end Linux

/-! ## lsync_linux.c: the operations that change the file system -/

/-- The macro `S_ISCHR(m)`. -/
def S_ISCHR (m : Nat) : Bool := (m &&& 0o170000) == 0o020000

/-- The macro `S_ISBLK(m)`. -/
def S_ISBLK (m : Nat) : Bool := (m &&& 0o170000) == 0o060000

/-- The macro `S_ISSOCK(m)`. -/
def S_ISSOCK (m : Nat) : Bool := (m &&& 0o170000) == 0o140000

/-- The macro `S_ISFIFO(m)`. -/
def S_ISFIFO (m : Nat) : Bool := (m &&& 0o170000) == 0o010000

/-- The macro `S_ISLNK(m)`: `(m & S_IFMT) == S_IFLNK`. -/
def S_ISLNK (m : Nat) : Bool := (m &&& 0o170000) == 0o120000

def EAGAIN : Nat := 11
def EWOULDBLOCK : Nat := 11
def EINTR : Nat := 4
def EIO : Nat := 5

/-- The value `(uid_t)(-1)` / `(gid_t)(-1)` that makes `chown` leave an id as it is. -/
def ID_UNCHANGED : Nat := 4294967295

/-- A system call that acts on the file system or on a descriptor, with its
arguments. -/
inductive Sys where
  | unlink (path : CStr)
  | link (oldpath newpath : CStr)
  | mknod (path : CStr) (mode dev : Nat)
  | symlink (target linkpath : CStr)
  | mkfifo (path : CStr) (mode : Nat)
  | openRead (path : CStr)
  | openCreate (path : CStr) (mode : Nat)
  | read (fd : Int) (count : Nat)
  | write (fd : Int) (bytes : List Nat)
  | close (fd : Int)
  | chown (path : CStr) (owner group : Nat)
  | chmod (path : CStr) (mode : Nat)
  | utimens (path : CStr) (atime : Int) (atimensec : Nat) (mtime : Int) (mtimensec : Nat)
deriving Repr, DecidableEq

/-- A system call that was made, with its result (`-1` for a failure). -/
structure SysEvent where
  call : Sys
  ret : Int
deriving Repr, DecidableEq

/-- What an operation of the POSIX adapter leaves behind: its `int` result, the
state of the file system, and the system calls it made, in order. -/
structure SysResult (σ : Type) where
  ret : Int
  world : σ
  calls : List SysEvent

/-- The further system calls of the POSIX adapter and of the traverser.  Each
state-changing call returns its `int` result and the new state; `opendir` is the
listing described at `DirOps`; `readlink` returns its result and the bytes placed
in the buffer; `utimens` stands for `utimensat(AT_FDCWD, path, times, 0)` and for
`utimes(path, times)`, with the two times given as seconds and nanoseconds. -/
structure PosixFs (σ : Type) extends Posix σ where
  opendir : σ → CStr → Option (List CStr)
  unlink : σ → CStr → Int × σ
  link : σ → CStr → CStr → Int × σ
  mknod : σ → CStr → Nat → Nat → Int × σ
  readlink : σ → CStr → Nat → Int × CStr
  symlink : σ → CStr → CStr → Int × σ
  mkfifo : σ → CStr → Nat → Int × σ
  chown : σ → CStr → Nat → Nat → Int × σ
  chmod : σ → CStr → Nat → Int × σ
  utimens : σ → CStr → Int → Nat → Int → Nat → Int × σ

/-- The result of `read`: the bytes delivered (none at end of file), or a failure
with the value it leaves in `errno`. -/
inductive ReadResult where
  | data (bytes : List Nat)
  | error (errno : Nat)
deriving Repr, DecidableEq

/-- The result of `write`: the number of bytes accepted, or a failure with the value
it leaves in `errno`. -/
inductive WriteResult where
  | done (n : Nat)
  | error (errno : Nat)
deriving Repr, DecidableEq

/-- The descriptor calls of the regular-file copy: `open(src, O_RDONLY | O_LARGEFILE)`,
`open(dst, O_WRONLY | O_CREAT | O_LARGEFILE | O_EXCL, mode)`, `read`, `write`, `close`. -/
structure FileIO (σ : Type) where
  openRead : σ → CStr → Int × σ
  openCreate : σ → CStr → Nat → Int × σ
  read : σ → Int → Nat → ReadResult × σ
  write : σ → Int → List Nat → WriteResult × σ
  close : σ → Int → σ

namespace Linux

/-- Function `deleteIfFile` (lsync_linux.c 51-59). -/
def deleteIfFile {σ : Type} (px : PosixFs σ) (w : σ) (dst : CStr) (verbose : Int) :
    SysResult σ :=
  if isFile px.toPosix w dst ≠ 0 then
    if (px.unlink w dst).1 < 0 then
      ⟨0, (px.unlink w dst).2, [⟨Sys.unlink dst, (px.unlink w dst).1⟩]⟩
    else
      ⟨1, (px.unlink w dst).2, [⟨Sys.unlink dst, (px.unlink w dst).1⟩]⟩
  else ⟨1, w, []⟩

/-- Function `createHardLink` (lsync_linux.c 152-163) for non-`NULL` arguments. -/
def createHardLink {σ : Type} (px : PosixFs σ) (w : σ) (src dst : CStr) (verbose : Int) :
    SysResult σ :=
  if (deleteIfFile px w dst verbose).ret = 0 then
    ⟨0, (deleteIfFile px w dst verbose).world, (deleteIfFile px w dst verbose).calls⟩
  else if (px.link (deleteIfFile px w dst verbose).world src dst).1 < 0 then
    ⟨0, (px.link (deleteIfFile px w dst verbose).world src dst).2,
      (deleteIfFile px w dst verbose).calls ++
        [⟨Sys.link src dst, (px.link (deleteIfFile px w dst verbose).world src dst).1⟩]⟩
  else
    ⟨1, (px.link (deleteIfFile px w dst verbose).world src dst).2,
      (deleteIfFile px w dst verbose).calls ++
        [⟨Sys.link src dst, (px.link (deleteIfFile px w dst verbose).world src dst).1⟩]⟩

/-- The two nested loops of the regular-file copy (lsync_linux.c 269-288) as one
loop over the bytes of the buffer that are still to be written (`pending`, from
`outPtr` to `buffer + got`) and the current `errno`: with nothing pending the next
step is `read(in, buffer, 16384)`, otherwise `errno = 0` and `write(out, outPtr, ...)`.
The result is 1 when the loops are left normally (`result = 1` follows) and 0 for
`goto onError`; `none` when the fuel runs out. -/
def copyLoop {σ : Type} (fio : FileIO σ) (fdIn fdOut : Int) :
    Nat → List Nat → Nat → σ → Option (SysResult σ)
  | 0, _, _, _ => none
  | fuel + 1, [], errno, w =>
    match fio.read w fdIn 16384 with
    | (ReadResult.data [], w1) =>
      -- got == 0: the inner loop and the do-while end
      some ⟨1, w1, [⟨Sys.read fdIn 16384, 0⟩]⟩
    | (ReadResult.data (b :: bs), w1) =>
      if errno ≠ 0 ∧ errno ≠ EAGAIN ∧ errno ≠ EWOULDBLOCK then
        some ⟨0, w1, [⟨Sys.read fdIn 16384, ((b :: bs).length : Int)⟩]⟩
      else
        (copyLoop fio fdIn fdOut fuel (b :: bs) errno w1).map
          (fun r => ⟨r.ret, r.world, ⟨Sys.read fdIn 16384, ((b :: bs).length : Int)⟩ :: r.calls⟩)
    | (ReadResult.error e, w1) =>
      -- got < 0: the inner loop ends; the do-while goes on when errno allows it
      if e = 0 ∨ e = EAGAIN ∨ e = EWOULDBLOCK then
        (copyLoop fio fdIn fdOut fuel [] 0 w1).map
          (fun r => ⟨r.ret, r.world, ⟨Sys.read fdIn 16384, -1⟩ :: r.calls⟩)
      else
        some ⟨1, w1, [⟨Sys.read fdIn 16384, -1⟩]⟩
  | fuel + 1, b :: bs, _, w =>
    match fio.write w fdOut (b :: bs) with
    | (WriteResult.done n, w1) =>
      (copyLoop fio fdIn fdOut fuel ((b :: bs).drop n) 0 w1).map
        (fun r => ⟨r.ret, r.world, ⟨Sys.write fdOut (b :: bs), (n : Int)⟩ :: r.calls⟩)
    | (WriteResult.error e, w1) =>
      -- done = 0, nothing is skipped
      if e ≠ 0 ∧ e ≠ EAGAIN ∧ e ≠ EWOULDBLOCK then
        some ⟨0, w1, [⟨Sys.write fdOut (b :: bs), -1⟩]⟩
      else
        (copyLoop fio fdIn fdOut fuel (b :: bs) e w1).map
          (fun r => ⟨r.ret, r.world, ⟨Sys.write fdOut (b :: bs), -1⟩ :: r.calls⟩)

/-- The `onError` exit of `copyFile` (lsync_linux.c 294-296): `in` and `out` are closed
when they are greater than 0. -/
def closeBoth {σ : Type} (fio : FileIO σ) (fdIn fdOut : Int) (w : σ) : σ × List SysEvent :=
  ((if 0 < fdOut then fio.close (if 0 < fdIn then fio.close w fdIn else w) fdOut
      else (if 0 < fdIn then fio.close w fdIn else w)),
    (if 0 < fdIn then [⟨Sys.close fdIn, 0⟩] else []) ++
      (if 0 < fdOut then [⟨Sys.close fdOut, 0⟩] else []))

/-- The regular-file part of `copyFile` (lsync_linux.c 254-297). -/
def copyRegular {σ : Type} (px : PosixFs σ) (fio : FileIO σ) (fuel : Nat) (w : σ)
    (src dst : CStr) (verbose : Int) : Option (SysResult σ) :=
  if (deleteIfFile px w dst verbose).ret = 0 then
    some ⟨0, (deleteIfFile px w dst verbose).world, (deleteIfFile px w dst verbose).calls⟩
  else if (fio.openRead (deleteIfFile px w dst verbose).world src).1 < 0 then
    some ⟨0, (fio.openRead (deleteIfFile px w dst verbose).world src).2,
      (deleteIfFile px w dst verbose).calls ++
        [⟨Sys.openRead src, (fio.openRead (deleteIfFile px w dst verbose).world src).1⟩]⟩
  else
    let i := fio.openRead (deleteIfFile px w dst verbose).world src
    let o := fio.openCreate i.2 dst 0o777
    let opened : List SysEvent := (deleteIfFile px w dst verbose).calls ++
      [⟨Sys.openRead src, i.1⟩, ⟨Sys.openCreate dst 0o777, o.1⟩]
    if o.1 < 0 then
      some ⟨0, (closeBoth fio i.1 0 o.2).1, opened ++ (closeBoth fio i.1 0 o.2).2⟩
    else
      (copyLoop fio i.1 o.1 fuel [] 0 o.2).map
        (fun r => ⟨r.ret, (closeBoth fio i.1 o.1 r.world).1,
          opened ++ r.calls ++ (closeBoth fio i.1 o.1 r.world).2⟩)

/-- Function `copyFile` (lsync_linux.c 176-298) for non-`NULL` arguments; allocation is
taken to succeed.  The link text handed to `symlink` is the C string in `buf` after
`buf[st_size] = 0`.  The result is `none` when the copy loop does not end within
the fuel. -/
def copyFile {σ : Type} (px : PosixFs σ) (fio : FileIO σ) (fuel : Nat) (w : σ)
    (src dst : CStr) (mask : Nat) (verbose : Int) : Option (SysResult σ) :=
  match px.stat w src with
  | none => some ⟨0, w, []⟩
  | some stats =>
    if S_ISCHR stats.st_mode ∨ S_ISBLK stats.st_mode ∨ S_ISSOCK stats.st_mode then
      -- handle devices
      if mask &&& CP_DEVICES ≠ 0 then
        if (deleteIfFile px w dst verbose).ret = 0 then
          some ⟨0, (deleteIfFile px w dst verbose).world, (deleteIfFile px w dst verbose).calls⟩
        else
          let m := px.mknod (deleteIfFile px w dst verbose).world dst stats.st_mode stats.st_rdev
          some ⟨if m.1 < 0 then 0 else 1, m.2,
            (deleteIfFile px w dst verbose).calls ++
              [⟨Sys.mknod dst stats.st_mode stats.st_rdev, m.1⟩]⟩
      else some ⟨1, w, []⟩
    else if S_ISLNK stats.st_mode then
      -- handle symbolic links
      if mask &&& CP_LINKS ≠ 0 then
        if stats.st_size ≤ 0 then some ⟨0, w, []⟩
        else if (deleteIfFile px w dst verbose).ret = 0 then
          some ⟨0, (deleteIfFile px w dst verbose).world, (deleteIfFile px w dst verbose).calls⟩
        else
          let r := px.readlink (deleteIfFile px w dst verbose).world src stats.st_size.toNat
          if r.1 < stats.st_size then
            some ⟨0, (deleteIfFile px w dst verbose).world, (deleteIfFile px w dst verbose).calls⟩
          else
            let buf : CStr := (r.2.take stats.st_size.toNat).takeWhile (fun c => c != nul)
            let l := px.symlink (deleteIfFile px w dst verbose).world dst buf
            some ⟨if l.1 < 0 then 0 else 1, l.2,
              (deleteIfFile px w dst verbose).calls ++ [⟨Sys.symlink dst buf, l.1⟩]⟩
      else some ⟨1, w, []⟩
    else if S_ISFIFO stats.st_mode then
      -- handle special types
      if mask &&& CP_SPECIALS ≠ 0 then
        let f := px.mkfifo w dst 0o777
        some ⟨if f.1 < 0 then 0 else 1, f.2, [⟨Sys.mkfifo dst 0o777, f.1⟩]⟩
      else some ⟨1, w, []⟩
    else
      -- handle regular files
      copyRegular px fio fuel w src dst verbose

/-- Function `copyAttributes` (lsync_linux.c 311-363) for non-`NULL` arguments.
`nsec` tells which branch of the `#if` is compiled: `utimensat` with the times of
`st_atim` / `st_mtim` (nanoseconds), or `utimes` with microseconds
(`st_atimensec / 1000`), which are `(st_atimensec / 1000) * 1000` nanoseconds. -/
def copyAttributes {σ : Type} (px : PosixFs σ) (nsec : Bool) (w : σ) (src dst : CStr)
    (mask : Nat) (verbose : Int) : SysResult σ :=
  if mask = AT_NONE then ⟨1, w, []⟩
  else
    match px.stat w src with
    | none => ⟨0, w, []⟩
    | some stats =>
      let c : SysResult σ :=
        if mask &&& (AT_GROUP ||| AT_OWNER) ≠ 0 then
          let uid := if mask &&& AT_OWNER ≠ 0 then stats.st_uid else ID_UNCHANGED
          let gid := if mask &&& AT_GROUP ≠ 0 then stats.st_gid else ID_UNCHANGED
          ⟨(px.chown w dst uid gid).1, (px.chown w dst uid gid).2,
            [⟨Sys.chown dst uid gid, (px.chown w dst uid gid).1⟩]⟩
        else ⟨0, w, []⟩
      if c.ret < 0 then ⟨0, c.world, c.calls⟩
      else
        let m : SysResult σ :=
          if mask &&& AT_PERMS ≠ 0 then
            ⟨(px.chmod c.world dst stats.st_mode).1, (px.chmod c.world dst stats.st_mode).2,
              c.calls ++ [⟨Sys.chmod dst stats.st_mode, (px.chmod c.world dst stats.st_mode).1⟩]⟩
          else ⟨0, c.world, c.calls⟩
        if m.ret < 0 then ⟨0, m.world, m.calls⟩
        else
          let ans := if nsec then stats.st_atimensec else stats.st_atimensec / 1000 * 1000
          let mns := if nsec then stats.st_mtimensec else stats.st_mtimensec / 1000 * 1000
          let u := px.utimens m.world dst stats.st_atime ans stats.st_mtime mns
          ⟨if u.1 < 0 then 0 else 1, u.2,
            m.calls ++ [⟨Sys.utimens dst stats.st_atime ans stats.st_mtime mns, u.1⟩]⟩

/-- The POSIX adapter as a whole: the operations of `lsync.h` implemented by
`lsync_linux.c`, with `signalReceived` read from the state.  (`createDirectory`
always returns; `copyFile` answers 0 should its loop not end within the fuel.) -/
def ops {σ : Type} (px : PosixFs σ) (fio : FileIO σ) (nsec : Bool) (fuel : Nat)
    (signalReceived : σ → Int) : IoOps σ where
  signalReceived := signalReceived
  isFile := isFile px.toPosix
  isDirectory := isDirectory px.toPosix
  createDirectory := fun w dst verbose => (createDirectory px.toPosix w dst verbose).getD (0, w)
  createHardLink := fun w src dst verbose =>
    ((createHardLink px w src dst verbose).ret, (createHardLink px w src dst verbose).world)
  copyFile := fun w src dst mask verbose =>
    match copyFile px fio fuel w src dst mask verbose with
    | some r => (r.ret, r.world)
    | none => (0, w)
  copyAttributes := fun w src dst mask verbose =>
    ((copyAttributes px nsec w src dst mask verbose).ret,
      (copyAttributes px nsec w src dst mask verbose).world)
  isNewerFile := fun w a b verbose => (isNewerFile px.toPosix w a b verbose, w)

end Linux

/-! ## lsync-win.c -/

/-- The Win32 calls used by the Windows `isNewerFile`: `CreateFile` with
`OPEN_EXISTING` (`none` is `INVALID_HANDLE_VALUE`), `GetFileTime` for the last
write time as `(dwHighDateTime, dwLowDateTime)` and `GetFileSizeEx` (`none` when
the call returns 0). -/
structure Win32 (σ : Type) where
  CreateFile : σ → CStr → Option Nat
  GetFileTime : σ → Nat → Option (Nat × Nat)
  GetFileSizeEx : σ → Nat → Option Int

namespace Win

/-- Function `isNewerFile` (lsync-win.c 340-385) for non-`NULL` arguments. -/
def isNewerFile {σ : Type} (wx : Win32 σ) (w : σ) (src dst : CStr) (verbose : Int) : Int :=
  match wx.CreateFile w src with
  | none => -1
  | some file =>
    match wx.GetFileTime w file with
    | none => -1
    | some srcTime =>
      match wx.GetFileSizeEx w file with
      | none => -1
      | some srcSize =>
        match wx.CreateFile w dst with
        | none => 0
        | some file2 =>
          match wx.GetFileTime w file2 with
          | none => -1
          | some dstTime =>
            match wx.GetFileSizeEx w file2 with
            | none => -1
            | some dstSize =>
              if srcSize = dstSize then
                if srcTime.1 < dstTime.1 then 1
                else if srcTime.1 = dstTime.1 then
                  (if srcTime.2 < dstTime.2 then 1 else 0)
                else 0
              else 1

end Win

/-! ## tdirs.c (POSIX branch) -/

def TDSO_DIRECTORY : Nat := 1
def TDSO_ITEM : Nat := 2
def TDSO_FOLLOW_LINKS : Nat := 4
def TDSO_ALL : Nat := 7

/-- The call `strrchr(s, c)` for a character `c` other than nul: the suffix of `s` that
starts at the last occurrence of `c`; `none` is `NULL`. -/
def strrchr : CStr → Char → Option CStr
  | [], _ => none
  | a :: as, c =>
    match strrchr as c with
    | some r => some r
    | none => if a = c then some (a :: as) else none

/-- What the traverser reads from the file system in a state `S` (which also holds
whatever the visitor's `param` points to): `opendir` followed by `readdir` until it
returns `NULL` yields the names of the directory in listing order (`none` when
`opendir` fails; the listing is the one present when the directory is opened), and
`stat`. -/
structure DirOps (S : Type) where
  opendir : S → CStr → Option (List CStr)
  stat : S → CStr → Option Stat

/-- The callback type `TraverseDirVisitorS` (tdirs.h): path, item, ext, isDir, level,
and the state that `param` points into; it returns 0 to abort and 1 to continue. -/
abbrev Visitor (S : Type) := CStr → Option CStr → Option CStr → Int → Nat → S → Int × S

/-- One invocation of the visitor by the traverser, with the value it returned. -/
structure VisitCall where
  path : CStr
  item : CStr
  ext : CStr
  isDir : Int
  level : Nat
  ret : Int
deriving Repr, DecidableEq

/-- What a traversal leaves behind: the returned `int`, the state, and the visitor
invocations it made, in order. -/
structure TraverseResult (S : Type) where
  ret : Int
  state : S
  calls : List VisitCall

/-- The path formatted into `newPath` (tdirs.c 159-163): `"%s%s"` when the last
character of `path` is a backslash or a slash, `"%s/%s"` otherwise.  (For an empty
`path` the C code reads `path[-1]`, undefined; the model takes the second format.)
The buffer is grown until the whole text fits, so `newPath` is the whole text. -/
def tdsNewPath (path name : CStr) : CStr :=
  if path.getLast? = some '\\' ∨ path.getLast? = some '/' then path ++ name
  else path ++ '/' :: name

/-- The pointer `itemName` (tdirs.c 180): the last `strlen(d_name)` characters of
`newPath`. -/
def tdsItemName (newPath name : CStr) : CStr :=
  newPath.drop (newPath.length - name.length)

/-- The pointer `itemExt` (tdirs.c 181-184): the last dot in `itemName`, or the
terminating nul of `itemName` when it has no dot. -/
def tdsItemExt (newPath name : CStr) : CStr :=
  match strrchr (tdsItemName newPath name) '.' with
  | some e => e
  | none => (tdsItemName newPath name).drop name.length

/-- What one round of the loop of `tds_traverseR` leaves behind: the local `itemStat`,
`result`, the state, and the visitor invocations made in the round. -/
structure StepResult (S : Type) where
  itemStat : Stat
  result : Int
  state : S
  calls : List VisitCall

/-- The guarded visitor invocation of the loop body (tdirs.c 188-192 with
`bit = TDSO_DIRECTORY`, `isDir = 1`; 205-209 with `bit = TDSO_ITEM`, `isDir = 0`):
when the option bit is set the visitor is invoked and its result returned with the
new state; otherwise nothing happens, which the model reports as the result 1. -/
def tdsVisit {S : Type} (visitor : Visitor S) (options bit : Nat) (newPath name : CStr)
    (isDir : Int) (curLevel : Nat) (s : S) : TraverseResult S :=
  if options &&& bit ≠ 0 then
    ⟨(visitor newPath (some (tdsItemName newPath name)) (some (tdsItemExt newPath name))
        isDir curLevel s).1,
      (visitor newPath (some (tdsItemName newPath name)) (some (tdsItemExt newPath name))
        isDir curLevel s).2,
      [⟨newPath, tdsItemName newPath name, tdsItemExt newPath name, isDir, curLevel,
        (visitor newPath (some (tdsItemName newPath name)) (some (tdsItemExt newPath name))
          isDir curLevel s).1⟩]⟩
  else ⟨1, s, []⟩

/-- The body of the `while` loop of `tds_traverseR` (tdirs.c 151-210) for the entry
`name`, entered with `result == 1`.  `recurse` stands for the call
`tds_traverseR(newPath, maxLevel, curLevel + 1, ...)`; `itemStat` is the local
`struct stat`, which keeps its old contents when `stat` fails (its result is not
checked); allocation is taken to succeed.  The result is `none` when the recursive
call does not return within its fuel. -/
def tdsStep {S : Type} (d : DirOps S) (visitor : Visitor S)
    (recurse : CStr → S → Option (TraverseResult S)) (options : Nat) (path : CStr)
    (curLevel : Nat) (name : CStr) (itemStat : Stat) (s : S) : Option (StepResult S) :=
  if name = ".".toList ∨ name = "..".toList then some ⟨itemStat, 1, s, []⟩
  else if ((tdsNewPath path name).length : Int) < 1 then some ⟨itemStat, -1, s, []⟩
  else
    let newPath := tdsNewPath path name
    let st := (d.stat s newPath).getD itemStat
    if S_ISDIR st.st_mode then
      -- directory
      let v := tdsVisit visitor options TDSO_DIRECTORY newPath name 1 curLevel s
      if (!S_ISLNK st.st_mode) ∨ options &&& TDSO_FOLLOW_LINKS ≠ 0 then
        match recurse newPath v.state with
        | none => none
        | some r =>
          some ⟨st,
            if r.ret = 0 then 0 else if r.ret = 1 then (if v.ret = 0 then 0 else 1) else -1,
            r.state, v.calls ++ r.calls⟩
      else some ⟨st, if v.ret = 0 then 0 else 1, v.state, v.calls⟩
    else
      -- normal item
      let v := tdsVisit visitor options TDSO_ITEM newPath name 0 curLevel s
      some ⟨st, if v.ret = 0 then 0 else 1, v.state, v.calls⟩

/-- The `while (result == 1 && (item = readdir(dp)) != NULL)` loop of `tds_traverseR`
(tdirs.c 150-211) over the names still to be read. -/
def tdsEntries {S : Type} (d : DirOps S) (visitor : Visitor S)
    (recurse : CStr → S → Option (TraverseResult S)) (options : Nat) (path : CStr)
    (curLevel : Nat) : List CStr → Stat → Int → S → Option (TraverseResult S)
  | [], _, result, s => some ⟨result, s, []⟩
  | name :: rest, itemStat, result, s =>
    if result ≠ 1 then some ⟨result, s, []⟩
    else
      match tdsStep d visitor recurse options path curLevel name itemStat s with
      | none => none
      | some r =>
        (tdsEntries d visitor recurse options path curLevel rest r.itemStat r.result
            r.state).map
          (fun t => ⟨t.ret, t.state, r.calls ++ t.calls⟩)

/-- Function `tds_traverseR` (tdirs.c 140-216, POSIX branch).  `curLevel` is an
`unsigned int`, so `curLevel + 1` is taken modulo `2^32`; `uninit` is the
indeterminate initial content of the local `itemStat`; the fuel bounds the depth of
the recursion (`none` when it runs out). -/
def tds_traverseR {S : Type} (d : DirOps S) (visitor : Visitor S) (maxLevel : Int)
    (options : Nat) (uninit : Stat) : Nat → CStr → Nat → S → Option (TraverseResult S)
  | 0, _, _, _ => none
  | fuel + 1, path, curLevel, s =>
    if 0 ≤ maxLevel ∧ maxLevel < (curLevel : Int) then some ⟨1, s, []⟩
    else
      match d.opendir s path with
      | none => some ⟨-1, s, []⟩
      | some names =>
        tdsEntries d visitor
          (fun p s1 =>
            tds_traverseR d visitor maxLevel options uninit fuel p ((curLevel + 1) % 2 ^ 32) s1)
          options path curLevel names uninit 1 s

/-- Function `tds_traverse` (tdirs.c 231-238) for a non-`NULL` path and visitor. -/
def tds_traverse {S : Type} (d : DirOps S) (visitor : Visitor S) (uninit : Stat) (fuel : Nat)
    (path : CStr) (maxLevel : Int) (options : Nat) (s : S) : Option (TraverseResult S) :=
  if options &&& TDSO_ALL = 0 then some ⟨-1, s, []⟩
  else tds_traverseR d visitor maxLevel (options &&& TDSO_ALL) uninit fuel path 0 s

/-! ## lsync.c: the driver -/

def EXIT_SUCCESS : Int := 0
def EXIT_FAILURE : Int := 1

/-- The state a run threads through the traverser: what `param` points to (the
options with the two scratch buffers), the outside world, and the platform
operations invoked so far. -/
structure RunState (σ : Type) where
  opt : tOptions
  world : σ
  trace : List Event

/-- The visitor `backupVisitor` as the callback handed to `td_traverse` with
`param = &opt`. -/
def visitorOn {σ : Type} (P : Platform) (ops : IoOps σ) : Visitor (RunState σ) :=
  fun src item ext isDir level st =>
    ((backupVisitor P ops src item ext isDir level st.opt st.world).ret,
      ⟨(backupVisitor P ops src item ext isDir level st.opt st.world).opt,
        (backupVisitor P ops src item ext isDir level st.opt st.world).world,
        st.trace ++ (backupVisitor P ops src item ext isDir level st.opt st.world).trace⟩)

/-- The traverser's two calls, taken from the system calls. -/
def Linux.dirOps {σ : Type} (px : PosixFs σ) : DirOps σ where
  opendir := px.opendir
  stat := px.stat

/-- The traverser's view of the file system during a run. -/
def runDirOps {σ : Type} (d : DirOps σ) : DirOps (RunState σ) where
  opendir := fun st p => d.opendir st.world p
  stat := fun st p => d.stat st.world p

/-- What the driver does for one source, as seen from outside: its own visitor call
(`item = NULL`, level 0), a traversal with its arguments, result and visitor calls,
or the report that the source was not found. -/
inductive DriverEvent where
  | visit (srcIndex : Nat) (src : CStr) (isDir : Int) (ret : Int)
  | traverse (srcIndex : Nat) (path : CStr) (maxLevel : Int) (options : Nat) (ret : Int)
      (calls : List VisitCall)
  | notFound (srcIndex : Nat) (src : CStr)
deriving Repr, DecidableEq

/-- The source index a driver event belongs to. -/
def DriverEvent.srcIndex : DriverEvent → Nat
  | .visit i _ _ _ => i
  | .traverse i _ _ _ _ _ => i
  | .notFound i _ => i

/-- The outcome of a run: the exit code of the process, the final state, and what
the driver did per source, in order. -/
structure DriverResult (σ : Type) where
  exit : Int
  state : RunState σ
  log : List DriverEvent

/-- The step `opt.srcIndex++` of the `for` loop. -/
def nextSource {σ : Type} (st : RunState σ) : RunState σ :=
  { st with opt := { st.opt with srcIndex := st.opt.srcIndex + 1 } }

/-- The `for` loop of `_tmain` (lsync.c 170-203) over the source arguments still to be
processed (`argv[i]` for the remaining `i`); leaving the loop normally gives
`EXIT_SUCCESS`, `goto onError` gives `EXIT_FAILURE`.  The result is `none` when a
traversal does not return within the fuel. -/
def mainLoop {σ : Type} (P : Platform) (ops : IoOps σ) (d : DirOps σ) (uninit : Stat)
    (fuel : Nat) : List CStr → RunState σ → Option (DriverResult σ)
  | [], st => some ⟨EXIT_SUCCESS, st, []⟩
  | src :: rest, st =>
    if ops.signalReceived st.world ≠ 0 then some ⟨EXIT_SUCCESS, st, []⟩
    else if ops.isFile st.world src ≠ 0 then
      -- process file
      if (visitorOn P ops src none none 0 0 st).1 ≠ 0 then
        (mainLoop P ops d uninit fuel rest
            (nextSource (visitorOn P ops src none none 0 0 st).2)).map
          (fun r => ⟨r.exit, r.state,
            DriverEvent.visit st.opt.srcIndex src 0 (visitorOn P ops src none none 0 0 st).1 ::
              r.log⟩)
      else
        some ⟨EXIT_FAILURE, (visitorOn P ops src none none 0 0 st).2,
          [DriverEvent.visit st.opt.srcIndex src 0 0]⟩
    else if ops.isDirectory st.world src ≠ 0 then
      -- needed to create output folder
      if (visitorOn P ops src none none 1 0 st).1 = 0 then
        some ⟨EXIT_FAILURE, (visitorOn P ops src none none 1 0 st).2,
          [DriverEvent.visit st.opt.srcIndex src 1 0]⟩
      else
        -- process directory tree
        match tds_traverse (runDirOps d) (visitorOn P ops) uninit fuel src
            (if st.opt.recursive = 0 then 0 else -1) (TDSO_DIRECTORY ||| TDSO_ITEM)
            (visitorOn P ops src none none 1 0 st).2 with
        | none => none
        | some t =>
          if t.ret = 0 ∨ t.ret = -1 then
            some ⟨EXIT_FAILURE, t.state,
              [DriverEvent.visit st.opt.srcIndex src 1 (visitorOn P ops src none none 1 0 st).1,
               DriverEvent.traverse st.opt.srcIndex src (if st.opt.recursive = 0 then 0 else -1)
                 (TDSO_DIRECTORY ||| TDSO_ITEM) t.ret t.calls]⟩
          else
            (mainLoop P ops d uninit fuel rest (nextSource t.state)).map
              (fun r => ⟨r.exit, r.state,
                DriverEvent.visit st.opt.srcIndex src 1
                    (visitorOn P ops src none none 1 0 st).1 ::
                  DriverEvent.traverse st.opt.srcIndex src
                    (if st.opt.recursive = 0 then 0 else -1)
                    (TDSO_DIRECTORY ||| TDSO_ITEM) t.ret t.calls :: r.log⟩)
    else
      some ⟨EXIT_FAILURE, st, [DriverEvent.notFound st.opt.srcIndex src]⟩

/-- The "prepare options" block of `_tmain` (lsync.c 141-162) for the positional
arguments `sources ... destination`, with the loop initialisation `opt.srcIndex = 0`;
the allocation of the two buffers is taken to succeed and their contents start
empty. -/
def prepareOptions (opt : tOptions) (sources : List CStr) (destination : CStr) : tOptions :=
  { opt with
    srcArgs := sources
    srcIndex := 0
    srcCount := sources.length
    dstArg := destination
    dst := []
    ref := []
    attrMask := (if opt.group ≠ 0 then AT_GROUP else AT_NONE) |||
      (if opt.owner ≠ 0 then AT_OWNER else AT_NONE) |||
      (if opt.perms ≠ 0 then AT_PERMS else AT_NONE)
    copyMask := (if opt.devices ≠ 0 then CP_DEVICES else CP_NONE) |||
      (if opt.links ≠ 0 then CP_LINKS else CP_NONE) |||
      (if opt.specials ≠ 0 then CP_SPECIALS else CP_NONE)
    verbose := opt.verbose + 1 }

/-- Function `_tmain` from "prepare options" on (lsync.c 139-207), for the parsed
options `opt` and the positional arguments `sources ... destination` (at least one
source), in the state in which the signal handlers have just been installed
(`signalReceived` has been reset; the flag is read from the world). -/
def _tmain {σ : Type} (P : Platform) (ops : IoOps σ) (d : DirOps σ) (uninit : Stat)
    (fuel : Nat) (opt : tOptions) (sources : List CStr) (destination : CStr) (w : σ) :
    Option (DriverResult σ) :=
  if (ops.createDirectory w destination (opt.verbose + 1)).1 = 0 then
    some ⟨EXIT_FAILURE,
      ⟨prepareOptions opt sources destination,
        (ops.createDirectory w destination (opt.verbose + 1)).2,
        [⟨Call.createDirectory destination, 0⟩]⟩, []⟩
  else
    mainLoop P ops d uninit fuel sources
      ⟨prepareOptions opt sources destination,
        (ops.createDirectory w destination (opt.verbose + 1)).2,
        [⟨Call.createDirectory destination,
          (ops.createDirectory w destination (opt.verbose + 1)).1⟩]⟩

/-! ## Notions used to state the properties -/

/-- The arguments of one invocation of the visitor. -/
structure VisitArgs where
  src : CStr
  item : Option CStr
  ext : Option CStr
  isDir : Int
  level : Nat
deriving Repr, DecidableEq

/-- The visitor invoked for a sequence of entries, one after the other. -/
def visitAll {σ : Type} (P : Platform) (ops : IoOps σ) : List VisitArgs → RunState σ → RunState σ
  | [], st => st
  | a :: rest, st => visitAll P ops rest (visitorOn P ops a.src a.item a.ext a.isDir a.level st).2

/-- The same platform operations, except that `copyAttributes` reports the result
`f` chooses; what it does to the world is left as it is. -/
def withAttrResult {σ : Type} (ops : IoOps σ) (f : σ → CStr → CStr → Nat → Int → Int) :
    IoOps σ :=
  { ops with
    copyAttributes := fun w src dst mask verbose =>
      (f w src dst mask verbose, (ops.copyAttributes w src dst mask verbose).2) }

/-- Two results of the visitor that agree on the returned value, the options (with
the buffers) and the world; the recorded operations may differ. -/
def SameVisit {σ : Type} (a b : VisitorResult σ) : Prop :=
  a.ret = b.ret ∧ a.opt = b.opt ∧ a.world = b.world

/-- Two run states that agree on the options (with the buffers) and on the world;
the recorded operations may differ. -/
def SameRun {σ : Type} (a b : RunState σ) : Prop :=
  a.opt = b.opt ∧ a.world = b.world

/-- Two traversals that return the same value, made the same visitor invocations,
and left related states (or both ran out of fuel). -/
def TraverseRel {S T : Type} (R : S → T → Prop) :
    Option (TraverseResult S) → Option (TraverseResult T) → Prop
  | none, none => True
  | some a, some b => a.ret = b.ret ∧ R a.state b.state ∧ a.calls = b.calls
  | _, _ => False

/-- Two rounds of the traverser's loop that agree in the same way. -/
def StepRel {S T : Type} (R : S → T → Prop) :
    Option (StepResult S) → Option (StepResult T) → Prop
  | none, none => True
  | some a, some b =>
    a.itemStat = b.itemStat ∧ a.result = b.result ∧ R a.state b.state ∧ a.calls = b.calls
  | _, _ => False

/-- Two runs of the driver with the same exit code and the same dispatch, which
left related states (or both ran out of fuel). -/
def DriverRel {σ : Type} : Option (DriverResult σ) → Option (DriverResult σ) → Prop
  | none, none => True
  | some a, some b => a.exit = b.exit ∧ SameRun a.state b.state ∧ a.log = b.log
  | _, _ => False

/-- The source argument a driver event is about. -/
def DriverEvent.src : DriverEvent → CStr
  | .visit _ src _ _ => src
  | .traverse _ path _ _ _ _ => path
  | .notFound _ src => src

/-- The names of a listing that the traverser processes: all but `.` and `..`. -/
def realNames (names : List CStr) : List CStr :=
  names.filter (fun n => !(n == ".".toList || n == "..".toList))

/-- The entries of the directory tree below `root`, with the number of directories
between the root and the entry: the names listed in the root (other than `.` and
`..`) are entries at depth 0, and the names listed in an entry that `stat` reports as a
directory are entries one level deeper.  `ls` is the listing of a directory and `st`
the metadata of a path. -/
inductive IsEntry (ls : CStr → Option (List CStr)) (st : CStr → Option Stat) (root : CStr) :
    CStr → Nat → Prop where
  | child (names : List CStr) (name : CStr) :
      ls root = some names → name ∈ realNames names →
      IsEntry ls st root (tdsNewPath root name) 0
  | inside (p : CStr) (k : Nat) (m : Stat) (names : List CStr) (name : CStr) :
      IsEntry ls st root p k → st p = some m → S_ISDIR m.st_mode = true →
      ls p = some names → name ∈ realNames names →
      IsEntry ls st root (tdsNewPath p name) (k + 1)

/-- The tree below `p` has fewer than `n` levels of listable paths: `p` cannot be
listed, or every name it lists stands for a tree with fewer than `n - 1` levels. -/
def shallow (ls : CStr → Option (List CStr)) : Nat → CStr → Bool
  | 0, _ => false
  | n + 1, p =>
    match ls p with
    | none => true
    | some names => (realNames names).all (fun name => shallow ls n (tdsNewPath p name))

/-- The attributes of a file that `chown`, `chmod` and `utimensat` / `utimes` set: owner,
group, the permission bits of the mode, and the access and modification times. -/
structure FileAttr where
  uid : Nat
  gid : Nat
  perms : Nat
  atime : Int
  atimensec : Nat
  mtime : Int
  mtimensec : Nat
deriving Repr, DecidableEq

/-- A visitor for trying out the traverser: it returns 0 for the given path and 1
for every other one, and leaves the state alone. -/
def abortAt {S : Type} (p : CStr) : Visitor S :=
  fun path _ _ _ _ s => (if path = p then 0 else 1, s)

/-- A file system as a list of path / metadata pairs, and the cancellation flag. -/
structure SimFs where
  nodes : List (CStr × Stat)
  signalReceived : Int := 0
deriving Repr, DecidableEq

/-- The components of a path, read from the right: the head of the result is the
(possibly empty) component the path starts with. -/
def pathComponents : CStr → List CStr
  | [] => [[]]
  | c :: cs =>
    match pathComponents cs with
    | [] => [[c]]
    | comp :: rest => if c = '/' then [] :: comp :: rest else (c :: comp) :: rest

/-- The path without repeated and trailing slashes, as path resolution reads it
(`out/a/` and `out//a` name what `out/a` names). -/
def normPath (p : CStr) : CStr :=
  (if p.head? = some '/' then ['/'] else []) ++
    ['/'].intercalate ((pathComponents p).filter (fun c => c != []))

/-- Metadata of the entry this path names, if there is one (entries are stored under
their normal paths). -/
def SimFs.lookup (w : SimFs) (p : CStr) : Option Stat :=
  (w.nodes.find? (fun n => n.1 == normPath p)).map (fun n => n.2)

/-- POSIX `stat(2)` on the list of entries.  The call follows symbolic links: it never
reports the metadata of a link itself (that is what `lstat` does).  The entries hold
no link texts, so a symbolic link among them leads nowhere and `stat` fails for it
(`ENOENT`).  A path that ends in a slash names a directory or nothing (`ENOTDIR`). -/
def SimFs.stat (w : SimFs) (p : CStr) : Option Stat :=
  match w.lookup p with
  | none => none
  | some st =>
    if S_ISLNK st.st_mode then none
    else if p.getLast? = some '/' ∧ S_ISDIR st.st_mode = false then none
    else some st

/-- The path of the directory that contains `p`: the text in front of the last
slash; `none` when `p` has no slash, so that its parent is the working directory. -/
def parentPath (p : CStr) : Option CStr :=
  match tcsrpbrk p ['/'] with
  | none => none
  | some suffix => some (p.take (p.length - suffix.length))

/-- POSIX `mkdir(2)` on the simulated file system: `EEXIST` when the path exists,
`ENOENT` / `ENOTDIR` when the parent is not an existing directory, otherwise the
directory is created.  The working directory and the root always exist. -/
def simMkdir (w : SimFs) (p : CStr) (mode : Nat) : Int × SimFs :=
  if (w.lookup p).isSome then (-1, w)
  else
    match parentPath (normPath p) with
    | none =>
      (0, { w with nodes :=
        (normPath p, { st_mode := 0o040000 ||| mode, st_size := 0, st_mtime := 0, st_ctime := 0 }) ::
          w.nodes })
    | some parent =>
      if parent = [] ∨ (w.lookup parent).any (fun st => S_ISDIR st.st_mode) then
        (0, { w with nodes :=
          (normPath p, { st_mode := 0o040000 ||| mode, st_size := 0, st_mtime := 0, st_ctime := 0 }) ::
            w.nodes })
      else (-1, w)

/-- The simulated system calls `stat` and `mkdir`. -/
def simPosix : Posix SimFs where
  stat := fun w p => w.stat p
  mkdir := simMkdir

/-- Platform operations over the simulated file system: the embedded POSIX
functions where they exist (`createDirectory` always returns, so its default is
never used); `createHardLink`, `copyFile` and `copyAttributes` answer with the given
results and leave the file system as it is. -/
def simOps (link copy attr : Int) : IoOps SimFs where
  signalReceived := fun w => w.signalReceived
  isFile := Linux.isFile simPosix
  isDirectory := Linux.isDirectory simPosix
  createDirectory := fun w dst verbose =>
    (Linux.createDirectory simPosix w dst verbose).getD (0, w)
  createHardLink := fun w _ _ _ => (link, w)
  copyFile := fun w _ _ _ _ => (copy, w)
  copyAttributes := fun w _ _ _ _ => (attr, w)
  isNewerFile := fun w a b v => (Linux.isNewerFile simPosix w a b v, w)

/-- A regular file (`S_IFREG | 0644`) with the given size and times. -/
def regStat (size mtime ctime : Int) : Stat :=
  { st_mode := 0o100644, st_size := size, st_mtime := mtime, st_ctime := ctime }

/-- A directory (`S_IFDIR | 0755`). -/
def dirStat : Stat :=
  { st_mode := 0o040755, st_size := 0, st_mtime := 0, st_ctime := 0 }

/-- The name of the entry `q` inside the directory `p`, when `q` lies directly in `p`. -/
def childName (p q : CStr) : Option CStr :=
  let front := if (normPath p).getLast? = some '/' then normPath p else normPath p ++ ['/']
  if front.isPrefixOf q ∧ q.drop front.length ≠ [] ∧ '/' ∉ q.drop front.length then
    some (q.drop front.length)
  else none

/-- The listing of a directory of the simulated file system: `.`, `..` and the names
of the entries directly inside it; `none` when the path is no directory. -/
def simOpendir (w : SimFs) (p : CStr) : Option (List CStr) :=
  if (w.lookup p).any (fun st => S_ISDIR st.st_mode) then
    some (".".toList :: "..".toList :: w.nodes.filterMap (fun n => childName p n.1))
  else none

/-- Adds an entry unless the path exists already (`EEXIST`). -/
def simCreate (w : SimFs) (p : CStr) (st : Stat) : Int × SimFs :=
  if (w.lookup p).isSome then (-1, w)
  else (0, { w with nodes := (normPath p, st) :: w.nodes })

/-- Replaces the metadata of an existing entry (`ENOENT` otherwise). -/
def simUpdate (w : SimFs) (p : CStr) (f : Stat → Stat) : Int × SimFs :=
  if (w.lookup p).isSome then
    (0, { w with nodes := w.nodes.map (fun n => if n.1 == normPath p then (n.1, f n.2) else n) })
  else (-1, w)

/-- The simulated system calls, with the POSIX meaning of each call on the list of
entries (link texts are not stored, so `readlink` fails). -/
def simPosixFs : PosixFs SimFs where
  toPosix := simPosix
  opendir := simOpendir
  unlink := fun w p =>
    if (w.lookup p).any (fun st => !S_ISDIR st.st_mode) then
      (0, { w with nodes := w.nodes.filter (fun n => n.1 != normPath p) })
    else (-1, w)
  link := fun w old new =>
    match w.lookup old with
    | some st => simCreate w new st
    | none => (-1, w)
  mknod := fun w p mode dev =>
    simCreate w p { st_mode := mode, st_size := 0, st_mtime := 0, st_ctime := 0, st_rdev := dev }
  readlink := fun _ _ _ => (-1, [])
  symlink := fun w _ linkpath =>
    simCreate w linkpath { st_mode := 0o120777, st_size := 0, st_mtime := 0, st_ctime := 0 }
  mkfifo := fun w p mode =>
    simCreate w p { st_mode := 0o010000 ||| mode, st_size := 0, st_mtime := 0, st_ctime := 0 }
  chown := fun w p uid gid =>
    simUpdate w p (fun st =>
      { st with st_uid := if uid = ID_UNCHANGED then st.st_uid else uid,
                st_gid := if gid = ID_UNCHANGED then st.st_gid else gid })
  chmod := fun w p mode =>
    simUpdate w p (fun st => { st with st_mode := (st.st_mode &&& 0o170000) ||| (mode &&& 0o7777) })
  utimens := fun w p asec ansec msec mnsec =>
    simUpdate w p (fun st =>
      { st with st_atime := asec, st_atimensec := ansec, st_mtime := msec,
                st_mtimensec := mnsec })

/-- Descriptor calls that always fail (no regular file can be opened). -/
def noFileIO : FileIO SimFs where
  openRead := fun w _ => (-1, w)
  openCreate := fun w _ _ => (-1, w)
  read := fun w _ _ => (ReadResult.error 9, w)
  write := fun w _ _ => (WriteResult.error 9, w)
  close := fun w _ => w

/-- Options of the run `lsync a/b c` on an empty simulated file system. -/
def optAB : tOptions := { srcArgs := ["a/b".toList], dstArg := "c".toList, verbose := 1 }

/-- Two files of five bytes, `b` modified later than `a`. -/
def fsTwoFiles : SimFs := ⟨[("a".toList, regStat 5 10 10), ("b".toList, regStat 5 20 10)], 0⟩

/-- A Windows volume without any file. -/
def emptyWin32 : Win32 Unit where
  CreateFile := fun _ _ => none
  GetFileTime := fun _ _ => none
  GetFileSizeEx := fun _ _ => none

/-- Options of the run `lsync --link-dest=r b c`. -/
def optLink : tOptions :=
  { srcArgs := ["b".toList], dstArg := "c".toList, linkDest := some "r".toList, verbose := 1 }

/-- The source `b` and an identical reference file `r/b`. -/
def fsLinked : SimFs := ⟨[("b".toList, regStat 5 10 10), ("r/b".toList, regStat 5 10 10)], 0⟩

/-- Only the source `b` exists: no reference file, no destination file. -/
def fsOnlySource : SimFs := ⟨[("b".toList, regStat 5 10 10)], 0⟩

/-- The reference `r/b` has the size and the modification time of the source `b`,
but the change time of the source is later than that of the reference. -/
def fsSourceChanged : SimFs :=
  ⟨[("b".toList, regStat 5 10 20), ("r/b".toList, regStat 5 10 10)], 0⟩

/-- Options of the run `lsync b c` (no `--link-dest`). -/
def optPlain : tOptions := { srcArgs := ["b".toList], dstArg := "c".toList, verbose := 1 }

/-- The source `b` and the destination file `c/b` left by a previous run: same size,
same times. -/
def fsSecondRun : SimFs := ⟨[("b".toList, regStat 5 10 10), ("c/b".toList, regStat 5 10 10)], 0⟩

/-- Options of a run whose destination argument has 32768 characters. -/
def optLong : tOptions :=
  { srcArgs := ["b".toList], dstArg := List.replicate 32768 'c', verbose := 1 }

/-- The source tree of the scenarios S1 and S2: the directory `a` with the file `a/x`
and the directory `a/y`, which holds the file `a/y/z`. -/
def fsTreeA : SimFs :=
  ⟨[("a".toList, dirStat), ("a/x".toList, regStat 5 10 10), ("a/y".toList, dirStat),
    ("a/y/z".toList, regStat 5 10 10)], 0⟩

/-- The run `lsync a out` (not recursive) over the tree `a/x`, `a/y/z`. -/
def runNonRecursive : Option (DriverResult SimFs) :=
  _tmain linux (simOps 1 1 1) (Linux.dirOps simPosixFs) dirStat 10 {}
    ["a".toList] "out".toList fsTreeA

/-- The traverser's view of a simulated file system that stays as it is during the
traversal, whatever the state `S` the visitor works on. -/
def frozenDirOps (S : Type) (w : SimFs) : DirOps S where
  opendir := fun _ p => simOpendir w p
  stat := fun _ p => w.stat p

/-- A visitor that always continues and counts its invocations. -/
def countVisitor : Visitor Nat := fun _ _ _ _ _ n => (1, n + 1)

/-- The state in which the run `lsync a out` over the tree `a/x`, `a/y/z` enters the loop
over its sources: the destination `out` has been created. -/
def stNonRecursive : RunState SimFs :=
  ⟨prepareOptions {} ["a".toList] "out".toList,
    ((simOps 1 1 1).createDirectory fsTreeA "out".toList 1).2,
    [⟨Call.createDirectory "out".toList, 1⟩]⟩

/-- A character device with the device id 259. -/
def devStat : Stat :=
  { st_mode := 0o020644, st_size := 0, st_mtime := 0, st_ctime := 0, st_rdev := 259 }

/-- A symbolic link whose text has one character. -/
def lnkStat : Stat := { st_mode := 0o120777, st_size := 1, st_mtime := 0, st_ctime := 0 }

/-- A FIFO. -/
def fifoStat : Stat := { st_mode := 0o010644, st_size := 0, st_mtime := 0, st_ctime := 0 }

/-- A character device `d`, a symbolic link `l` and a FIFO `p`. -/
def fsSpecial : SimFs :=
  ⟨[("d".toList, devStat), ("l".toList, lnkStat), ("p".toList, fifoStat)], 0⟩

/-- A source and a destination file seen through their descriptors: the results the
coming `read` calls on the source will have, in order (a `data` result holds the
bytes that are available at that moment; after the last one the source is at its
end), the results the coming `write` calls on the destination will have (`done n`
accepts at most `n` of the bytes offered; after the last one every write accepts
all it is given), and the bytes the destination has accepted so far. -/
structure Tape where
  reads : List ReadResult
  writes : List WriteResult
  out : List Nat
deriving Repr, DecidableEq

/-- The descriptor calls on a `Tape`.  `read` delivers at most `count` of the bytes
that are available and leaves the others for the next call; a failing call
transfers nothing. -/
def tapeIO : FileIO Tape where
  openRead := fun w _ => (3, w)
  openCreate := fun w _ _ => (4, w)
  read := fun w _ count =>
    match w.reads with
    | [] => (ReadResult.data [], w)
    | ReadResult.data bytes :: rest =>
      (ReadResult.data (bytes.take count),
        { w with reads :=
            if count < bytes.length then ReadResult.data (bytes.drop count) :: rest else rest })
    | ReadResult.error e :: rest => (ReadResult.error e, { w with reads := rest })
  write := fun w _ bytes =>
    match w.writes with
    | [] => (WriteResult.done bytes.length, { w with out := w.out ++ bytes })
    | WriteResult.done n :: rest =>
      (WriteResult.done (min n bytes.length),
        { w with writes := rest, out := w.out ++ bytes.take n })
    | WriteResult.error e :: rest => (WriteResult.error e, { w with writes := rest })
  close := fun w _ => w

/-- The other system calls around a `Tape`: `stat` reports the path `src` as a regular
file and fails for every other path (the destination does not exist yet); the calls
that change the file system fail. -/
def tapePosixFs (src : CStr) : PosixFs Tape where
  stat := fun _ p => if p = src then some (regStat 0 0 0) else none
  mkdir := fun w _ _ => (-1, w)
  opendir := fun _ _ => none
  unlink := fun w _ => (-1, w)
  link := fun w _ _ => (-1, w)
  mknod := fun w _ _ _ => (-1, w)
  readlink := fun _ _ _ => (-1, [])
  symlink := fun w _ _ => (-1, w)
  mkfifo := fun w _ _ => (-1, w)
  chown := fun w _ _ _ => (-1, w)
  chmod := fun w _ _ => (-1, w)
  utimens := fun w _ _ _ _ _ => (-1, w)

/-- The bytes a sequence of `read` results delivers. -/
def readData : List ReadResult → List Nat
  | [] => []
  | ReadResult.data bytes :: rest => bytes ++ readData rest
  | ReadResult.error _ :: rest => readData rest

/-- A `read` result of a source that is at most transiently disturbed: some bytes, at
most 16384 of them, or a failure with `EAGAIN` / `EWOULDBLOCK`. -/
def ReadResult.benign : ReadResult → Prop
  | .data bytes => bytes ≠ [] ∧ bytes.length ≤ 16384
  | .error e => e = EAGAIN ∨ e = EWOULDBLOCK

/-- A `write` result of a destination that is at most transiently disturbed: some of
the bytes are accepted (possibly none, possibly all), or the call fails with
`EAGAIN` / `EWOULDBLOCK`. -/
def WriteResult.benign : WriteResult → Prop
  | .done _ => True
  | .error e => e = EAGAIN ∨ e = EWOULDBLOCK

/-- The files of `fsSpecial` and a regular file `o` left at the destination by an
earlier run. -/
def fsSpecialAgain : SimFs :=
  ⟨[("d".toList, devStat), ("l".toList, lnkStat), ("p".toList, fifoStat),
    ("o".toList, regStat 5 10 10)], 0⟩

/-! ## lsync.c: the command line -/

/-- The values of `enum { GETOPT_LINK_DEST = 1, GETOPT_VERSION }` (lsync.h 55-58). -/
def GETOPT_LINK_DEST : Int := 1
def GETOPT_VERSION : Int := 2

/-- The `int` fields of `opt` that rows of the `longOptions` table point to with
their `flag` member. -/
inductive OptField where
  | devices
  | specials
  | owner
  | perms
  | recursive
deriving Repr, DecidableEq

/-- The assignment `*flag = val` for a `flag` that points to the given field. -/
def OptField.store (f : OptField) (val : Int) (opt : tOptions) : tOptions :=
  match f with
  | .devices => { opt with devices := val }
  | .specials => { opt with specials := val }
  | .owner => { opt with owner := val }
  | .perms => { opt with perms := val }
  | .recursive => { opt with recursive := val }

/-- A row of type `struct option`: `has_arg` is `true` for `required_argument` and
`false` for `no_argument`; `flag` is `none` for `NULL`. -/
structure LongOption where
  name : CStr
  has_arg : Bool
  flag : Option OptField
  val : Int
deriving Repr, DecidableEq

/-- The code of a character, as the `int` that `getopt_long` returns for it. -/
def charCode (c : Char) : Int := (c.toNat : Int)

/-- The table `longOptions` of `_tmain` (lsync.c 45-60), row by row. -/
def longOptions : List LongOption :=
  [⟨"link-dest".toList, true, none, GETOPT_LINK_DEST⟩,
   ⟨"version".toList, false, none, GETOPT_VERSION⟩,
   ⟨"devices".toList, false, some OptField.devices, 0⟩,
   ⟨"specials".toList, false, some OptField.specials, 0⟩,
   ⟨"archive".toList, false, none, charCode 'a'⟩,
   ⟨"".toList, false, none, charCode 'D'⟩,
   ⟨"group".toList, false, none, charCode 'g'⟩,
   ⟨"help".toList, false, none, charCode 'h'⟩,
   ⟨"links".toList, false, none, charCode 'l'⟩,
   ⟨"owner".toList, false, some OptField.owner, charCode 'o'⟩,
   ⟨"perms".toList, false, some OptField.perms, charCode 'p'⟩,
   ⟨"recursive".toList, false, some OptField.recursive, charCode 'r'⟩,
   ⟨"verbose".toList, false, none, charCode 'v'⟩]

/-- The short options of the string `":aDghloprv"` handed to `getopt_long`; none of
them takes an argument, and the leading colon makes a missing argument of a long
option come back as `':'`. -/
def shortOptions : List Char := "aDghloprv".toList

/-- The `switch (res)` of `_tmain` (lsync.c 80-124) on a value returned by
`getopt_long`: the options after it, or the exit code with which `_tmain` returns
(`abort()` is shown as the exit code 134). -/
def dispatch (res : Int) (optarg : Option CStr) (opt : tOptions) : Except Int tOptions :=
  if res = GETOPT_LINK_DEST then .ok { opt with linkDest := optarg }
  else if res = GETOPT_VERSION then .error EXIT_SUCCESS
  else if res = charCode 'a' then
    .ok { opt with devices := 1, group := 1, links := 1, owner := 1, perms := 1,
                   recursive := 1, specials := 1 }
  else if res = 0 ∨ res = charCode 'D' ∨ res = charCode 'g' ∨ res = charCode 'l' ∨
      res = charCode 'o' ∨ res = charCode 'p' ∨ res = charCode 'r' then
    -- already handled by flags
    .ok opt
  else if res = charCode 'v' then .ok { opt with verbose := opt.verbose + 1 }
  else if res = charCode 'h' then .error EXIT_SUCCESS
  else if res = charCode ':' then .error EXIT_FAILURE
  else if res = charCode '?' then .error EXIT_FAILURE
  else .error 134

/-- Modelled from the spec: `getopt_long` is declared in `getopt.h`, which is not
among the sources; the model follows getopt_long(3).  This is what one call does
for an argument of the form `--name` or `--name=value` (given here without the two
dashes), with the arguments that follow it: the row with that name is looked up
(abbreviated names are not modelled); for a row with a `flag` pointer the call
stores `val` through it and returns 0, for a row without it returns `val`; an
unknown name gives `'?'`, a missing argument `':'`.  The result is the returned
value, `optarg`, the options after the store, and the arguments left. -/
def getoptLong (body : CStr) (rest : List CStr) (opt : tOptions) :
    Int × Option CStr × tOptions × List CStr :=
  let name := body.takeWhile (fun c => c != '=')
  let value : Option CStr :=
    if body.length = name.length then none else some (body.drop (name.length + 1))
  match longOptions.find? (fun o => o.name == name) with
  | none => (charCode '?', none, opt, rest)
  | some o =>
    if o.has_arg then
      match value, rest with
      | some v, _ => ((match o.flag with | some _ => 0 | none => o.val), some v,
          (match o.flag with | some f => f.store o.val opt | none => opt), rest)
      | none, v :: rest1 => ((match o.flag with | some _ => 0 | none => o.val), some v,
          (match o.flag with | some f => f.store o.val opt | none => opt), rest1)
      | none, [] => (charCode ':', none, opt, rest)
    else
      match value with
      | some _ => (charCode '?', none, opt, rest)
      | none => ((match o.flag with | some _ => 0 | none => o.val), none,
          (match o.flag with | some f => f.store o.val opt | none => opt), rest)

/-- Modelled from the spec: what one call of `getopt_long` returns for a character of
an argument of the form `-abc` (getopt.h is not among the sources): the character
itself when it is one of the short options, `'?'` otherwise.  A `flag` pointer of
the table plays no part here: it belongs to the long option. -/
def getoptShort (c : Char) : Int :=
  if shortOptions.contains c then charCode c else charCode '?'

/-- The calls of `getopt_long` for the characters of one argument `-abc`, each
followed by the `switch`. -/
def parseCluster : List Char → tOptions → Except Int tOptions
  | [], opt => .ok opt
  | c :: cs, opt =>
    match dispatch (getoptShort c) none opt with
    | .ok opt1 => parseCluster cs opt1
    | .error code => .error code

/-- The loop `while (1) { res = getopt_long(...); if (res == -1) break; switch ... }` of
`_tmain` (lsync.c 76-125) over the arguments behind `argv[0]`.  `POSIXLY_CORRECT` is
set, so the scan ends (`getopt_long` returns -1) at the first argument that is no
option and at `--`.  The result is the options and the arguments from `optind` on,
or the exit code with which `_tmain` returns.  The fuel bounds the number of
arguments scanned; as many as there are arguments is enough. -/
def parseLoop : Nat → List CStr → tOptions → Except Int (tOptions × List CStr)
  | 0, args, opt => .ok (opt, args)
  | _ + 1, [], opt => .ok (opt, [])
  | fuel + 1, arg :: rest, opt =>
    if arg = "--".toList then .ok (opt, rest)
    else if "--".toList.isPrefixOf arg then
      match dispatch (getoptLong (arg.drop 2) rest opt).1 (getoptLong (arg.drop 2) rest opt).2.1
          (getoptLong (arg.drop 2) rest opt).2.2.1 with
      | .ok opt1 => parseLoop fuel (getoptLong (arg.drop 2) rest opt).2.2.2 opt1
      | .error code => .error code
    else if arg.head? = some '-' ∧ 2 ≤ arg.length then
      match parseCluster (arg.drop 1) opt with
      | .ok opt1 => parseLoop fuel rest opt1
      | .error code => .error code
    else .ok (opt, arg :: rest)

/-- Function `_tmain` up to and including "prepare options" (lsync.c 41-162) for the
arguments behind `argv[0]`: the options as the loop over the sources finds them, or
the exit code with which `_tmain` returns before. -/
def parseCommandLine (args : List CStr) : Except Int tOptions :=
  if args = [] then .error EXIT_FAILURE
  else
    match parseLoop args.length args {} with
    | .error code => .error code
    | .ok (opt, positional) =>
      if positional.length < 2 then .error EXIT_FAILURE
      else .ok (prepareOptions opt positional.dropLast (positional.getLastD []))

/-- The settings a command line leads to: `recursive`, `attrMask` and `copyMask`;
`none` when `_tmain` returns before the loop over the sources. -/
def settingsOf (args : List String) : Option (Int × Nat × Nat) :=
  match parseCommandLine (args.map String.toList) with
  | .ok opt => some (opt.recursive, opt.attrMask, opt.copyMask)
  | .error _ => none

/-! ## lsync-win.c: copyAttributes -/

/-- The mask `AT_ALL = AT_GROUP | AT_OWNER | AT_PERMS` of `lsync.h`. -/
def AT_ALL : Nat := AT_GROUP ||| AT_OWNER ||| AT_PERMS

/-- The Windows SDK values `OWNER_SECURITY_INFORMATION`, `GROUP_SECURITY_INFORMATION`,
`DACL_SECURITY_INFORMATION`, `BACKUP_SECURITY_INFORMATION`, `ERROR_SUCCESS`,
`FILE_ATTRIBUTE_DIRECTORY`, `GENERIC_READ` and `FILE_WRITE_ATTRIBUTES`. -/
def OWNER_SECURITY_INFORMATION : Nat := 0x00000001
def GROUP_SECURITY_INFORMATION : Nat := 0x00000002
def DACL_SECURITY_INFORMATION : Nat := 0x00000004
def BACKUP_SECURITY_INFORMATION : Nat := 0x00010000
def ERROR_SUCCESS : Int := 0
def FILE_ATTRIBUTE_DIRECTORY : Nat := 0x10
def GENERIC_READ : Nat := 0x80000000
def FILE_WRITE_ATTRIBUTES : Nat := 0x0100

/-- The three `FILETIME` values `times[0..2]`: creation, last access, last write. -/
structure FileTimes where
  creation : Nat
  access : Nat
  write : Nat
deriving Repr, DecidableEq

/-- A call made by the Windows `copyAttributes`, with its arguments: Win32 calls, the
static helper `setCurrentPrivilege`, and `isDirectory`. -/
inductive WinCall where
  | setCurrentPrivilege
  | GetFileSecurity (path : CStr) (flags : Nat)
  | SetFileSecurity (path : CStr) (flags : Nat) (descriptor : List Nat)
  | isDirectory (path : CStr)
  | CreateFile (path : CStr) (access : Nat)
  | GetFileTime (file : Nat)
  | SetFileTime (file : Nat) (times : FileTimes)
  | CloseHandle (file : Nat)
deriving Repr, DecidableEq

/-- A call that was made, with the `BOOL` or `int` it returned (for `CreateFile`: 1 for
a handle, 0 for `INVALID_HANDLE_VALUE`). -/
structure WinEvent where
  call : WinCall
  ret : Int
deriving Repr, DecidableEq

/-- What the Windows `copyAttributes` leaves behind: its result, the state, and the
Win32 calls it made, in order. -/
structure WinResult (σ : Type) where
  ret : Int
  world : σ
  calls : List WinEvent

/-- The Win32 calls used by the Windows `copyAttributes`, over a state `σ` that also
holds the function's `static BOOL hasSecurityPrivilege`.  `setCurrentPrivilege` stands
for the call of the static helper with the assignment of its result;
`GetFileSecurity` returns its `BOOL` and the descriptor it placed in the buffer,
`SetFileSecurity` and `SetFileTime` their `BOOL` and the new state; `GetFileAttributes`
is `none` for `INVALID_FILE_ATTRIBUTES`, `CreateFile` is `none` for
`INVALID_HANDLE_VALUE`, `GetFileTime` is `none` when it returns 0. -/
structure Win32Attr (σ : Type) where
  hasSecurityPrivilege : σ → Bool
  setCurrentPrivilege : σ → Int × σ
  GetFileSecurity : σ → CStr → Nat → Int × List Nat
  SetFileSecurity : σ → CStr → Nat → List Nat → Int × σ
  GetFileAttributes : σ → CStr → Option Nat
  CreateFile : σ → CStr → Nat → Option Nat
  GetFileTime : σ → Nat → Option FileTimes
  SetFileTime : σ → Nat → FileTimes → Int × σ
  CloseHandle : σ → Nat → σ

namespace Win

/-- Function `isDirectory` (lsync-win.c 123-126). -/
def isDirectory {σ : Type} (wx : Win32Attr σ) (w : σ) (src : CStr) : Int :=
  match wx.GetFileAttributes w src with
  | some dwAttrib => if dwAttrib &&& FILE_ATTRIBUTE_DIRECTORY ≠ 0 then 1 else 0
  | none => 0

/-- The `SECURITY_INFORMATION flags` computed by `copyAttributes` (lsync-win.c 283-286). -/
def securityFlags (mask : Nat) : Nat :=
  if mask &&& AT_ALL = AT_ALL then BACKUP_SECURITY_INFORMATION
  else
    (if mask &&& AT_GROUP ≠ 0 then GROUP_SECURITY_INFORMATION else 0) |||
      (if mask &&& AT_OWNER ≠ 0 then OWNER_SECURITY_INFORMATION else 0) |||
      (if mask &&& AT_PERMS ≠ 0 then DACL_SECURITY_INFORMATION else 0)

/-- The part "copy file times" of `copyAttributes` (lsync-win.c 299-320) with the exit
through `onError`, where `file` is closed when it is not `INVALID_HANDLE_VALUE`. -/
def copyTimes {σ : Type} (wx : Win32Attr σ) (w : σ) (src dst : CStr)
    (calls : List WinEvent) : WinResult σ :=
  if isDirectory wx w src = 0 then
    match wx.CreateFile w src GENERIC_READ with
    | none =>
      ⟨0, w, calls ++ [⟨WinCall.isDirectory src, 0⟩,
        ⟨WinCall.CreateFile src GENERIC_READ, 0⟩]⟩
    | some file =>
      match wx.GetFileTime w file with
      | none =>
        ⟨0, wx.CloseHandle w file, calls ++ [⟨WinCall.isDirectory src, 0⟩,
          ⟨WinCall.CreateFile src GENERIC_READ, 1⟩, ⟨WinCall.GetFileTime file, 0⟩,
          ⟨WinCall.CloseHandle file, 1⟩]⟩
      | some times =>
        match wx.CreateFile (wx.CloseHandle w file) dst FILE_WRITE_ATTRIBUTES with
        | none =>
          ⟨0, wx.CloseHandle w file, calls ++ [⟨WinCall.isDirectory src, 0⟩,
            ⟨WinCall.CreateFile src GENERIC_READ, 1⟩, ⟨WinCall.GetFileTime file, 1⟩,
            ⟨WinCall.CloseHandle file, 1⟩, ⟨WinCall.CreateFile dst FILE_WRITE_ATTRIBUTES, 0⟩]⟩
        | some file2 =>
          let s := wx.SetFileTime (wx.CloseHandle w file) file2 times
          ⟨if s.1 = 0 then 0 else 1, wx.CloseHandle s.2 file2,
            calls ++ [⟨WinCall.isDirectory src, 0⟩,
              ⟨WinCall.CreateFile src GENERIC_READ, 1⟩, ⟨WinCall.GetFileTime file, 1⟩,
              ⟨WinCall.CloseHandle file, 1⟩, ⟨WinCall.CreateFile dst FILE_WRITE_ATTRIBUTES, 1⟩,
              ⟨WinCall.SetFileTime file2 times, s.1⟩, ⟨WinCall.CloseHandle file2, 1⟩]⟩
  else ⟨1, w, calls ++ [⟨WinCall.isDirectory src, 1⟩]⟩

/-- Function `copyAttributes` (lsync-win.c 259-328) for non-`NULL` arguments; the
allocation of `dstCpy` is taken to succeed. -/
def copyAttributes {σ : Type} (wx : Win32Attr σ) (w : σ) (src dst : CStr) (mask : Nat)
    (verbose : Int) : WinResult σ :=
  if mask = AT_NONE then ⟨1, w, []⟩
  else
    -- copy security information
    let p : σ × List WinEvent :=
      if wx.hasSecurityPrivilege w ≠ true then
        ((wx.setCurrentPrivilege w).2,
          [⟨WinCall.setCurrentPrivilege, (wx.setCurrentPrivilege w).1⟩])
      else (w, [])
    let g := wx.GetFileSecurity p.1 src (securityFlags mask)
    let c1 := p.2 ++ [⟨WinCall.GetFileSecurity src (securityFlags mask), g.1⟩]
    if g.1 ≠ ERROR_SUCCESS then ⟨0, p.1, c1⟩
    else
      let s := wx.SetFileSecurity p.1 dst (securityFlags mask) g.2
      let c2 := c1 ++ [⟨WinCall.SetFileSecurity dst (securityFlags mask) g.2, s.1⟩]
      if s.1 ≠ ERROR_SUCCESS then ⟨0, s.2, c2⟩
      else copyTimes wx s.2 src dst c2

end Win

/-- A Windows system on which every call succeeds the way the Win32 API reports
success: `GetFileSecurity`, `SetFileSecurity` and `SetFileTime` return non-zero (1),
every path is an existing file that is no directory, every `CreateFile` returns the
handle 7, and `GetFileTime` delivers times. -/
def win32Healthy : Win32Attr Unit where
  hasSecurityPrivilege := fun _ => true
  setCurrentPrivilege := fun w => (1, w)
  GetFileSecurity := fun _ _ _ => (1, [1, 2, 3])
  SetFileSecurity := fun w _ _ _ => (1, w)
  GetFileAttributes := fun _ _ => some 0x80
  CreateFile := fun _ _ _ => some 7
  GetFileTime := fun _ _ => some ⟨10, 20, 30⟩
  SetFileTime := fun w _ _ => (1, w)
  CloseHandle := fun w _ => w

/-- The same system, except that `GetFileSecurity` and `SetFileSecurity` fail: they
return 0. -/
def win32SecurityFails : Win32Attr Unit :=
  { win32Healthy with
    GetFileSecurity := fun _ _ _ => (0, [])
    SetFileSecurity := fun w _ _ _ => (0, w) }

/-! ## A file system with a symbolic link to a directory -/

/-- A simulated file system with one symbolic link: the entry `link` of `fs` is a
symbolic link (its own metadata, as `lstat` reports it, says so) whose text names
the path `target`. -/
structure LinkFs where
  fs : SimFs
  link : CStr
  target : CStr
deriving Repr, DecidableEq

/-- The entry `link` is there and is a symbolic link. -/
def LinkFs.isLink (w : LinkFs) : Bool :=
  (w.fs.lookup w.link).any (fun st => S_ISLNK st.st_mode)

/-- Path resolution through the link, as long as the link is there: the link itself
and every path below it name what the target and the corresponding path below the
target name. -/
def LinkFs.resolve (w : LinkFs) (p : CStr) : CStr :=
  if w.isLink = false then p
  else if p = w.link then w.target
  else if (w.link ++ ['/']).isPrefixOf p then w.target ++ p.drop w.link.length
  else p

/-- POSIX `lstat(2)`: the metadata of the entry itself. -/
def LinkFs.lstat (w : LinkFs) (p : CStr) : Option Stat := w.fs.lookup p

/-- POSIX `stat(2)`: the metadata of what the path names after following the link
(`ENOENT` when the link leads nowhere). -/
def LinkFs.stat (w : LinkFs) (p : CStr) : Option Stat := w.fs.stat (w.resolve p)

/-- The traverser's two calls on such a file system, which stays as it is: `opendir`
and `stat` both follow the link. -/
def linkDirOps (S : Type) (w : LinkFs) : DirOps S where
  opendir := fun _ p => simOpendir w.fs (w.resolve p)
  stat := fun _ p => w.stat p

/-- The directory `a` holds the symbolic link `a/l`, which points to the directory `d`
with the file `d/f`. -/
def fsSymlinkDir : LinkFs :=
  ⟨⟨[("a".toList, dirStat), ("a/l".toList, lnkStat), ("d".toList, dirStat),
      ("d/f".toList, regStat 5 10 10)], 0⟩, "a/l".toList, "d".toList⟩

/-- Options of a run whose only source is `a/b/`, with a trailing separator. -/
def optTrailing : tOptions :=
  { srcArgs := ["a/b/".toList], dstArg := "c".toList, verbose := 1 }

/-- The result of a call made on the entries of a file system with a link. -/
def LinkFs.onFs (w : LinkFs) (r : Int × SimFs) : Int × LinkFs := (r.1, { w with fs := r.2 })

/-- The system calls on a file system with one symbolic link.  `stat`, `opendir`,
`chown`, `chmod` and `utimensat` follow the link; `unlink`, `link`, `mknod`, `symlink`,
`mkfifo` and `mkdir` act on the entry their path names; `readlink` places as much of
the link's text in the buffer as fits and returns the number of bytes placed, and
fails for a path that is no symbolic link. -/
def linkPosixFs : PosixFs LinkFs where
  stat := fun w p => w.stat p
  mkdir := fun w p mode => w.onFs (simMkdir w.fs p mode)
  opendir := fun w p => simOpendir w.fs (w.resolve p)
  unlink := fun w p => w.onFs (simPosixFs.unlink w.fs p)
  link := fun w old new => w.onFs (simPosixFs.link w.fs old new)
  mknod := fun w p mode dev => w.onFs (simPosixFs.mknod w.fs p mode dev)
  readlink := fun w p n =>
    if p = w.link ∧ w.isLink = true then (((w.target.take n).length : Int), w.target.take n)
    else (-1, [])
  symlink := fun w target linkpath => w.onFs (simPosixFs.symlink w.fs target linkpath)
  mkfifo := fun w p mode => w.onFs (simPosixFs.mkfifo w.fs p mode)
  chown := fun w p uid gid => w.onFs (simPosixFs.chown w.fs (w.resolve p) uid gid)
  chmod := fun w p mode => w.onFs (simPosixFs.chmod w.fs (w.resolve p) mode)
  utimens := fun w p asec ansec msec mnsec =>
    w.onFs (simPosixFs.utimens w.fs (w.resolve p) asec ansec msec mnsec)

/-- Descriptor calls that always fail, on a file system with a link. -/
def noFileIOLink : FileIO LinkFs where
  openRead := fun w _ => (-1, w)
  openCreate := fun w _ _ => (-1, w)
  read := fun w _ _ => (ReadResult.error 9, w)
  write := fun w _ _ => (WriteResult.error 9, w)
  close := fun w _ => w

/-- The character device `d`, the FIFO `p`, and the symbolic link `l`, whose text is
`d`. -/
def fsLinkToDevice : LinkFs := ⟨fsSpecial, "l".toList, "d".toList⟩

/-- The symbolic link `l`, whose text `t` names nothing. -/
def fsDangling : LinkFs := ⟨⟨[("l".toList, lnkStat)], 0⟩, "l".toList, "t".toList⟩

/-- The attributes of the entry `p` of the simulated file system (zeros when there is
no such entry). -/
def SimFs.attr (w : SimFs) (p : CStr) : FileAttr :=
  match w.lookup p with
  | some st =>
    ⟨st.st_uid, st.st_gid, st.st_mode &&& 0o7777, st.st_atime, st.st_atimensec, st.st_mtime,
      st.st_mtimensec⟩
  | none => ⟨0, 0, 0, 0, 0, 0, 0⟩

/-- The system calls around a `Tape` in a run with `--link-dest`: `stat` reports the
source `src` and the reference file `ref` as regular files with the same size and
times and fails for every other path (the destination does not exist yet); `link`
fails, as for a reference directory on another file system (`EXDEV`), and so do the
other calls that change the file system. -/
def tapePosixFsRef (src ref : CStr) : PosixFs Tape :=
  { tapePosixFs src with
    stat := fun _ p => if p = src ∨ p = ref then some (regStat 0 0 0) else none }

/-- The simulated system calls on a file system that refuses hard links (`EXDEV`,
`EPERM`): `link` fails and changes nothing. -/
def simPosixFsNoLink : PosixFs SimFs :=
  { simPosixFs with link := fun w _ _ => (-1, w) }

/-- The FIFO `p` and an identical reference `r/p`. -/
def fsFifoLinked : SimFs := ⟨[("p".toList, fifoStat), ("r/p".toList, fifoStat)], 0⟩

/-- Options of the run `lsync --link-dest=r p c` (no `--specials`). -/
def optLinkFifo : tOptions :=
  { srcArgs := ["p".toList], dstArg := "c".toList, linkDest := some "r".toList, verbose := 1 }

/-! ## Basic facts about the embedding -/

theorem tcsrpbrk_eq_none (s : CStr) (accept : List Char) (h : ∀ c ∈ s, c ∉ accept) :
    tcsrpbrk s accept = none := by
  induction s with
  | nil => rfl
  | cons c cs ih =>
    have h1 : c ∉ accept := h c (List.mem_cons_self _ _)
    have h2 : tcsrpbrk cs accept = none := ih (fun d hd => h d (List.mem_cons_of_mem _ hd))
    simp [tcsrpbrk, h2, h1]

theorem tcsrpbrk_append (front base : CStr) (c : Char) (accept : List Char)
    (hc : c ∈ accept) (h : ∀ d ∈ base, d ∉ accept) :
    tcsrpbrk (front ++ c :: base) accept = some (c :: base) := by
  induction front with
  | nil => simp [tcsrpbrk, tcsrpbrk_eq_none base accept h, hc]
  | cons a as ih => simp [tcsrpbrk, ih]

@[simp] theorem visitorFinish_ret {σ : Type} (ops : IoOps σ) (src : CStr) (opt : tOptions)
    (w : σ) (t : List Event) : (visitorFinish ops src opt w t).ret = 1 := rfl

@[simp] theorem visitorFinish_opt {σ : Type} (ops : IoOps σ) (src : CStr) (opt : tOptions)
    (w : σ) (t : List Event) : (visitorFinish ops src opt w t).opt = opt := rfl

@[simp] theorem visitorFinish_trace {σ : Type} (ops : IoOps σ) (src : CStr) (opt : tOptions)
    (w : σ) (t : List Event) :
    (visitorFinish ops src opt w t).trace =
      t ++ [⟨Call.copyAttributes src opt.dst opt.attrMask,
        (ops.copyAttributes w src opt.dst opt.attrMask opt.verbose).1⟩] := rfl

@[simp] theorem visitorCopy_opt {σ : Type} (ops : IoOps σ) (src : CStr) (opt : tOptions)
    (w : σ) (t : List Event) : (visitorCopy ops src opt w t).opt = opt := by
  unfold visitorCopy; split <;> rfl

@[simp] theorem visitorLinkDest_opt {σ : Type} (ops : IoOps σ) (src : CStr) (opt : tOptions)
    (w : σ) : (visitorLinkDest ops src opt w).opt = opt := by
  unfold visitorLinkDest
  simp only
  split
  · split <;> simp
  · split <;> simp

/-- Whenever the visitor gets past the cancellation check, the `dst` buffer holds
what `snprintf` has written for the destination path. -/
theorem backupVisitor_dst_buffer {σ : Type} (P : Platform) (ops : IoOps σ) (src : CStr)
    (item ext : Option CStr) (isDir : Int) (level : Nat) (opt : tOptions) (w : σ)
    (hsig : ops.signalReceived w = 0) :
    (backupVisitor P ops src item ext isDir level opt w).opt.dst =
      (sntprintf BUFFER_SIZE (formatPath P opt opt.dstArg src item isDir)).1 := by
  unfold backupVisitor
  simp only [hsig, ne_eq, not_true_eq_false, if_false]
  split
  · rfl
  · split
    · split <;> simp
    · split
      · simp
      · split <;> simp

/-- The base component: `srcElement` is the text behind the last separator of the
root, or the whole root. -/
theorem srcElement_eq_base (P : Platform) (opt : tOptions) (R base : CStr)
    (hroot : srcRoot opt = R)
    (hbase : (R = base ∧ ∀ c ∈ R, c ∉ P.PATH_SEPS) ∨
      (∃ front c, R = front ++ c :: base ∧ c ∈ P.PATH_SEPS ∧ ∀ d ∈ base, d ∉ P.PATH_SEPS)) :
    srcElement P opt = base := by
  unfold srcElement
  rw [hroot]
  rcases hbase with ⟨h1, h2⟩ | ⟨front, c, h1, h2, h3⟩
  · rw [tcsrpbrk_eq_none R _ h2, h1]
  · rw [h1, tcsrpbrk_append front base c _ h2 h3]
    rfl

/-- The root ends in a path separator: `src + srcLen` is what follows the root. -/
theorem drop_srcLen_of_sep (P : Platform) (opt : tOptions) (R rel : CStr) (c : Char)
    (hroot : srcRoot opt = R) (hc : c ∈ P.PATH_SEPS) (hlast : R.getLast? = some c) :
    (R ++ rel).drop (srcLen P opt (R ++ rel)) = rel := by
  have hne : R ≠ [] := by
    intro h; rw [h] at hlast; simp at hlast
  have hl : R.getLastD nul = c := by
    rw [List.getLastD_eq_getLast?, hlast]; rfl
  unfold srcLen
  rw [hroot, hl]
  have : tcschr P.PATH_SEPS c = true := by
    simp [tcschr, hc]
  simp [this]

/-- The root does not end in a path separator: one more character of `src` is
skipped, whatever it is. -/
theorem drop_srcLen_of_not_sep (P : Platform) (opt : tOptions) (R rel : CStr) (s : Char)
    (hroot : srcRoot opt = R) (hR : R ≠ []) (hnul : IsCStr R)
    (hlast : ¬ ∃ c ∈ P.PATH_SEPS, R.getLast? = some c) :
    (R ++ s :: rel).drop (srcLen P opt (R ++ s :: rel)) = rel := by
  have hl : R.getLastD nul = R.getLast hR := by
    rw [List.getLastD_eq_getLast?, List.getLast?_eq_getLast _ hR]; rfl
  have hmem : R.getLast hR ∈ R := List.getLast_mem hR
  have h1 : R.getLast hR ≠ nul := by
    intro h; rw [h] at hmem; exact hnul hmem
  have h2 : R.getLast hR ∉ P.PATH_SEPS := by
    intro h
    exact hlast ⟨_, h, List.getLast?_eq_getLast _ hR⟩
  unfold srcLen
  rw [hroot, hl]
  have : tcschr P.PATH_SEPS (R.getLast hR) = false := by
    simp [tcschr, h1, h2]
  simp [this]

/-- C1: destination path construction.  For a source root `R` (a non-empty C string)
and an entry path `src` handed over by the traverser (`item` is not `NULL`), where
`src = R ++ rel` when `R` ends in a path separator and `src = R ++ SEP ++ rel` when
it does not: if the formatted text is shorter than 32768 characters, the `dst`
buffer holds exactly `destination ++ SEP ++ base ++ SEP ++ rel`, with `base` the part
of `R` behind its last path separator (all of `R` when it has none); hence the part
of the destination path beneath `destination/base` is the part of `src` beneath `R`. -/
theorem backupVisitor_destination_path {σ : Type} (P : Platform) (ops : IoOps σ)
    (opt : tOptions) (w : σ) (R base rel src it : CStr) (ext : Option CStr) (isDir : Int)
    (level : Nat)
    (hsig : ops.signalReceived w = 0)
    (hroot : srcRoot opt = R) (hR : R ≠ []) (hnul : IsCStr R)
    (hbase : (R = base ∧ ∀ c ∈ R, c ∉ P.PATH_SEPS) ∨
      (∃ front c, R = front ++ c :: base ∧ c ∈ P.PATH_SEPS ∧ ∀ d ∈ base, d ∉ P.PATH_SEPS))
    (hsrc : ((∃ c ∈ P.PATH_SEPS, R.getLast? = some c) ∧ src = R ++ rel) ∨
      ((¬ ∃ c ∈ P.PATH_SEPS, R.getLast? = some c) ∧ src = R ++ P.PCF_PATH_SEP :: rel))
    (hfit : (opt.dstArg ++ P.PCF_PATH_SEP :: (base ++ P.PCF_PATH_SEP :: rel)).length < 32768) :
    (backupVisitor P ops src (some it) ext isDir level opt w).opt.dst =
        opt.dstArg ++ P.PCF_PATH_SEP :: (base ++ P.PCF_PATH_SEP :: rel) ∧
      (backupVisitor P ops src (some it) ext isDir level opt w).opt.dst.drop
        ((opt.dstArg ++ P.PCF_PATH_SEP :: (base ++ [P.PCF_PATH_SEP])).length) =
        src.drop (src.length - rel.length) := by
  have hdrop : src.drop (srcLen P opt src) = rel := by
    rcases hsrc with ⟨⟨c, hc, hlast⟩, rfl⟩ | ⟨hlast, rfl⟩
    · exact drop_srcLen_of_sep P opt R rel c hroot hc hlast
    · exact drop_srcLen_of_not_sep P opt R rel _ hroot hR hnul hlast
  have hfmt : formatPath P opt opt.dstArg src (some it) isDir =
      opt.dstArg ++ P.PCF_PATH_SEP :: (base ++ P.PCF_PATH_SEP :: rel) := by
    unfold formatPath
    rw [srcElement_eq_base P opt R base hroot hbase, hdrop]
    simp
  have hbuf := backupVisitor_dst_buffer P ops src (some it) ext isDir level opt w hsig
  have htake : (sntprintf BUFFER_SIZE (formatPath P opt opt.dstArg src (some it) isDir)).1 =
      opt.dstArg ++ P.PCF_PATH_SEP :: (base ++ P.PCF_PATH_SEP :: rel) := by
    rw [hfmt]
    unfold sntprintf BUFFER_SIZE
    apply List.take_of_length_le
    omega
  rw [hbuf, htake]
  refine ⟨rfl, ?_⟩
  have e1 : opt.dstArg ++ P.PCF_PATH_SEP :: (base ++ P.PCF_PATH_SEP :: rel) =
      (opt.dstArg ++ P.PCF_PATH_SEP :: (base ++ [P.PCF_PATH_SEP])) ++ rel := by simp
  have e2 : src.drop (src.length - rel.length) = rel := by
    rcases hsrc with ⟨_, rfl⟩ | ⟨_, rfl⟩
    · simp
    · have : R ++ P.PCF_PATH_SEP :: rel = (R ++ [P.PCF_PATH_SEP]) ++ rel := by simp
      rw [this, List.length_append]
      simp
  rw [e1, List.drop_left, e2]

/-- C1 at the root `a/b` and the entry `a/b/x/y`: the destination path is `c/b/x/y`. -/
theorem backupVisitor_destination_path_witness :
    (backupVisitor linux (simOps 1 1 1) "a/b/x/y".toList (some "y".toList) (some []) 0 1
        optAB ⟨[], 0⟩).opt.dst = "c/b/x/y".toList ∧
      (backupVisitor linux (simOps 1 1 1) "a/b/x/y".toList (some "y".toList) (some []) 0 1
        optAB ⟨[], 0⟩).opt.dst.drop 4 = "a/b/x/y".toList.drop 4 :=
  backupVisitor_destination_path linux (simOps 1 1 1) optAB ⟨[], 0⟩ "a/b".toList "b".toList
    "x/y".toList "a/b/x/y".toList "y".toList (some []) 0 1 rfl rfl (by decide) (by decide)
    (Or.inr ⟨"a".toList, '/', rfl, by decide, by decide⟩)
    (Or.inr ⟨by decide, rfl⟩) (by decide)

/-! ## isNewerFile -/

/-- C5: comparison rule of the POSIX `isNewerFile(a, b)` when the metadata of both
files can be read: the result is 1 if the sizes differ; with equal sizes it is 1
exactly when `b` has a strictly greater modification time or a strictly greater
change time than `a`, and 0 otherwise; equal size with equal times gives 0. -/
theorem isNewerFile_comparison_rule {σ : Type} (px : Posix σ) (w : σ) (a b : CStr)
    (verbose : Int) (sa sb : Stat)
    (ha : px.stat w a = some sa) (hb : px.stat w b = some sb) :
    (sa.st_size ≠ sb.st_size → Linux.isNewerFile px w a b verbose = 1) ∧
    (sa.st_size = sb.st_size →
      (Linux.isNewerFile px w a b verbose = 1 ↔
        (sa.st_mtime < sb.st_mtime ∨ sa.st_ctime < sb.st_ctime))) ∧
    (sa.st_size = sb.st_size → ¬ (sa.st_mtime < sb.st_mtime ∨ sa.st_ctime < sb.st_ctime) →
      Linux.isNewerFile px w a b verbose = 0) ∧
    (sa.st_size = sb.st_size → sa.st_mtime = sb.st_mtime → sa.st_ctime = sb.st_ctime →
      Linux.isNewerFile px w a b verbose = 0) := by
  unfold Linux.isNewerFile
  rw [ha, hb]
  simp only
  refine ⟨?_, ?_, ?_, ?_⟩
  · intro h; simp [h]
  · intro h
    rw [if_pos h]
    by_cases c : sa.st_mtime < sb.st_mtime ∨ sa.st_ctime < sb.st_ctime
    · simp [c]
    · simp [c]
  · intro h c
    rw [if_pos h, if_neg c]
  · intro h hm hc
    rw [if_pos h, if_neg]
    rw [hm, hc]
    simp

/-- C5 on two files of equal size where `b` has the later modification time. -/
theorem isNewerFile_comparison_rule_witness :
    Linux.isNewerFile simPosix fsTwoFiles "a".toList "b".toList 0 = 1 :=
  ((isNewerFile_comparison_rule simPosix fsTwoFiles "a".toList "b".toList 0
    (regStat 5 10 10) (regStat 5 20 10) rfl rfl).2.1 rfl).mpr (Or.inl (by decide))

/-- C6 as stated fails: when `a` does not exist the POSIX `isNewerFile(a, b)` returns
-1, not 0 (here `b` exists, `a` does not). -/
theorem isNewerFile_missing_a_not_zero :
    simPosix.stat ⟨[("b".toList, regStat 5 20 10)], 0⟩ "a".toList = none ∧
      Linux.isNewerFile simPosix ⟨[("b".toList, regStat 5 20 10)], 0⟩ "a".toList "b".toList 0
        = -1 ∧
      Linux.isNewerFile simPosix ⟨[("b".toList, regStat 5 20 10)], 0⟩ "a".toList "b".toList 0
        ≠ 0 := by
  decide

/-- C6, amended: whenever the file `a` does not exist (`stat` fails on POSIX,
`CreateFile` fails on Windows), `isNewerFile(a, b)` returns -1 for every `b`. -/
theorem isNewerFile_missing_a {σ τ : Type} (px : Posix σ) (wx : Win32 τ) (w : σ) (v : τ)
    (a b : CStr) (verbose : Int)
    (hposix : px.stat w a = none) (hwin : wx.CreateFile v a = none) :
    Linux.isNewerFile px w a b verbose = -1 ∧ Win.isNewerFile wx v a b verbose = -1 := by
  unfold Linux.isNewerFile Win.isNewerFile
  rw [hposix, hwin]
  exact ⟨rfl, rfl⟩

/-- C6, amended, on an empty file system. -/
theorem isNewerFile_missing_a_witness :
    Linux.isNewerFile simPosix ⟨[], 0⟩ "a".toList "b".toList 0 = -1 ∧
      Win.isNewerFile emptyWin32 () "a".toList "b".toList 0 = -1 :=
  isNewerFile_missing_a simPosix emptyWin32 ⟨[], 0⟩ () "a".toList "b".toList 0 rfl rfl

/-! ## The link-dest decision -/

/-- With no cancellation pending, a non-directory entry, `linkDest` set and both
formatted paths fitting their buffers, `backupVisitor` is the `switch` of lines
330-346 run on the two complete paths. -/
theorem backupVisitor_eq_visitorLinkDest {σ : Type} (P : Platform) (ops : IoOps σ) (src : CStr)
    (item ext : Option CStr) (level : Nat) (opt : tOptions) (w : σ) (ld : CStr)
    (hsig : ops.signalReceived w = 0) (hld : opt.linkDest = some ld)
    (hdst : (formatPath P opt opt.dstArg src item 0).length < BUFFER_SIZE)
    (href : (formatPath P opt ld src item 0).length < BUFFER_SIZE) :
    backupVisitor P ops src item ext 0 level opt w =
      visitorLinkDest ops src
        { opt with dst := formatPath P opt opt.dstArg src item 0,
                   ref := formatPath P opt ld src item 0 } w := by
  have h1 : ¬ ((formatPath P opt opt.dstArg src item 0).length : Int) ≥ (BUFFER_SIZE : Int) := by
    omega
  have h2 : ¬ ((formatPath P opt ld src item 0).length : Int) ≥ (BUFFER_SIZE : Int) := by
    omega
  have t1 : (formatPath P opt opt.dstArg src item 0).take (BUFFER_SIZE - 1) =
      formatPath P opt opt.dstArg src item 0 := List.take_of_length_le (by omega)
  have t2 : (formatPath P opt ld src item 0).take (BUFFER_SIZE - 1) =
      formatPath P opt ld src item 0 := List.take_of_length_le (by omega)
  unfold backupVisitor
  simp only [hsig, ne_eq, not_true_eq_false, if_false, sntprintf, h1, h2, hld, t1, t2]

/-- The events of `visitorLinkDest` when `isNewerFile(ref, src)` is 0 and the hard
link fails: comparison, hard link, copy (and attributes when the copy succeeds). -/
theorem visitorLinkDest_trace_link_failed {σ : Type} (ops : IoOps σ) (src : CStr)
    (opt : tOptions) (w : σ)
    (hn : (ops.isNewerFile w opt.ref src 0).1 = 0)
    (hl : (ops.createHardLink (ops.isNewerFile w opt.ref src 0).2 opt.ref opt.dst
      opt.verbose).1 = 0) :
    visitorLinkDest ops src opt w =
      visitorCopy ops src opt
        (ops.createHardLink (ops.isNewerFile w opt.ref src 0).2 opt.ref opt.dst opt.verbose).2
        [⟨Call.isNewerFile opt.ref src, 0⟩, ⟨Call.createHardLink opt.ref opt.dst, 0⟩] := by
  unfold visitorLinkDest
  simp [hn, hl]

/-- The result of `visitorLinkDest` when `isNewerFile(ref, src)` is 0 and the hard
link succeeds. -/
theorem visitorLinkDest_link_ok {σ : Type} (ops : IoOps σ) (src : CStr)
    (opt : tOptions) (w : σ)
    (hn : (ops.isNewerFile w opt.ref src 0).1 = 0)
    (hl : (ops.createHardLink (ops.isNewerFile w opt.ref src 0).2 opt.ref opt.dst
      opt.verbose).1 ≠ 0) :
    visitorLinkDest ops src opt w =
      visitorFinish ops src opt
        (ops.createHardLink (ops.isNewerFile w opt.ref src 0).2 opt.ref opt.dst opt.verbose).2
        [⟨Call.isNewerFile opt.ref src, 0⟩, ⟨Call.createHardLink opt.ref opt.dst,
          (ops.createHardLink (ops.isNewerFile w opt.ref src 0).2 opt.ref opt.dst
            opt.verbose).1⟩] := by
  unfold visitorLinkDest
  simp [hn, hl]

/-- The result of `visitorLinkDest` when `isNewerFile(ref, src)` is not 0 and
`isNewerFile(dst, src)` is not 0: the source is copied. -/
theorem visitorLinkDest_copy {σ : Type} (ops : IoOps σ) (src : CStr)
    (opt : tOptions) (w : σ)
    (hn : (ops.isNewerFile w opt.ref src 0).1 ≠ 0)
    (hd : (ops.isNewerFile (ops.isNewerFile w opt.ref src 0).2 opt.dst src 0).1 ≠ 0) :
    visitorLinkDest ops src opt w =
      visitorCopy ops src opt
        (ops.isNewerFile (ops.isNewerFile w opt.ref src 0).2 opt.dst src 0).2
        [⟨Call.isNewerFile opt.ref src, (ops.isNewerFile w opt.ref src 0).1⟩,
         ⟨Call.isNewerFile opt.dst src,
          (ops.isNewerFile (ops.isNewerFile w opt.ref src 0).2 opt.dst src 0).1⟩] := by
  unfold visitorLinkDest
  simp [hn, hd]

/-- The result of `visitorLinkDest` when `isNewerFile(ref, src)` is not 0 and
`isNewerFile(dst, src)` is 0: nothing is copied or linked. -/
theorem visitorLinkDest_skip {σ : Type} (ops : IoOps σ) (src : CStr)
    (opt : tOptions) (w : σ)
    (hn : (ops.isNewerFile w opt.ref src 0).1 ≠ 0)
    (hd : (ops.isNewerFile (ops.isNewerFile w opt.ref src 0).2 opt.dst src 0).1 = 0) :
    visitorLinkDest ops src opt w =
      visitorFinish ops src opt
        (ops.isNewerFile (ops.isNewerFile w opt.ref src 0).2 opt.dst src 0).2
        [⟨Call.isNewerFile opt.ref src, (ops.isNewerFile w opt.ref src 0).1⟩,
         ⟨Call.isNewerFile opt.dst src, 0⟩] := by
  unfold visitorLinkDest
  simp [hn, hd]

/-- The events of `visitorCopy`: the events so far, the copy, and the attribute
copy when the copy succeeded. -/
theorem visitorCopy_trace {σ : Type} (ops : IoOps σ) (src : CStr) (opt : tOptions)
    (w : σ) (t : List Event) :
    (visitorCopy ops src opt w t).trace =
      t ++ ⟨Call.copyFile src opt.dst opt.copyMask,
          (ops.copyFile w src opt.dst opt.copyMask opt.verbose).1⟩ ::
        (if (ops.copyFile w src opt.dst opt.copyMask opt.verbose).1 = 0 then []
         else [⟨Call.copyAttributes src opt.dst opt.attrMask,
            (ops.copyAttributes (ops.copyFile w src opt.dst opt.copyMask opt.verbose).2 src
              opt.dst opt.attrMask opt.verbose).1⟩]) := by
  unfold visitorCopy
  by_cases h : (ops.copyFile w src opt.dst opt.copyMask opt.verbose).1 = 0
  · simp [h]
  · simp [h]

/-- The value returned by `visitorCopy`: 1 exactly when `copyFile` did not return 0. -/
theorem visitorCopy_ret {σ : Type} (ops : IoOps σ) (src : CStr) (opt : tOptions)
    (w : σ) (t : List Event) :
    (visitorCopy ops src opt w t).ret =
      if (ops.copyFile w src opt.dst opt.copyMask opt.verbose).1 = 0 then 0 else 1 := by
  unfold visitorCopy
  by_cases h : (ops.copyFile w src opt.dst opt.copyMask opt.verbose).1 = 0
  · simp [h]
  · simp [h]

/-- C2: link-dest decision, first branch.  For a non-directory entry with `linkDest`
set, no cancellation pending and both paths fitting the buffers: a hard link is
attempted if and only if `isNewerFile(ref_path, src)` returns 0, and it is then the
link from `ref_path` to `dst_path`; when that hard link succeeds, `copyFile` is not
invoked and the visitor returns 1. -/
theorem backupVisitor_link_first_branch {σ : Type} (P : Platform) (ops : IoOps σ) (src : CStr)
    (item ext : Option CStr) (level : Nat) (opt : tOptions) (w : σ) (ld : CStr)
    (hsig : ops.signalReceived w = 0) (hld : opt.linkDest = some ld)
    (hdst : (formatPath P opt opt.dstArg src item 0).length < BUFFER_SIZE)
    (href : (formatPath P opt ld src item 0).length < BUFFER_SIZE) :
    ((∃ e ∈ (backupVisitor P ops src item ext 0 level opt w).trace,
        e.call.isCreateHardLink = true) ↔
      (ops.isNewerFile w (formatPath P opt ld src item 0) src 0).1 = 0) ∧
    ((ops.isNewerFile w (formatPath P opt ld src item 0) src 0).1 = 0 →
      (⟨Call.createHardLink (formatPath P opt ld src item 0)
          (formatPath P opt opt.dstArg src item 0),
        (ops.createHardLink (ops.isNewerFile w (formatPath P opt ld src item 0) src 0).2
          (formatPath P opt ld src item 0) (formatPath P opt opt.dstArg src item 0)
          opt.verbose).1⟩ : Event) ∈ (backupVisitor P ops src item ext 0 level opt w).trace) ∧
    ((ops.isNewerFile w (formatPath P opt ld src item 0) src 0).1 = 0 →
      (ops.createHardLink (ops.isNewerFile w (formatPath P opt ld src item 0) src 0).2
          (formatPath P opt ld src item 0) (formatPath P opt opt.dstArg src item 0)
          opt.verbose).1 ≠ 0 →
      (∀ e ∈ (backupVisitor P ops src item ext 0 level opt w).trace,
        e.call.isCopyFile = false) ∧
      (backupVisitor P ops src item ext 0 level opt w).ret = 1) := by
  rw [backupVisitor_eq_visitorLinkDest P ops src item ext level opt w ld hsig hld hdst href]
  by_cases hn : (ops.isNewerFile w (formatPath P opt ld src item 0) src 0).1 = 0
  · by_cases hl : (ops.createHardLink
        (ops.isNewerFile w (formatPath P opt ld src item 0) src 0).2
        (formatPath P opt ld src item 0) (formatPath P opt opt.dstArg src item 0)
        opt.verbose).1 = 0
    · rw [visitorLinkDest_trace_link_failed ops src _ w hn hl, visitorCopy_trace]
      simp [hn, hl, Call.isCreateHardLink]
    · rw [visitorLinkDest_link_ok ops src _ w hn hl]
      simp [hn, hl, Call.isCreateHardLink, Call.isCopyFile]
  · by_cases hd : (ops.isNewerFile
        (ops.isNewerFile w (formatPath P opt ld src item 0) src 0).2
        (formatPath P opt opt.dstArg src item 0) src 0).1 = 0
    · rw [visitorLinkDest_skip ops src _ w hn hd]
      simp [hn, Call.isCreateHardLink]
    · rw [visitorLinkDest_copy ops src _ w hn hd, visitorCopy_trace]
      split_ifs <;> simp [hn, Call.isCreateHardLink]

/-- C2 for the single file `b` with an identical reference `r/b` and a hard link
that succeeds: the visitor returns 1. -/
theorem backupVisitor_link_first_branch_witness :
    (backupVisitor linux (simOps 1 1 1) "b".toList none none 0 0 optLink fsLinked).ret = 1 :=
  ((backupVisitor_link_first_branch linux (simOps 1 1 1) "b".toList none none 0 optLink
    fsLinked "r".toList rfl rfl (by decide) (by decide)).2.2 (by decide) (by decide)).2

/-- The POSIX `isNewerFile(a, b)` with `b` readable is not 0 exactly when `a` does not
exist or is older than `b` by the comparison rule. -/
theorem isNewerFile_ne_zero_iff {σ : Type} (px : Posix σ) (w : σ) (a b : CStr)
    (verbose : Int) (sb : Stat) (hb : px.stat w b = some sb) :
    Linux.isNewerFile px w a b verbose ≠ 0 ↔
      (px.stat w a = none ∨ ∃ sa, px.stat w a = some sa ∧
        (sa.st_size ≠ sb.st_size ∨ sa.st_mtime < sb.st_mtime ∨ sa.st_ctime < sb.st_ctime)) := by
  unfold Linux.isNewerFile
  rw [hb]
  cases ha : px.stat w a with
  | none => simp
  | some sa =>
    simp only [reduceCtorEq, Option.some.injEq, exists_eq_left', false_or]
    by_cases h1 : sa.st_size = sb.st_size
    · by_cases h2 : sa.st_mtime < sb.st_mtime ∨ sa.st_ctime < sb.st_ctime
      · simp [h1, h2]
      · simp [h1, h2]
    · simp [h1]

/-- C3: link-dest decision, second branch (POSIX).  For a non-directory entry with
`linkDest` set, when `isNewerFile(ref_path, src)` is not 0: the source is copied to
`dst_path` exactly when `isNewerFile(dst_path, src)` is not 0, that is when the
destination does not exist or is older than the source; when the destination exists
and is at least as new as the source (`isNewerFile(dst_path, src)` is 0), neither
`copyFile` nor `createHardLink` is invoked and the visitor returns 1. -/
theorem backupVisitor_link_second_branch {σ : Type} (P : Platform) (ops : IoOps σ)
    (px : Posix σ) (src : CStr) (item ext : Option CStr) (level : Nat) (opt : tOptions)
    (w : σ) (ld : CStr) (ss : Stat)
    (hnewer : ∀ v a b verbose, ops.isNewerFile v a b verbose =
      (Linux.isNewerFile px v a b verbose, v))
    (hsig : ops.signalReceived w = 0) (hld : opt.linkDest = some ld)
    (hdst : (formatPath P opt opt.dstArg src item 0).length < BUFFER_SIZE)
    (href : (formatPath P opt ld src item 0).length < BUFFER_SIZE)
    (hsrc : px.stat w src = some ss)
    (hn : Linux.isNewerFile px w (formatPath P opt ld src item 0) src 0 ≠ 0) :
    ((∃ e ∈ (backupVisitor P ops src item ext 0 level opt w).trace,
        e.call = Call.copyFile src (formatPath P opt opt.dstArg src item 0) opt.copyMask) ↔
      Linux.isNewerFile px w (formatPath P opt opt.dstArg src item 0) src 0 ≠ 0) ∧
    (Linux.isNewerFile px w (formatPath P opt opt.dstArg src item 0) src 0 ≠ 0 ↔
      (px.stat w (formatPath P opt opt.dstArg src item 0) = none ∨
        ∃ sd, px.stat w (formatPath P opt opt.dstArg src item 0) = some sd ∧
          (sd.st_size ≠ ss.st_size ∨ sd.st_mtime < ss.st_mtime ∨
            sd.st_ctime < ss.st_ctime))) ∧
    (Linux.isNewerFile px w (formatPath P opt opt.dstArg src item 0) src 0 = 0 →
      (∀ e ∈ (backupVisitor P ops src item ext 0 level opt w).trace,
        e.call.isCopyFile = false ∧ e.call.isCreateHardLink = false) ∧
      (backupVisitor P ops src item ext 0 level opt w).ret = 1) := by
  rw [backupVisitor_eq_visitorLinkDest P ops src item ext level opt w ld hsig hld hdst href]
  refine ⟨?_, isNewerFile_ne_zero_iff px w _ src 0 ss hsrc, ?_⟩
  · by_cases hd : Linux.isNewerFile px w (formatPath P opt opt.dstArg src item 0) src 0 = 0
    · rw [visitorLinkDest_skip ops src _ w (by simpa [hnewer] using hn)
        (by simpa [hnewer] using hd)]
      simp [hd]
    · rw [visitorLinkDest_copy ops src _ w (by simpa [hnewer] using hn)
        (by simpa [hnewer] using hd), visitorCopy_trace]
      simp [hd]
  · intro hd
    rw [visitorLinkDest_skip ops src _ w (by simpa [hnewer] using hn)
        (by simpa [hnewer] using hd)]
    simp [Call.isCopyFile, Call.isCreateHardLink]

/-- C3 for the single file `b` without reference and without destination file:
the source is copied to `c/b`. -/
theorem backupVisitor_link_second_branch_witness :
    ∃ e ∈ (backupVisitor linux (simOps 1 1 1) "b".toList none none 0 0 optLink
        fsOnlySource).trace,
      e.call = Call.copyFile "b".toList "c/b".toList 0 :=
  (backupVisitor_link_second_branch linux (simOps 1 1 1) simPosix "b".toList none none 0
    optLink fsOnlySource "r".toList (regStat 5 10 10) (fun _ _ _ _ => rfl) rfl rfl
    (by decide) (by decide) rfl (by decide)).1.mpr (by decide)

/-- C7 as stated fails on POSIX: the reference `r/b` exists with the size of the source
and a modification time not before the source's, yet no hard link is attempted,
because the change time of the source is greater than that of the reference. -/
theorem backupVisitor_same_size_mtime_not_linked :
    (∃ sr ss, simPosix.stat fsSourceChanged "r/b".toList = some sr ∧
        simPosix.stat fsSourceChanged "b".toList = some ss ∧
        sr.st_size = ss.st_size ∧ ss.st_mtime ≤ sr.st_mtime) ∧
      (backupVisitor linux (simOps 1 1 1) "b".toList none none 0 0 optLink
        fsSourceChanged).opt.ref = "r/b".toList ∧
      ∀ e ∈ (backupVisitor linux (simOps 1 1 1) "b".toList none none 0 0 optLink
        fsSourceChanged).trace, e.call.isCreateHardLink = false := by
  refine ⟨⟨regStat 5 10 10, regStat 5 10 20, rfl, rfl, rfl, by decide⟩, by decide, by decide⟩

/-- C7, amended (POSIX): for a regular-file entry processed with `linkDest` set whose
reference file exists with the same size as the source, a modification time greater
than or equal to the source's AND a change time greater than or equal to the
source's, `createHardLink(ref_path, dst_path)` is attempted; when the link succeeds
the visitor returns 1 without copying, and whatever a successful
`createHardLink(ref_path, dst_path)` establishes and `copyAttributes` keeps
(destination and reference are the same file) holds afterwards. -/
theorem backupVisitor_link_dest_correct {σ : Type} (P : Platform) (ops : IoOps σ)
    (px : Posix σ) (src : CStr) (item ext : Option CStr) (level : Nat) (opt : tOptions)
    (w : σ) (ld : CStr) (sr ss : Stat)
    (hnewer : ∀ v a b verbose, ops.isNewerFile v a b verbose =
      (Linux.isNewerFile px v a b verbose, v))
    (hsig : ops.signalReceived w = 0) (hld : opt.linkDest = some ld)
    (hdst : (formatPath P opt opt.dstArg src item 0).length < BUFFER_SIZE)
    (href : (formatPath P opt ld src item 0).length < BUFFER_SIZE)
    (hr : px.stat w (formatPath P opt ld src item 0) = some sr)
    (hs : px.stat w src = some ss)
    (hsize : sr.st_size = ss.st_size) (hmtime : ss.st_mtime ≤ sr.st_mtime)
    (hctime : ss.st_ctime ≤ sr.st_ctime) :
    ((⟨Call.createHardLink (formatPath P opt ld src item 0)
          (formatPath P opt opt.dstArg src item 0),
        (ops.createHardLink w (formatPath P opt ld src item 0)
          (formatPath P opt opt.dstArg src item 0) opt.verbose).1⟩ : Event) ∈
      (backupVisitor P ops src item ext 0 level opt w).trace) ∧
    ((ops.createHardLink w (formatPath P opt ld src item 0)
        (formatPath P opt opt.dstArg src item 0) opt.verbose).1 ≠ 0 →
      (backupVisitor P ops src item ext 0 level opt w).ret = 1 ∧
      (∀ e ∈ (backupVisitor P ops src item ext 0 level opt w).trace,
        e.call.isCopyFile = false) ∧
      ∀ Q : σ → Prop,
        Q (ops.createHardLink w (formatPath P opt ld src item 0)
          (formatPath P opt opt.dstArg src item 0) opt.verbose).2 →
        (∀ v, Q v → Q (ops.copyAttributes v src (formatPath P opt opt.dstArg src item 0)
          opt.attrMask opt.verbose).2) →
        Q (backupVisitor P ops src item ext 0 level opt w).world) := by
  have hzero : Linux.isNewerFile px w (formatPath P opt ld src item 0) src 0 = 0 := by
    unfold Linux.isNewerFile
    rw [hr, hs]
    simp only [hsize, if_true]
    rw [if_neg]
    omega
  have hn : (ops.isNewerFile w (formatPath P opt ld src item 0) src 0).1 = 0 := by
    rw [hnewer]; exact hzero
  have hw : (ops.isNewerFile w (formatPath P opt ld src item 0) src 0).2 = w := by
    rw [hnewer]
  rw [backupVisitor_eq_visitorLinkDest P ops src item ext level opt w ld hsig hld hdst href]
  constructor
  · by_cases hl : (ops.createHardLink w (formatPath P opt ld src item 0)
        (formatPath P opt opt.dstArg src item 0) opt.verbose).1 = 0
    · rw [visitorLinkDest_trace_link_failed ops src _ w hn (by rw [hw]; exact hl),
        visitorCopy_trace]
      simp [hl]
    · rw [visitorLinkDest_link_ok ops src _ w hn (by rw [hw]; exact hl)]
      simp [hw]
  · intro hl
    rw [visitorLinkDest_link_ok ops src _ w hn (by rw [hw]; exact hl)]
    refine ⟨rfl, ?_, ?_⟩
    · simp [Call.isCopyFile]
    · intro Q hq hattr
      simp only [visitorFinish, hw]
      exact hattr _ hq

/-- C7, amended, for the single file `b` with an identical reference `r/b`: the hard
link from `r/b` to `c/b` is attempted. -/
theorem backupVisitor_link_dest_correct_witness :
    (⟨Call.createHardLink "r/b".toList "c/b".toList, 1⟩ : Event) ∈
      (backupVisitor linux (simOps 1 1 1) "b".toList none none 0 0 optLink fsLinked).trace :=
  (backupVisitor_link_dest_correct linux (simOps 1 1 1) simPosix "b".toList none none 0
    optLink fsLinked "r".toList (regStat 5 10 10) (regStat 5 10 10) (fun _ _ _ _ => rfl)
    rfl rfl (by decide) (by decide) rfl rfl rfl (by decide) (by decide)).1

/-! ## Idempotence of the per-entry decision -/

/-- C8 as stated fails without `linkDest`: the destination `c/b` exists with the size
and the times of the source `b`, and the visitor still invokes `copyFile(b, c/b)`. -/
theorem backupVisitor_plain_copies_again :
    simPosix.stat fsSecondRun "c/b".toList = simPosix.stat fsSecondRun "b".toList ∧
      simPosix.stat fsSecondRun "b".toList = some (regStat 5 10 10) ∧
      (backupVisitor linux (simOps 1 1 1) "b".toList none none 0 0 optPlain
        fsSecondRun).trace =
        [⟨Call.copyFile "b".toList "c/b".toList 0, 1⟩,
         ⟨Call.copyAttributes "b".toList "c/b".toList 0, 1⟩] := by
  decide

/-- C8, amended (POSIX): for a regular-file entry whose destination file already
exists with the same size as the source and modification and change times not
before the source's, (1) with `linkDest` set `backupVisitor` invokes `copyFile` only
as the fallback of a hard link from the reference that was attempted and failed (so
no content is written when the hard link is not attempted or succeeds), and
(2) without `linkDest` it invokes `copyFile(src, dst_path)` all the same. -/
theorem backupVisitor_second_run {σ : Type} (P : Platform) (ops : IoOps σ)
    (px : Posix σ) (src : CStr) (item ext : Option CStr) (level : Nat) (opt : tOptions)
    (w : σ) (sd ss : Stat)
    (hnewer : ∀ v a b verbose, ops.isNewerFile v a b verbose =
      (Linux.isNewerFile px v a b verbose, v))
    (hsig : ops.signalReceived w = 0)
    (hdst : (formatPath P opt opt.dstArg src item 0).length < BUFFER_SIZE)
    (hd : px.stat w (formatPath P opt opt.dstArg src item 0) = some sd)
    (hs : px.stat w src = some ss)
    (hsize : sd.st_size = ss.st_size) (hmtime : ss.st_mtime ≤ sd.st_mtime)
    (hctime : ss.st_ctime ≤ sd.st_ctime) :
    (∀ ld, opt.linkDest = some ld →
      (∃ e ∈ (backupVisitor P ops src item ext 0 level opt w).trace,
        e.call.isCopyFile = true) →
      (⟨Call.createHardLink (formatPath P opt ld src item 0)
          (formatPath P opt opt.dstArg src item 0), 0⟩ : Event) ∈
        (backupVisitor P ops src item ext 0 level opt w).trace) ∧
    (opt.linkDest = none →
      ∃ e ∈ (backupVisitor P ops src item ext 0 level opt w).trace,
        e.call = Call.copyFile src (formatPath P opt opt.dstArg src item 0) opt.copyMask) := by
  have hzero : Linux.isNewerFile px w (formatPath P opt opt.dstArg src item 0) src 0 = 0 := by
    unfold Linux.isNewerFile
    rw [hd, hs]
    simp only [hsize, if_true]
    rw [if_neg]
    omega
  have h1 : ¬ ((formatPath P opt opt.dstArg src item 0).length : Int) ≥ (BUFFER_SIZE : Int) := by
    omega
  have t1 : (formatPath P opt opt.dstArg src item 0).take (BUFFER_SIZE - 1) =
      formatPath P opt opt.dstArg src item 0 := List.take_of_length_le (by omega)
  constructor
  · intro ld hld
    by_cases href : (formatPath P opt ld src item 0).length < BUFFER_SIZE
    · rw [backupVisitor_eq_visitorLinkDest P ops src item ext level opt w ld hsig hld hdst href]
      by_cases hn : (ops.isNewerFile w (formatPath P opt ld src item 0) src 0).1 = 0
      · by_cases hl : (ops.createHardLink
            (ops.isNewerFile w (formatPath P opt ld src item 0) src 0).2
            (formatPath P opt ld src item 0) (formatPath P opt opt.dstArg src item 0)
            opt.verbose).1 = 0
        · rw [visitorLinkDest_trace_link_failed ops src _ w hn hl, visitorCopy_trace]
          intro _
          simp
        · rw [visitorLinkDest_link_ok ops src _ w hn hl]
          simp [Call.isCopyFile]
      · rw [visitorLinkDest_skip ops src _ w hn (by simpa [hnewer] using hzero)]
        simp [Call.isCopyFile]
    · have h2 : ((formatPath P opt ld src item 0).length : Int) ≥ (BUFFER_SIZE : Int) := by
        omega
      unfold backupVisitor
      simp [hsig, sntprintf, h1, h2, hld]
  · intro hnone
    unfold backupVisitor
    simp only [hsig, ne_eq, not_true_eq_false, if_false, sntprintf, h1, hnone, t1]
    rw [visitorCopy_trace]
    simp

/-- C8, amended, for `lsync --link-dest=r b c` with the destination file `c/b` of a
previous run and no reference file: nothing is copied. -/
theorem backupVisitor_second_run_witness :
    ¬ ∃ e ∈ (backupVisitor linux (simOps 1 1 1) "b".toList none none 0 0 optLink
        fsSecondRun).trace, e.call.isCopyFile = true :=
  fun h =>
    absurd ((backupVisitor_second_run linux (simOps 1 1 1) simPosix "b".toList none none 0
      optLink fsSecondRun (regStat 5 10 10) (regStat 5 10 10) (fun _ _ _ _ => rfl) rfl
      (by decide) rfl rfl rfl (by decide) (by decide)).1 "r".toList rfl h) (by decide)

/-! ## Path too long -/

/-- C10: path-too-long failure.  Whenever the formatted destination path has 32768
(`BUFFER_SIZE`) or more characters, `backupVisitor` returns 0 and invokes no platform
operation at all (no `createDirectory`, `copyFile`, `createHardLink`,
`copyAttributes`).  A formatted destination path of at most 32767 characters does
not trigger the failure: with no cancellation pending the `dst` buffer holds the
complete path and the visitor goes on to its first operation on it
(`createDirectory` for a directory, `copyFile` for a file without `linkDest`, the
comparison with the reference when `linkDest` is set and the reference path fits). -/
theorem backupVisitor_path_too_long {σ : Type} (P : Platform) (ops : IoOps σ) (src : CStr)
    (item ext : Option CStr) (isDir : Int) (level : Nat) (opt : tOptions) (w : σ) :
    (BUFFER_SIZE ≤ (formatPath P opt opt.dstArg src item isDir).length →
      (backupVisitor P ops src item ext isDir level opt w).ret = 0 ∧
      (backupVisitor P ops src item ext isDir level opt w).trace = []) ∧
    ((formatPath P opt opt.dstArg src item isDir).length ≤ 32767 →
      ops.signalReceived w = 0 →
      (backupVisitor P ops src item ext isDir level opt w).opt.dst =
        formatPath P opt opt.dstArg src item isDir ∧
      (isDir ≠ 0 →
        (backupVisitor P ops src item ext isDir level opt w).trace.head? =
          some ⟨Call.createDirectory (formatPath P opt opt.dstArg src item isDir),
            (ops.createDirectory w (formatPath P opt opt.dstArg src item isDir)
              opt.verbose).1⟩) ∧
      (isDir = 0 → opt.linkDest = none →
        (backupVisitor P ops src item ext isDir level opt w).trace.head? =
          some ⟨Call.copyFile src (formatPath P opt opt.dstArg src item isDir) opt.copyMask,
            (ops.copyFile w src (formatPath P opt opt.dstArg src item isDir) opt.copyMask
              opt.verbose).1⟩) ∧
      (isDir = 0 → ∀ ld, opt.linkDest = some ld →
        (formatPath P opt ld src item isDir).length < BUFFER_SIZE →
        (backupVisitor P ops src item ext isDir level opt w).trace.head? =
          some ⟨Call.isNewerFile (formatPath P opt ld src item isDir) src,
            (ops.isNewerFile w (formatPath P opt ld src item isDir) src 0).1⟩)) := by
  constructor
  · intro hlong
    have h1 : ((formatPath P opt opt.dstArg src item isDir).length : Int) ≥
        (BUFFER_SIZE : Int) := by omega
    unfold backupVisitor
    by_cases hsig : ops.signalReceived w = 0
    · simp [hsig, sntprintf, h1]
    · simp [hsig]
  · intro hshort hsig
    have hlen : (formatPath P opt opt.dstArg src item isDir).length < BUFFER_SIZE := by
      unfold BUFFER_SIZE; omega
    have h1 : ¬ ((formatPath P opt opt.dstArg src item isDir).length : Int) ≥
        (BUFFER_SIZE : Int) := by omega
    have t1 : (formatPath P opt opt.dstArg src item isDir).take (BUFFER_SIZE - 1) =
        formatPath P opt opt.dstArg src item isDir := List.take_of_length_le (by omega)
    refine ⟨?_, ?_, ?_, ?_⟩
    · rw [backupVisitor_dst_buffer P ops src item ext isDir level opt w hsig]
      exact t1
    · intro hdir
      unfold backupVisitor
      simp only [hsig, ne_eq, not_true_eq_false, if_false, sntprintf, h1, hdir,
        not_false_eq_true, if_true, t1]
      split_ifs with hc
      · simp [hc]
      · simp
    · intro hdir hnone
      subst hdir
      unfold backupVisitor
      simp only [hsig, ne_eq, not_true_eq_false, if_false, sntprintf, h1, hnone, t1]
      rw [visitorCopy_trace]
      simp
    · intro hdir ld hld href
      subst hdir
      rw [backupVisitor_eq_visitorLinkDest P ops src item ext level opt w ld hsig hld hlen href]
      unfold visitorLinkDest
      simp only
      split_ifs <;> simp [visitorCopy_trace]

/-- The destination path formatted for `optLong` does not fit the buffer. -/
theorem optLong_too_long :
    BUFFER_SIZE ≤ (formatPath linux optLong optLong.dstArg "b".toList none 0).length := by
  have h : optLong.dstArg = List.replicate 32768 'c' := rfl
  unfold formatPath
  rw [if_pos ⟨rfl, rfl⟩, List.length_append, h, List.length_replicate]
  unfold BUFFER_SIZE
  omega

/-- C10 on a destination argument of 32768 characters (failure, nothing invoked) and
on the short destination path `c/b` (the copy is started). -/
theorem backupVisitor_path_too_long_witness :
    ((backupVisitor linux (simOps 1 1 1) "b".toList none none 0 0 optLong ⟨[], 0⟩).ret = 0 ∧
      (backupVisitor linux (simOps 1 1 1) "b".toList none none 0 0 optLong ⟨[], 0⟩).trace
        = []) ∧
    (backupVisitor linux (simOps 1 1 1) "b".toList none none 0 0 optPlain
        fsOnlySource).trace.head? =
      some ⟨Call.copyFile "b".toList (formatPath linux optPlain optPlain.dstArg "b".toList
        none 0) optPlain.copyMask, 1⟩ :=
  ⟨(backupVisitor_path_too_long linux (simOps 1 1 1) "b".toList none none 0 0 optLong
      ⟨[], 0⟩).1 optLong_too_long,
    ((backupVisitor_path_too_long linux (simOps 1 1 1) "b".toList none none 0 0 optPlain
      fsOnlySource).2 (by decide) rfl).2.2.1 rfl rfl⟩

/-! ## Recursive mkdir -/

/-- A separator found by `strpbrk(s + start, ...)` lies at or behind `start`, inside
the string. -/
theorem tcspbrk_bounds (s : CStr) (start : Nat) (accept : List Char) (j : Nat)
    (h : tcspbrk s start accept = some j) : start ≤ j ∧ j < s.length := by
  unfold tcspbrk at h
  cases hf : (s.drop start).findIdx? (fun c => accept.contains c) with
  | none => rw [hf] at h; simp at h
  | some i =>
    rw [hf] at h
    simp only [Option.some.injEq] at h
    have hi := (List.findIdx?_eq_some_iff_findIdx_eq.mp hf).1
    rw [List.length_drop] at hi
    omega

/-- The loop of `createDirectory` ends within the fuel whenever `end` points into
`dir` and the fuel exceeds the number of characters from `end` on. -/
theorem createDirectoryLoop_total {σ : Type} (px : Posix σ) :
    ∀ (fuel : Nat) (dir : CStr) (e : Option Nat) (w : σ), 0 < fuel →
      (∀ i, e = some i → i < dir.length ∧ dir.length - i < fuel) →
      (Linux.createDirectoryLoop px fuel dir e w).isSome = true := by
  intro fuel
  induction fuel with
  | zero => intro dir e w h; omega
  | succ n ih =>
    intro dir e w _ hb
    unfold Linux.createDirectoryLoop
    simp only
    generalize (if Linux.isDirectory px w dir = 0 then px.mkdir w dir 0o777 else (0, w)) = m
    by_cases hm : m.1 < 0
    · simp [hm]
    · simp only [hm, if_false]
      cases e with
      | none => rfl
      | some i =>
        have hi := hb i rfl
        apply ih
        · omega
        · intro j hj
          have hj2 := tcspbrk_bounds _ _ _ _ hj
          rw [List.length_set] at hj2 ⊢
          omega

/-- Function `createDirectory` always returns: the fuel of its loop never runs out. -/
theorem createDirectory_total {σ : Type} (px : Posix σ) (w : σ) (dst : CStr) (verbose : Int) :
    (Linux.createDirectory px w dst verbose).isSome = true := by
  unfold Linux.createDirectory
  split_ifs with h1 h2 h3
  · rfl
  · rfl
  · apply createDirectoryLoop_total
    · omega
    · intro j hj
      have := tcspbrk_bounds _ _ _ _ hj
      omega
  · apply createDirectoryLoop_total
    · omega
    · intro j hj
      have := tcspbrk_bounds _ _ _ _ hj
      omega

/-- Function `createDirectory` hands only the complete path to `mkdir`: when the complete
path is no directory and `mkdir` of the complete path fails, the function returns 0,
whatever prefixes the path has. -/
theorem createDirectory_fails_of_mkdir_fails {σ : Type} (px : Posix σ) (w : σ) (dst : CStr)
    (verbose : Int) (hne : dst ≠ [])
    (hdrive : ¬ (dst.getD 1 nul = ':' ∧ dst.length < 4))
    (hdir : Linux.isDirectory px w dst = 0) (hmk : (px.mkdir w dst 0o777).1 < 0) :
    Linux.createDirectory px w dst verbose = some (0, (px.mkdir w dst 0o777).2) := by
  unfold Linux.createDirectory
  rw [if_neg hne, if_neg hdrive]
  simp [Linux.createDirectoryLoop, hdir, hmk]

/-- C9 fails on the code: in an empty directory, where `mkdir` of `x`, then `x/y`, then
`x/y/z` would succeed one level at a time and leave `x/y/z` a directory,
`createDirectory("x/y/z")` returns 0 and creates nothing: the only path it ever
passes to `mkdir` is the complete path `x/y/z`, whose parent does not exist.  (Once
`x/y` exists the same call returns 1.) -/
theorem createDirectory_nested_returns_zero :
    ((simMkdir ⟨[], 0⟩ "x".toList 0o777).1 = 0 ∧
      (simMkdir (simMkdir ⟨[], 0⟩ "x".toList 0o777).2 "x/y".toList 0o777).1 = 0 ∧
      (simMkdir (simMkdir (simMkdir ⟨[], 0⟩ "x".toList 0o777).2 "x/y".toList 0o777).2
        "x/y/z".toList 0o777).1 = 0 ∧
      Linux.isDirectory simPosix
        (simMkdir (simMkdir (simMkdir ⟨[], 0⟩ "x".toList 0o777).2 "x/y".toList 0o777).2
          "x/y/z".toList 0o777).2 "x/y/z".toList = 1) ∧
    (simMkdir ⟨[], 0⟩ "x/y/z".toList 0o777).1 = -1 ∧
    Linux.createDirectory simPosix ⟨[], 0⟩ "x/y/z".toList 1 = some (0, ⟨[], 0⟩) ∧
    (Linux.createDirectory simPosix
      (simMkdir (simMkdir ⟨[], 0⟩ "x".toList 0o777).2 "x/y".toList 0o777).2
      "x/y/z".toList 1).map (fun r => r.1) = some 1 := by
  decide

/-! ## Cancellation -/

/-- The visitor as a callback does what `backupVisitor` does. -/
theorem visitorOn_fst {σ : Type} (P : Platform) (ops : IoOps σ) (src : CStr)
    (item ext : Option CStr) (isDir : Int) (level : Nat) (st : RunState σ) :
    (visitorOn P ops src item ext isDir level st).1 =
      (backupVisitor P ops src item ext isDir level st.opt st.world).ret := rfl

/-- With the flag set the visitor returns at once. -/
theorem backupVisitor_of_signal {σ : Type} (P : Platform) (ops : IoOps σ) (src : CStr)
    (item ext : Option CStr) (isDir : Int) (level : Nat) (opt : tOptions) (w : σ)
    (hsig : ops.signalReceived w ≠ 0) :
    backupVisitor P ops src item ext isDir level opt w = ⟨0, opt, w, []⟩ := by
  unfold backupVisitor
  rw [if_pos hsig]

/-- With the flag set the callback returns 0 and leaves the run state as it is. -/
theorem visitorOn_of_signal {σ : Type} (P : Platform) (ops : IoOps σ) (src : CStr)
    (item ext : Option CStr) (isDir : Int) (level : Nat) (st : RunState σ)
    (hsig : ops.signalReceived st.world ≠ 0) :
    visitorOn P ops src item ext isDir level st = (0, st) := by
  unfold visitorOn
  rw [backupVisitor_of_signal P ops src item ext isDir level st.opt st.world hsig]
  simp

/-- C11: cancellation check.  A call of `backupVisitor` made while the cancellation
flag is non-zero returns 0 without invoking any platform operation (the trace is
empty: no `createDirectory`, `copyFile`, `createHardLink`, `copyAttributes`,
`isNewerFile`), leaves the options with the `dst` and `ref` buffers and the world as
they are; so the flag is still set afterwards, and whatever sequence of entries is
visited from then on, the state of the run never changes. -/
theorem backupVisitor_cancelled {σ : Type} (P : Platform) (ops : IoOps σ) (src : CStr)
    (item ext : Option CStr) (isDir : Int) (level : Nat) (opt : tOptions) (w : σ)
    (hsig : ops.signalReceived w ≠ 0) :
    (backupVisitor P ops src item ext isDir level opt w).ret = 0 ∧
    (backupVisitor P ops src item ext isDir level opt w).trace = [] ∧
    (backupVisitor P ops src item ext isDir level opt w).opt.dst = opt.dst ∧
    (backupVisitor P ops src item ext isDir level opt w).opt.ref = opt.ref ∧
    (backupVisitor P ops src item ext isDir level opt w).opt = opt ∧
    (backupVisitor P ops src item ext isDir level opt w).world = w ∧
    ∀ (entries : List VisitArgs) (t : List Event),
      visitAll P ops entries ⟨opt, w, t⟩ = ⟨opt, w, t⟩ := by
  rw [backupVisitor_of_signal P ops src item ext isDir level opt w hsig]
  refine ⟨rfl, rfl, rfl, rfl, rfl, rfl, ?_⟩
  intro entries t
  induction entries with
  | nil => rfl
  | cons a rest ih =>
    unfold visitAll
    rw [visitorOn_of_signal P ops a.src a.item a.ext a.isDir a.level ⟨opt, w, t⟩ hsig]
    exact ih

/-- C11 on a file system whose cancellation flag is set: the visitor returns 0 and
invokes nothing. -/
theorem backupVisitor_cancelled_witness :
    (backupVisitor linux (simOps 1 1 1) "b".toList none none 0 0 optPlain
        ⟨[("b".toList, regStat 5 10 10)], 1⟩).ret = 0 ∧
      (backupVisitor linux (simOps 1 1 1) "b".toList none none 0 0 optPlain
        ⟨[("b".toList, regStat 5 10 10)], 1⟩).trace = [] :=
  ⟨(backupVisitor_cancelled linux (simOps 1 1 1) "b".toList none none 0 0 optPlain
      ⟨[("b".toList, regStat 5 10 10)], 1⟩ (by decide)).1,
    (backupVisitor_cancelled linux (simOps 1 1 1) "b".toList none none 0 0 optPlain
      ⟨[("b".toList, regStat 5 10 10)], 1⟩ (by decide)).2.1⟩

/-! ## The traverser: runs that agree -/

/-- The formatted entry path is never empty, so `needPathSize < 1` does not occur. -/
theorem tdsNewPath_length (path name : CStr) :
    ¬ ((tdsNewPath path name).length : Int) < 1 := by
  unfold tdsNewPath
  split_ifs with h
  · have : path ≠ [] := by
      intro hp
      rw [hp] at h
      simp at h
    have : 0 < path.length := List.length_pos.mpr this
    rw [List.length_append]
    omega
  · rw [List.length_append, List.length_cons]
    omega

/-- The guarded visitor invocation agrees for two runs whose states are related. -/
theorem tdsVisit_rel {S T : Type} (R : S → T → Prop) (v : Visitor S) (u : Visitor T)
    (hv : ∀ p i x b l s t, R s t → (v p i x b l s).1 = (u p i x b l t).1 ∧
      R (v p i x b l s).2 (u p i x b l t).2)
    (options bit : Nat) (newPath name : CStr) (isDir : Int) (curLevel : Nat) (s : S) (t : T)
    (hR : R s t) :
    (tdsVisit v options bit newPath name isDir curLevel s).ret =
        (tdsVisit u options bit newPath name isDir curLevel t).ret ∧
      R (tdsVisit v options bit newPath name isDir curLevel s).state
        (tdsVisit u options bit newPath name isDir curLevel t).state ∧
      (tdsVisit v options bit newPath name isDir curLevel s).calls =
        (tdsVisit u options bit newPath name isDir curLevel t).calls := by
  have h := hv newPath (some (tdsItemName newPath name)) (some (tdsItemExt newPath name))
    isDir curLevel s t hR
  unfold tdsVisit
  split_ifs
  · exact ⟨h.1, h.2, by rw [h.1]⟩
  · exact ⟨rfl, hR, rfl⟩

/-- One round of the loop agrees for two runs whose states are related, when `stat`,
the visitor and the recursive call agree on related states. -/
theorem tdsStep_rel {S T : Type} (R : S → T → Prop) (d : DirOps S) (e : DirOps T)
    (v : Visitor S) (u : Visitor T)
    (rec1 : CStr → S → Option (TraverseResult S)) (rec2 : CStr → T → Option (TraverseResult T))
    (options : Nat) (path : CStr) (curLevel : Nat)
    (hd : ∀ s t, R s t → ∀ p, d.stat s p = e.stat t p)
    (hv : ∀ p i x b l s t, R s t → (v p i x b l s).1 = (u p i x b l t).1 ∧
      R (v p i x b l s).2 (u p i x b l t).2)
    (hrec : ∀ p s t, R s t → TraverseRel R (rec1 p s) (rec2 p t))
    (name : CStr) (itemStat : Stat) (s : S) (t : T) (hR : R s t) :
    StepRel R (tdsStep d v rec1 options path curLevel name itemStat s)
      (tdsStep e u rec2 options path curLevel name itemStat t) := by
  have hV1 := tdsVisit_rel R v u hv options TDSO_DIRECTORY (tdsNewPath path name) name 1
    curLevel s t hR
  have hV0 := tdsVisit_rel R v u hv options TDSO_ITEM (tdsNewPath path name) name 0
    curLevel s t hR
  have hrec1 := hrec (tdsNewPath path name) _ _ hV1.2.1
  unfold tdsStep
  simp only [hd s t hR, hV1.1, hV0.1, hV1.2.2, hV0.2.2]
  by_cases h1 : name = ".".toList ∨ name = "..".toList
  · rw [if_pos h1, if_pos h1]
    exact ⟨rfl, rfl, hR, rfl⟩
  · rw [if_neg h1, if_neg h1, if_neg (tdsNewPath_length path name),
      if_neg (tdsNewPath_length path name)]
    by_cases h3 : S_ISDIR ((e.stat t (tdsNewPath path name)).getD itemStat).st_mode = true
    · rw [if_pos h3, if_pos h3]
      by_cases h5 : ((!S_ISLNK ((e.stat t (tdsNewPath path name)).getD itemStat).st_mode) = true ∨
          options &&& TDSO_FOLLOW_LINKS ≠ 0)
      · rw [if_pos h5, if_pos h5]
        revert hrec1
        cases rec1 (tdsNewPath path name)
            (tdsVisit v options TDSO_DIRECTORY (tdsNewPath path name) name 1 curLevel s).state <;>
          cases rec2 (tdsNewPath path name)
            (tdsVisit u options TDSO_DIRECTORY (tdsNewPath path name) name 1 curLevel t).state <;>
          simp only [TraverseRel, StepRel, imp_self, false_imp_iff]
        rintro ⟨a, b, c⟩
        exact ⟨trivial, by rw [a], b, by rw [c]⟩
      · rw [if_neg h5, if_neg h5]
        exact ⟨rfl, rfl, hV1.2.1, rfl⟩
    · rw [if_neg h3, if_neg h3]
      exact ⟨rfl, rfl, hV0.2.1, rfl⟩

/-- The loop over the entries agrees for two runs whose states are related. -/
theorem tdsEntries_rel {S T : Type} (R : S → T → Prop) (d : DirOps S) (e : DirOps T)
    (v : Visitor S) (u : Visitor T)
    (rec1 : CStr → S → Option (TraverseResult S)) (rec2 : CStr → T → Option (TraverseResult T))
    (options : Nat) (path : CStr) (curLevel : Nat)
    (hd : ∀ s t, R s t → ∀ p, d.stat s p = e.stat t p)
    (hv : ∀ p i x b l s t, R s t → (v p i x b l s).1 = (u p i x b l t).1 ∧
      R (v p i x b l s).2 (u p i x b l t).2)
    (hrec : ∀ p s t, R s t → TraverseRel R (rec1 p s) (rec2 p t)) :
    ∀ (names : List CStr) (itemStat : Stat) (result : Int) (s : S) (t : T), R s t →
      TraverseRel R (tdsEntries d v rec1 options path curLevel names itemStat result s)
        (tdsEntries e u rec2 options path curLevel names itemStat result t) := by
  intro names
  induction names with
  | nil =>
    intro itemStat result s t hR
    exact ⟨rfl, hR, rfl⟩
  | cons n rest ih =>
    intro itemStat result s t hR
    unfold tdsEntries
    by_cases hres : result ≠ 1
    · rw [if_pos hres, if_pos hres]
      exact ⟨rfl, hR, rfl⟩
    · rw [if_neg hres, if_neg hres]
      have hs := tdsStep_rel R d e v u rec1 rec2 options path curLevel hd hv hrec n itemStat
        s t hR
      revert hs
      cases tdsStep d v rec1 options path curLevel n itemStat s with
      | none =>
        cases tdsStep e u rec2 options path curLevel n itemStat t with
        | none => intro _; trivial
        | some b => intro h; exact h.elim
      | some a =>
        cases tdsStep e u rec2 options path curLevel n itemStat t with
        | none => intro h; exact h.elim
        | some b =>
          rintro ⟨h1, h2, h3, h4⟩
          have hi := ih a.itemStat a.result a.state b.state h3
          rw [h1, h2] at hi
          simp only [h1, h2]
          revert hi
          cases tdsEntries d v rec1 options path curLevel rest b.itemStat b.result a.state with
          | none =>
            cases tdsEntries e u rec2 options path curLevel rest b.itemStat b.result b.state with
            | none => intro _; trivial
            | some y => intro h; exact h.elim
          | some x =>
            cases tdsEntries e u rec2 options path curLevel rest b.itemStat b.result b.state with
            | none => intro h; exact h.elim
            | some y =>
              rintro ⟨g1, g2, g3⟩
              exact ⟨g1, g2, by simp [h4, g3]⟩

/-- Function `tds_traverseR` agrees for two runs whose states are related, when the
directory listings, `stat` and the visitor agree on related states. -/
theorem tds_traverseR_rel {S T : Type} (R : S → T → Prop) (d : DirOps S) (e : DirOps T)
    (v : Visitor S) (u : Visitor T) (maxLevel : Int) (options : Nat) (uninit : Stat)
    (ho : ∀ s t, R s t → ∀ p, d.opendir s p = e.opendir t p)
    (hd : ∀ s t, R s t → ∀ p, d.stat s p = e.stat t p)
    (hv : ∀ p i x b l s t, R s t → (v p i x b l s).1 = (u p i x b l t).1 ∧
      R (v p i x b l s).2 (u p i x b l t).2) :
    ∀ (fuel : Nat) (path : CStr) (curLevel : Nat) (s : S) (t : T), R s t →
      TraverseRel R (tds_traverseR d v maxLevel options uninit fuel path curLevel s)
        (tds_traverseR e u maxLevel options uninit fuel path curLevel t) := by
  intro fuel
  induction fuel with
  | zero => intro path curLevel s t _; trivial
  | succ n ih =>
    intro path curLevel s t hR
    unfold tds_traverseR
    by_cases hl : 0 ≤ maxLevel ∧ maxLevel < (curLevel : Int)
    · rw [if_pos hl, if_pos hl]
      exact ⟨rfl, hR, rfl⟩
    · rw [if_neg hl, if_neg hl, ho s t hR]
      cases e.opendir t path with
      | none => exact ⟨rfl, hR, rfl⟩
      | some names =>
        exact tdsEntries_rel R d e v u _ _ options path curLevel hd hv
          (fun p s1 t1 h => ih p _ s1 t1 h) names uninit 1 s t hR

/-- Function `tds_traverse` agrees for two runs whose states are related. -/
theorem tds_traverse_rel {S T : Type} (R : S → T → Prop) (d : DirOps S) (e : DirOps T)
    (v : Visitor S) (u : Visitor T) (uninit : Stat) (fuel : Nat) (path : CStr)
    (maxLevel : Int) (options : Nat)
    (ho : ∀ s t, R s t → ∀ p, d.opendir s p = e.opendir t p)
    (hd : ∀ s t, R s t → ∀ p, d.stat s p = e.stat t p)
    (hv : ∀ p i x b l s t, R s t → (v p i x b l s).1 = (u p i x b l t).1 ∧
      R (v p i x b l s).2 (u p i x b l t).2)
    (s : S) (t : T) (hR : R s t) :
    TraverseRel R (tds_traverse d v uninit fuel path maxLevel options s)
      (tds_traverse e u uninit fuel path maxLevel options t) := by
  unfold tds_traverse
  split_ifs
  · exact ⟨rfl, hR, rfl⟩
  · exact tds_traverseR_rel R d e v u maxLevel _ uninit ho hd hv fuel path 0 s t hR

/-! ## Attribute copy is a soft failure -/

theorem withAttrResult_signalReceived {σ : Type} (ops : IoOps σ)
    (f : σ → CStr → CStr → Nat → Int → Int) :
    (withAttrResult ops f).signalReceived = ops.signalReceived := rfl

theorem withAttrResult_isFile {σ : Type} (ops : IoOps σ)
    (f : σ → CStr → CStr → Nat → Int → Int) :
    (withAttrResult ops f).isFile = ops.isFile := rfl

theorem withAttrResult_isDirectory {σ : Type} (ops : IoOps σ)
    (f : σ → CStr → CStr → Nat → Int → Int) :
    (withAttrResult ops f).isDirectory = ops.isDirectory := rfl

theorem withAttrResult_createDirectory {σ : Type} (ops : IoOps σ)
    (f : σ → CStr → CStr → Nat → Int → Int) :
    (withAttrResult ops f).createDirectory = ops.createDirectory := rfl

theorem withAttrResult_createHardLink {σ : Type} (ops : IoOps σ)
    (f : σ → CStr → CStr → Nat → Int → Int) :
    (withAttrResult ops f).createHardLink = ops.createHardLink := rfl

theorem withAttrResult_copyFile {σ : Type} (ops : IoOps σ)
    (f : σ → CStr → CStr → Nat → Int → Int) :
    (withAttrResult ops f).copyFile = ops.copyFile := rfl

theorem withAttrResult_isNewerFile {σ : Type} (ops : IoOps σ)
    (f : σ → CStr → CStr → Nat → Int → Int) :
    (withAttrResult ops f).isNewerFile = ops.isNewerFile := rfl

/-- The shared tail does not depend on what `copyAttributes` returns. -/
theorem visitorFinish_withAttrResult {σ : Type} (ops : IoOps σ)
    (f : σ → CStr → CStr → Nat → Int → Int) (src : CStr) (opt : tOptions) (w : σ)
    (t t2 : List Event) :
    SameVisit (visitorFinish (withAttrResult ops f) src opt w t) (visitorFinish ops src opt w t2) :=
  ⟨rfl, rfl, rfl⟩

/-- The copy step does not depend on what `copyAttributes` returns. -/
theorem visitorCopy_withAttrResult {σ : Type} (ops : IoOps σ)
    (f : σ → CStr → CStr → Nat → Int → Int) (src : CStr) (opt : tOptions) (w : σ)
    (t t2 : List Event) :
    SameVisit (visitorCopy (withAttrResult ops f) src opt w t) (visitorCopy ops src opt w t2) := by
  unfold visitorCopy
  simp only [withAttrResult_copyFile]
  split_ifs
  · exact ⟨rfl, rfl, rfl⟩
  · exact visitorFinish_withAttrResult ops f src opt _ _ _

/-- The link-dest decision does not depend on what `copyAttributes` returns. -/
theorem visitorLinkDest_withAttrResult {σ : Type} (ops : IoOps σ)
    (f : σ → CStr → CStr → Nat → Int → Int) (src : CStr) (opt : tOptions) (w : σ) :
    SameVisit (visitorLinkDest (withAttrResult ops f) src opt w)
      (visitorLinkDest ops src opt w) := by
  unfold visitorLinkDest
  simp only [withAttrResult_isNewerFile, withAttrResult_createHardLink]
  split_ifs
  · exact visitorCopy_withAttrResult ops f src opt _ _ _
  · exact visitorFinish_withAttrResult ops f src opt _ _ _
  · exact visitorCopy_withAttrResult ops f src opt _ _ _
  · exact visitorFinish_withAttrResult ops f src opt _ _ _

/-- The result, the buffers and the world `backupVisitor` leaves do not depend on
the value `copyAttributes` returns. -/
theorem backupVisitor_withAttrResult {σ : Type} (P : Platform) (ops : IoOps σ)
    (f : σ → CStr → CStr → Nat → Int → Int) (src : CStr) (item ext : Option CStr)
    (isDir : Int) (level : Nat) (opt : tOptions) (w : σ) :
    SameVisit (backupVisitor P (withAttrResult ops f) src item ext isDir level opt w)
      (backupVisitor P ops src item ext isDir level opt w) := by
  unfold backupVisitor
  simp only [withAttrResult_signalReceived, withAttrResult_createDirectory]
  split_ifs
  · exact ⟨rfl, rfl, rfl⟩
  · exact ⟨rfl, rfl, rfl⟩
  · exact ⟨rfl, rfl, rfl⟩
  · exact visitorFinish_withAttrResult ops f src _ _ _ _
  · cases opt.linkDest with
    | none => exact visitorCopy_withAttrResult ops f src _ _ _ _
    | some ld =>
      simp only
      split_ifs
      · exact ⟨rfl, rfl, rfl⟩
      · exact visitorLinkDest_withAttrResult ops f src _ _

/-- The copy step returns 1 exactly when it reaches `copyAttributes`. -/
theorem visitorCopy_ret_one_iff {σ : Type} (ops : IoOps σ) (src : CStr) (opt : tOptions)
    (w : σ) (t : List Event) (ht : ∀ e ∈ t, e.call.isCopyAttributes = false) :
    (visitorCopy ops src opt w t).ret = 1 ↔
      ∃ e ∈ (visitorCopy ops src opt w t).trace, e.call.isCopyAttributes = true := by
  rw [visitorCopy_ret, visitorCopy_trace]
  split_ifs with h
  · simp only [zero_ne_one, List.mem_append, List.mem_cons, List.mem_nil_iff, or_false,
      false_iff, not_exists, not_and]
    rintro e (he | he)
    · simp [ht e he]
    · simp [he, Call.isCopyAttributes]
  · simp only [if_true, true_iff]
    exact ⟨⟨Call.copyAttributes src opt.dst opt.attrMask,
      (ops.copyAttributes (ops.copyFile w src opt.dst opt.copyMask opt.verbose).2 src opt.dst
        opt.attrMask opt.verbose).1⟩, by simp, rfl⟩

/-- The link-dest decision returns 1 exactly when it reaches `copyAttributes`. -/
theorem visitorLinkDest_ret_one_iff {σ : Type} (ops : IoOps σ) (src : CStr)
    (opt : tOptions) (w : σ) :
    (visitorLinkDest ops src opt w).ret = 1 ↔
      ∃ e ∈ (visitorLinkDest ops src opt w).trace, e.call.isCopyAttributes = true := by
  unfold visitorLinkDest
  simp only
  split_ifs
  · apply visitorCopy_ret_one_iff
    simp [Call.isCopyAttributes]
  · simp [Call.isCopyAttributes]
  · apply visitorCopy_ret_one_iff
    simp [Call.isCopyAttributes]
  · simp [Call.isCopyAttributes]

/-- The visitor returns 1 exactly when it reaches the call of `copyAttributes`. -/
theorem backupVisitor_ret_one_iff {σ : Type} (P : Platform) (ops : IoOps σ) (src : CStr)
    (item ext : Option CStr) (isDir : Int) (level : Nat) (opt : tOptions) (w : σ) :
    (backupVisitor P ops src item ext isDir level opt w).ret = 1 ↔
      ∃ e ∈ (backupVisitor P ops src item ext isDir level opt w).trace,
        e.call.isCopyAttributes = true := by
  unfold backupVisitor
  simp only
  split_ifs
  · simp
  · simp
  · simp [Call.isCopyAttributes]
  · simp [Call.isCopyAttributes]
  · cases opt.linkDest with
    | none =>
      apply visitorCopy_ret_one_iff
      simp
    | some ld =>
      simp only
      split_ifs
      · simp
      · exact visitorLinkDest_ret_one_iff ops src _ _

/-- The callback agrees on related run states whatever `copyAttributes` returns. -/
theorem visitorOn_withAttrResult {σ : Type} (P : Platform) (ops : IoOps σ)
    (f : σ → CStr → CStr → Nat → Int → Int) (src : CStr) (item ext : Option CStr)
    (isDir : Int) (level : Nat) (s t : RunState σ) (h : SameRun s t) :
    (visitorOn P (withAttrResult ops f) src item ext isDir level s).1 =
        (visitorOn P ops src item ext isDir level t).1 ∧
      SameRun (visitorOn P (withAttrResult ops f) src item ext isDir level s).2
        (visitorOn P ops src item ext isDir level t).2 := by
  have hb := backupVisitor_withAttrResult P ops f src item ext isDir level t.opt t.world
  unfold visitorOn SameRun
  rw [h.1, h.2]
  exact ⟨hb.1, hb.2.1, hb.2.2⟩

/-- The step to the next source keeps two run states related. -/
theorem nextSource_sameRun {σ : Type} (s t : RunState σ) (h : SameRun s t) :
    SameRun (nextSource s) (nextSource t) := by
  unfold SameRun nextSource at *
  simp only [h.1, h.2, and_self]

/-- Prefixing the log of two related driver results with the same events keeps them
related. -/
theorem driverRel_map {σ : Type} (a b : Option (DriverResult σ)) (l : List DriverEvent)
    (h : DriverRel a b) :
    DriverRel (a.map (fun r => ⟨r.exit, r.state, l ++ r.log⟩))
      (b.map (fun r => ⟨r.exit, r.state, l ++ r.log⟩)) := by
  cases a with
  | none =>
    cases b with
    | none => trivial
    | some y => exact h.elim
  | some x =>
    cases b with
    | none => exact h.elim
    | some y => exact ⟨h.1, h.2.1, by simp [h.2.2]⟩

/-- Related driver results have the same exit code. -/
theorem driverRel_exit {σ : Type} (a b : Option (DriverResult σ)) (h : DriverRel a b) :
    a.map (fun r => r.exit) = b.map (fun r => r.exit) := by
  cases a with
  | none =>
    cases b with
    | none => rfl
    | some y => exact h.elim
  | some x =>
    cases b with
    | none => exact h.elim
    | some y => simp [h.1]

/-- The loop of the driver takes the same course whatever `copyAttributes` returns. -/
theorem mainLoop_withAttrResult {σ : Type} (P : Platform) (ops : IoOps σ)
    (f : σ → CStr → CStr → Nat → Int → Int) (d : DirOps σ) (uninit : Stat) (fuel : Nat) :
    ∀ (sources : List CStr) (s t : RunState σ), SameRun s t →
      DriverRel (mainLoop P (withAttrResult ops f) d uninit fuel sources s)
        (mainLoop P ops d uninit fuel sources t) := by
  intro sources
  induction sources with
  | nil =>
    intro s t h
    exact ⟨rfl, h, rfl⟩
  | cons src rest ih =>
    intro s t h
    have hv0 := visitorOn_withAttrResult P ops f src none none 0 0 s t h
    have hv1 := visitorOn_withAttrResult P ops f src none none 1 0 s t h
    have htr := tds_traverse_rel SameRun (runDirOps d) (runDirOps d)
      (visitorOn P (withAttrResult ops f)) (visitorOn P ops) uninit fuel src
      (if t.opt.recursive = 0 then 0 else -1) (TDSO_DIRECTORY ||| TDSO_ITEM)
      (fun a b hab p => by simp only [runDirOps, hab.2])
      (fun a b hab p => by simp only [runDirOps, hab.2])
      (fun p i x b l a c hac => visitorOn_withAttrResult P ops f p i x b l a c hac)
      _ _ hv1.2
    unfold mainLoop
    simp only [withAttrResult_signalReceived, withAttrResult_isFile,
      withAttrResult_isDirectory, h.1, h.2, hv0.1, hv1.1]
    by_cases h1 : ops.signalReceived t.world ≠ 0
    · rw [if_pos h1, if_pos h1]
      exact ⟨rfl, h, rfl⟩
    · rw [if_neg h1, if_neg h1]
      by_cases h2 : ops.isFile t.world src ≠ 0
      · rw [if_pos h2, if_pos h2]
        by_cases h3 : (visitorOn P ops src none none 0 0 t).1 ≠ 0
        · rw [if_pos h3, if_pos h3]
          exact driverRel_map _ _ [_] (ih _ _ (nextSource_sameRun _ _ hv0.2))
        · rw [if_neg h3, if_neg h3]
          exact ⟨rfl, hv0.2, rfl⟩
      · rw [if_neg h2, if_neg h2]
        by_cases h3 : ops.isDirectory t.world src ≠ 0
        · rw [if_pos h3, if_pos h3]
          by_cases h4 : (visitorOn P ops src none none 1 0 t).1 = 0
          · rw [if_pos h4, if_pos h4]
            exact ⟨rfl, hv1.2, rfl⟩
          · rw [if_neg h4, if_neg h4]
            revert htr
            cases tds_traverse (runDirOps d) (visitorOn P (withAttrResult ops f)) uninit fuel
                src (if t.opt.recursive = 0 then 0 else -1) (TDSO_DIRECTORY ||| TDSO_ITEM)
                (visitorOn P (withAttrResult ops f) src none none 1 0 s).2 with
            | none =>
              cases tds_traverse (runDirOps d) (visitorOn P ops) uninit fuel
                  src (if t.opt.recursive = 0 then 0 else -1) (TDSO_DIRECTORY ||| TDSO_ITEM)
                  (visitorOn P ops src none none 1 0 t).2 with
              | none => intro _; trivial
              | some y => intro hh; exact hh.elim
            | some x =>
              cases tds_traverse (runDirOps d) (visitorOn P ops) uninit fuel
                  src (if t.opt.recursive = 0 then 0 else -1) (TDSO_DIRECTORY ||| TDSO_ITEM)
                  (visitorOn P ops src none none 1 0 t).2 with
              | none => intro hh; exact hh.elim
              | some y =>
                rintro ⟨g1, g2, g3⟩
                simp only [g1, g3]
                by_cases h5 : y.ret = 0 ∨ y.ret = -1
                · rw [if_pos h5, if_pos h5]
                  exact ⟨rfl, g2, rfl⟩
                · rw [if_neg h5, if_neg h5]
                  exact driverRel_map _ _ [_, _] (ih _ _ (nextSource_sameRun _ _ g2))
        · rw [if_neg h3, if_neg h3]
          exact ⟨rfl, h, rfl⟩

/-- C13: attribute soft failure.  The value returned by `backupVisitor`, like the
buffers and the world it leaves, does not depend on the result of `copyAttributes`
(`f` chooses any result, for instance always 0); whenever the visitor gets as far as
`copyAttributes`, that is whenever the mkdir / copy / hard-link step succeeded or was
skipped as up to date, it returns 1; and a run of the driver with forced results of
`copyAttributes` has the same exit code and the same dispatch (traversal results
included) as the run without. -/
theorem backupVisitor_attribute_soft_failure {σ : Type} (P : Platform) (ops : IoOps σ)
    (f : σ → CStr → CStr → Nat → Int → Int) (src : CStr) (item ext : Option CStr)
    (isDir : Int) (level : Nat) (opt : tOptions) (w : σ) (d : DirOps σ) (uninit : Stat)
    (fuel : Nat) (sources : List CStr) (destination : CStr) :
    SameVisit (backupVisitor P (withAttrResult ops f) src item ext isDir level opt w)
      (backupVisitor P ops src item ext isDir level opt w) ∧
    ((∃ e ∈ (backupVisitor P ops src item ext isDir level opt w).trace,
        e.call.isCopyAttributes = true) →
      (backupVisitor P ops src item ext isDir level opt w).ret = 1) ∧
    DriverRel (_tmain P (withAttrResult ops f) d uninit fuel opt sources destination w)
      (_tmain P ops d uninit fuel opt sources destination w) := by
  refine ⟨backupVisitor_withAttrResult P ops f src item ext isDir level opt w,
    (backupVisitor_ret_one_iff P ops src item ext isDir level opt w).mpr, ?_⟩
  unfold _tmain
  simp only [withAttrResult_createDirectory]
  split_ifs
  · exact ⟨rfl, ⟨rfl, rfl⟩, rfl⟩
  · exact mainLoop_withAttrResult P ops f d uninit fuel sources _ _ ⟨rfl, rfl⟩

/-- C13 for the run `lsync -r a out` over the tree `a/x`, `a/y/z`: with every attribute
copy forced to fail the exit code is still `EXIT_SUCCESS`. -/
theorem backupVisitor_attribute_soft_failure_witness :
    (_tmain linux (withAttrResult (simOps 1 1 1) (fun _ _ _ _ _ => 0))
        (Linux.dirOps simPosixFs) dirStat 10 { recursive := 1 } ["a".toList] "out".toList
        fsTreeA).map (fun r => r.exit) = some EXIT_SUCCESS :=
  (driverRel_exit _ _ (backupVisitor_attribute_soft_failure linux (simOps 1 1 1)
    (fun _ _ _ _ _ => 0) "a".toList none none 1 0 { recursive := 1 } fsTreeA
    (Linux.dirOps simPosixFs) dirStat 10 ["a".toList] "out".toList).2.2).trans (by decide)

/-! ## The traverser: what one round does -/

/-- A mode cannot be that of a directory and of a symbolic link at once. -/
theorem S_ISLNK_of_S_ISDIR (m : Nat) (h : S_ISDIR m = true) : S_ISLNK m = false := by
  unfold S_ISDIR at h
  unfold S_ISLNK
  have h1 : m &&& 0o170000 = 0o040000 := by simpa using h
  rw [h1]
  decide

/-- The outcome of the guarded visitor invocation: either the bit is not set and
nothing happens, or the visitor is invoked once at the current level. -/
theorem tdsVisit_cases {S : Type} (visitor : Visitor S) (options bit : Nat)
    (newPath name : CStr) (isDir : Int) (curLevel : Nat) (s : S) :
    (options &&& bit = 0 ∧
        tdsVisit visitor options bit newPath name isDir curLevel s = ⟨1, s, []⟩) ∨
      (options &&& bit ≠ 0 ∧
        (tdsVisit visitor options bit newPath name isDir curLevel s).state =
          (visitor newPath (some (tdsItemName newPath name)) (some (tdsItemExt newPath name))
            isDir curLevel s).2 ∧
        (tdsVisit visitor options bit newPath name isDir curLevel s).calls =
          [⟨newPath, tdsItemName newPath name, tdsItemExt newPath name, isDir, curLevel,
            (tdsVisit visitor options bit newPath name isDir curLevel s).ret⟩]) := by
  unfold tdsVisit
  by_cases h : options &&& bit ≠ 0
  · right
    rw [if_pos h]
    exact ⟨h, rfl, rfl⟩
  · left
    rw [if_neg h]
    exact ⟨not_not.mp h, rfl⟩

/-- The round for `.` and `..` does nothing. -/
theorem tdsStep_dots {S : Type} (d : DirOps S) (visitor : Visitor S)
    (recurse : CStr → S → Option (TraverseResult S)) (options : Nat) (path : CStr)
    (curLevel : Nat) (name : CStr) (itemStat : Stat) (s : S)
    (h : name = ".".toList ∨ name = "..".toList) :
    tdsStep d visitor recurse options path curLevel name itemStat s =
      some ⟨itemStat, 1, s, []⟩ := by
  unfold tdsStep
  rw [if_pos h]

/-- The round for an entry classified as a directory: the visitor is invoked when
`TDSO_DIRECTORY` is set, and the directory is always entered, because a mode that
says directory never says symbolic link. -/
theorem tdsStep_dir {S : Type} (d : DirOps S) (visitor : Visitor S)
    (recurse : CStr → S → Option (TraverseResult S)) (options : Nat) (path : CStr)
    (curLevel : Nat) (name : CStr) (itemStat : Stat) (s : S)
    (h : ¬ (name = ".".toList ∨ name = "..".toList))
    (hdir : S_ISDIR ((d.stat s (tdsNewPath path name)).getD itemStat).st_mode = true) :
    tdsStep d visitor recurse options path curLevel name itemStat s =
      (recurse (tdsNewPath path name)
        (tdsVisit visitor options TDSO_DIRECTORY (tdsNewPath path name) name 1 curLevel
          s).state).map
        (fun r => ⟨(d.stat s (tdsNewPath path name)).getD itemStat,
          if r.ret = 0 then 0 else if r.ret = 1 then
            (if (tdsVisit visitor options TDSO_DIRECTORY (tdsNewPath path name) name 1
              curLevel s).ret = 0 then 0 else 1) else -1,
          r.state,
          (tdsVisit visitor options TDSO_DIRECTORY (tdsNewPath path name) name 1 curLevel
            s).calls ++ r.calls⟩) := by
  unfold tdsStep
  rw [if_neg h, if_neg (tdsNewPath_length path name)]
  simp only [hdir, if_true, S_ISLNK_of_S_ISDIR _ hdir, Bool.not_false, true_or]
  cases recurse (tdsNewPath path name)
    (tdsVisit visitor options TDSO_DIRECTORY (tdsNewPath path name) name 1 curLevel s).state <;>
    rfl

/-- The round for an entry that is not classified as a directory: the visitor is
invoked when `TDSO_ITEM` is set. -/
theorem tdsStep_item {S : Type} (d : DirOps S) (visitor : Visitor S)
    (recurse : CStr → S → Option (TraverseResult S)) (options : Nat) (path : CStr)
    (curLevel : Nat) (name : CStr) (itemStat : Stat) (s : S)
    (h : ¬ (name = ".".toList ∨ name = "..".toList))
    (hdir : S_ISDIR ((d.stat s (tdsNewPath path name)).getD itemStat).st_mode = false) :
    tdsStep d visitor recurse options path curLevel name itemStat s =
      some ⟨(d.stat s (tdsNewPath path name)).getD itemStat,
        if (tdsVisit visitor options TDSO_ITEM (tdsNewPath path name) name 0 curLevel
          s).ret = 0 then 0 else 1,
        (tdsVisit visitor options TDSO_ITEM (tdsNewPath path name) name 0 curLevel s).state,
        (tdsVisit visitor options TDSO_ITEM (tdsNewPath path name) name 0 curLevel s).calls⟩ := by
  unfold tdsStep
  rw [if_neg h, if_neg (tdsNewPath_length path name)]
  simp only [hdir, Bool.false_eq_true, if_false]

/-! ## The traverser: an abort is never lost -/

/-- With the flag set at the head of the loop the driver stops with `EXIT_SUCCESS`. -/
theorem mainLoop_of_signal {σ : Type} (P : Platform) (ops : IoOps σ) (d : DirOps σ)
    (uninit : Stat) (fuel : Nat) (sources : List CStr) (st : RunState σ)
    (hsig : ops.signalReceived st.world ≠ 0) :
    mainLoop P ops d uninit fuel sources st = some ⟨EXIT_SUCCESS, st, []⟩ := by
  cases sources with
  | nil => rfl
  | cons src rest =>
    unfold mainLoop
    rw [if_pos hsig]

/-- The six ways one round of the driver's loop can go, for a source reached with
the flag not set: a file that fails or succeeds, a directory whose own visitor call
fails, whose traversal fails, or which succeeds, and a source that is neither. -/
theorem mainLoop_cons_cases {σ : Type} (P : Platform) (ops : IoOps σ) (d : DirOps σ)
    (uninit : Stat) (fuel : Nat) (src : CStr) (rest : List CStr) (st : RunState σ)
    (r : DriverResult σ) (hsig : ops.signalReceived st.world = 0)
    (h : mainLoop P ops d uninit fuel (src :: rest) st = some r) :
    (ops.isFile st.world src ≠ 0 ∧ (visitorOn P ops src none none 0 0 st).1 = 0 ∧
      r = ⟨EXIT_FAILURE, (visitorOn P ops src none none 0 0 st).2,
        [DriverEvent.visit st.opt.srcIndex src 0 0]⟩) ∨
    (ops.isFile st.world src ≠ 0 ∧ (visitorOn P ops src none none 0 0 st).1 ≠ 0 ∧
      ∃ r2, mainLoop P ops d uninit fuel rest
          (nextSource (visitorOn P ops src none none 0 0 st).2) = some r2 ∧
        r = ⟨r2.exit, r2.state,
          DriverEvent.visit st.opt.srcIndex src 0 (visitorOn P ops src none none 0 0 st).1 ::
            r2.log⟩) ∨
    (ops.isFile st.world src = 0 ∧ ops.isDirectory st.world src ≠ 0 ∧
      (visitorOn P ops src none none 1 0 st).1 = 0 ∧
      r = ⟨EXIT_FAILURE, (visitorOn P ops src none none 1 0 st).2,
        [DriverEvent.visit st.opt.srcIndex src 1 0]⟩) ∨
    (ops.isFile st.world src = 0 ∧ ops.isDirectory st.world src ≠ 0 ∧
      (visitorOn P ops src none none 1 0 st).1 ≠ 0 ∧
      ∃ t, tds_traverse (runDirOps d) (visitorOn P ops) uninit fuel src
          (if st.opt.recursive = 0 then 0 else -1) (TDSO_DIRECTORY ||| TDSO_ITEM)
          (visitorOn P ops src none none 1 0 st).2 = some t ∧
        (t.ret = 0 ∨ t.ret = -1) ∧
        r = ⟨EXIT_FAILURE, t.state,
          [DriverEvent.visit st.opt.srcIndex src 1 (visitorOn P ops src none none 1 0 st).1,
           DriverEvent.traverse st.opt.srcIndex src (if st.opt.recursive = 0 then 0 else -1)
             (TDSO_DIRECTORY ||| TDSO_ITEM) t.ret t.calls]⟩) ∨
    (ops.isFile st.world src = 0 ∧ ops.isDirectory st.world src ≠ 0 ∧
      (visitorOn P ops src none none 1 0 st).1 ≠ 0 ∧
      ∃ t r2, tds_traverse (runDirOps d) (visitorOn P ops) uninit fuel src
          (if st.opt.recursive = 0 then 0 else -1) (TDSO_DIRECTORY ||| TDSO_ITEM)
          (visitorOn P ops src none none 1 0 st).2 = some t ∧
        ¬ (t.ret = 0 ∨ t.ret = -1) ∧
        mainLoop P ops d uninit fuel rest (nextSource t.state) = some r2 ∧
        r = ⟨r2.exit, r2.state,
          DriverEvent.visit st.opt.srcIndex src 1 (visitorOn P ops src none none 1 0 st).1 ::
            DriverEvent.traverse st.opt.srcIndex src (if st.opt.recursive = 0 then 0 else -1)
              (TDSO_DIRECTORY ||| TDSO_ITEM) t.ret t.calls :: r2.log⟩) ∨
    (ops.isFile st.world src = 0 ∧ ops.isDirectory st.world src = 0 ∧
      r = ⟨EXIT_FAILURE, st, [DriverEvent.notFound st.opt.srcIndex src]⟩) := by
  unfold mainLoop at h
  rw [if_neg (not_not.mpr hsig)] at h
  by_cases h2 : ops.isFile st.world src ≠ 0
  · rw [if_pos h2] at h
    by_cases h3 : (visitorOn P ops src none none 0 0 st).1 ≠ 0
    · rw [if_pos h3, Option.map_eq_some'] at h
      obtain ⟨r2, hr2, rfl⟩ := h
      exact Or.inr (Or.inl ⟨h2, h3, r2, hr2, rfl⟩)
    · rw [if_neg h3] at h
      simp only [Option.some.injEq] at h
      exact Or.inl ⟨h2, not_not.mp h3, h.symm⟩
  · rw [if_neg h2] at h
    have h2' : ops.isFile st.world src = 0 := not_not.mp h2
    by_cases h3 : ops.isDirectory st.world src ≠ 0
    · rw [if_pos h3] at h
      by_cases h4 : (visitorOn P ops src none none 1 0 st).1 = 0
      · rw [if_pos h4] at h
        simp only [Option.some.injEq] at h
        exact Or.inr (Or.inr (Or.inl ⟨h2', h3, h4, h.symm⟩))
      · rw [if_neg h4] at h
        cases ht : tds_traverse (runDirOps d) (visitorOn P ops) uninit fuel src
            (if st.opt.recursive = 0 then 0 else -1) (TDSO_DIRECTORY ||| TDSO_ITEM)
            (visitorOn P ops src none none 1 0 st).2 with
        | none => rw [ht] at h; simp at h
        | some t =>
          rw [ht] at h
          simp only at h
          by_cases h5 : t.ret = 0 ∨ t.ret = -1
          · rw [if_pos h5] at h
            simp only [Option.some.injEq] at h
            exact Or.inr (Or.inr (Or.inr (Or.inl ⟨h2', h3, h4, t, rfl, h5, h.symm⟩)))
          · rw [if_neg h5, Option.map_eq_some'] at h
            obtain ⟨r2, hr2, rfl⟩ := h
            exact Or.inr (Or.inr (Or.inr (Or.inr (Or.inl ⟨h2', h3, h4, t, r2, rfl, h5, hr2, rfl⟩))))
    · rw [if_neg h3] at h
      simp only [Option.some.injEq] at h
      exact Or.inr (Or.inr (Or.inr (Or.inr (Or.inr ⟨h2', not_not.mp h3, h.symm⟩))))

/-- Whatever the visitor keeps true of the state is true after a traversal. -/
theorem tds_traverse_inv {S : Type} (I : S → Prop) (d : DirOps S) (visitor : Visitor S)
    (uninit : Stat) (fuel : Nat) (path : CStr) (maxLevel : Int) (options : Nat)
    (hv : ∀ p i x b l s, I s → I (visitor p i x b l s).2)
    (s : S) (t : TraverseResult S) (hs : I s)
    (h : tds_traverse d visitor uninit fuel path maxLevel options s = some t) : I t.state := by
  have hrel := tds_traverse_rel (fun a b => a = b ∧ I a) d d visitor visitor uninit fuel path
    maxLevel options
    (fun a b hab p => by rw [hab.1]) (fun a b hab p => by rw [hab.1])
    (fun p i x b l a c hac => by
      obtain ⟨rfl, ha⟩ := hac
      exact ⟨rfl, rfl, hv p i x b l a ha⟩)
    s s ⟨rfl, hs⟩
  rw [h] at hrel
  exact hrel.2.1.2

/-- The visitor writes the two buffers and nothing else of the options. -/
theorem backupVisitor_opt_frame {σ : Type} (P : Platform) (ops : IoOps σ) (src : CStr)
    (item ext : Option CStr) (isDir : Int) (level : Nat) (opt : tOptions) (w : σ) :
    (backupVisitor P ops src item ext isDir level opt w).opt =
      { opt with dst := (backupVisitor P ops src item ext isDir level opt w).opt.dst,
                 ref := (backupVisitor P ops src item ext isDir level opt w).opt.ref } := by
  unfold backupVisitor
  simp only
  split_ifs
  · rfl
  · rfl
  · rfl
  · rfl
  · cases opt.linkDest with
    | none => simp only [visitorCopy_opt]
    | some ld =>
      simp only
      split_ifs
      · rfl
      · simp only [visitorLinkDest_opt]

/-- The callback leaves the source index and the `recursive` option as they are. -/
theorem visitorOn_keeps {σ : Type} (P : Platform) (ops : IoOps σ) (src : CStr)
    (item ext : Option CStr) (isDir : Int) (level : Nat) (st : RunState σ) :
    (visitorOn P ops src item ext isDir level st).2.opt.srcIndex = st.opt.srcIndex ∧
      (visitorOn P ops src item ext isDir level st).2.opt.recursive = st.opt.recursive := by
  unfold visitorOn
  simp only
  rw [backupVisitor_opt_frame]
  exact ⟨rfl, rfl⟩

/-- The events of the driver's loop belong to the source index it starts with or to
later ones. -/
theorem mainLoop_log_index {σ : Type} (P : Platform) (ops : IoOps σ) (d : DirOps σ)
    (uninit : Stat) (fuel : Nat) :
    ∀ (sources : List CStr) (st : RunState σ) (r : DriverResult σ),
      mainLoop P ops d uninit fuel sources st = some r →
      ∀ e ∈ r.log, st.opt.srcIndex ≤ e.srcIndex := by
  intro sources
  induction sources with
  | nil =>
    intro st r h e he
    simp only [mainLoop, Option.some.injEq] at h
    rw [← h] at he
    simp at he
  | cons src rest ih =>
    intro st r h e he
    by_cases hsig : ops.signalReceived st.world = 0
    · rcases mainLoop_cons_cases P ops d uninit fuel src rest st r hsig h with
        ⟨_, _, rfl⟩ | ⟨_, _, r2, hr2, rfl⟩ | ⟨_, _, _, rfl⟩ | ⟨_, _, _, t, _, _, rfl⟩ |
        ⟨_, _, _, t, r2, ht, _, hr2, rfl⟩ | ⟨_, _, rfl⟩
      · simp only [List.mem_singleton] at he
        rw [he]; exact Nat.le_refl _
      · simp only [List.mem_cons] at he
        rcases he with he | he
        · rw [he]; exact Nat.le_refl _
        · have := ih _ r2 hr2 e he
          have hk := (visitorOn_keeps P ops src none none 0 0 st).1
          simp only [nextSource] at this
          omega
      · simp only [List.mem_singleton] at he
        rw [he]; exact Nat.le_refl _
      · simp only [List.mem_cons, List.mem_singleton, List.mem_nil_iff, or_false] at he
        rcases he with he | he <;> rw [he] <;> exact Nat.le_refl _
      · simp only [List.mem_cons] at he
        rcases he with he | he | he
        · rw [he]; exact Nat.le_refl _
        · rw [he]; exact Nat.le_refl _
        · have := ih _ r2 hr2 e he
          have hk := (visitorOn_keeps P ops src none none 1 0 st).1
          have ht2 := tds_traverse_inv
            (fun a : RunState σ => a.opt.srcIndex = st.opt.srcIndex) (runDirOps d)
            (visitorOn P ops) uninit fuel src _ _
            (fun p i x b l a ha => ((visitorOn_keeps P ops p i x b l a).1).trans ha)
            _ t hk ht
          simp only [nextSource] at this
          omega
      · simp only [List.mem_singleton] at he
        rw [he]; exact Nat.le_refl _
    · rw [mainLoop_of_signal P ops d uninit fuel _ st hsig] at h
      simp only [Option.some.injEq] at h
      rw [← h] at he
      simp at he

/-! ## The traverser returns 1, 0 or -1 -/

/-- The cleaned options keep the bits of `TDSO_ALL`. -/
theorem tdso_clean (options bit : Nat) (hbit : TDSO_ALL &&& bit = bit) :
    (options &&& TDSO_ALL) &&& bit = options &&& bit := by
  rw [Nat.and_assoc, hbit]

/-- Every invocation made by the guarded visitor call is for `newPath` at the
current level. -/
theorem tdsVisit_calls {S : Type} (visitor : Visitor S) (options bit : Nat)
    (newPath name : CStr) (isDir : Int) (curLevel : Nat) (s : S) :
    ∀ c ∈ (tdsVisit visitor options bit newPath name isDir curLevel s).calls,
      c.path = newPath ∧ c.level = curLevel := by
  intro c hc
  rcases tdsVisit_cases visitor options bit newPath name isDir curLevel s with
    ⟨_, h⟩ | ⟨_, _, h⟩
  · rw [h] at hc
    simp at hc
  · rw [h] at hc
    rw [List.mem_singleton] at hc
    rw [hc]
    exact ⟨rfl, rfl⟩

/-- With the option bit set the guarded visitor call makes exactly one invocation,
and its result is the value the visitor returned. -/
theorem tdsVisit_set {S : Type} (visitor : Visitor S) (options bit : Nat)
    (newPath name : CStr) (isDir : Int) (curLevel : Nat) (s : S) (h : options &&& bit ≠ 0) :
    ∃ c : VisitCall, c.path = newPath ∧ c.level = curLevel ∧ c.isDir = isDir ∧
      (tdsVisit visitor options bit newPath name isDir curLevel s).calls = [c] ∧
      (tdsVisit visitor options bit newPath name isDir curLevel s).ret = c.ret := by
  rcases tdsVisit_cases visitor options bit newPath name isDir curLevel s with
    ⟨h0, _⟩ | ⟨_, _, hc⟩
  · exact absurd h0 h
  · exact ⟨_, rfl, rfl, rfl, hc, rfl⟩

/-- A property of visitor invocations that holds for those of the recursive calls
and for every invocation at the current level holds for those of a round. -/
theorem tdsStep_calls {S : Type} (Q : VisitCall → Prop) (d : DirOps S) (visitor : Visitor S)
    (recurse : CStr → S → Option (TraverseResult S)) (options : Nat) (path : CStr)
    (curLevel : Nat) (name : CStr) (itemStat : Stat) (s : S) (r : StepResult S)
    (hrec : ∀ p s1 t, recurse p s1 = some t → ∀ c ∈ t.calls, Q c)
    (hQ : ∀ c : VisitCall, c.level = curLevel → Q c)
    (h : tdsStep d visitor recurse options path curLevel name itemStat s = some r) :
    ∀ c ∈ r.calls, Q c := by
  by_cases h1 : name = ".".toList ∨ name = "..".toList
  · rw [tdsStep_dots d visitor recurse options path curLevel name itemStat s h1] at h
    simp only [Option.some.injEq] at h
    rw [← h]
    simp
  · cases hdir : S_ISDIR ((d.stat s (tdsNewPath path name)).getD itemStat).st_mode with
    | true =>
      rw [tdsStep_dir d visitor recurse options path curLevel name itemStat s h1 hdir,
        Option.map_eq_some'] at h
      obtain ⟨rr, hrr, rfl⟩ := h
      intro c hc
      simp only [List.mem_append] at hc
      rcases hc with hc | hc
      · exact hQ c (tdsVisit_calls visitor options _ _ name 1 curLevel s c hc).2
      · exact hrec _ _ rr hrr c hc
    | false =>
      rw [tdsStep_item d visitor recurse options path curLevel name itemStat s h1 hdir] at h
      simp only [Option.some.injEq] at h
      rw [← h]
      intro c hc
      exact hQ c (tdsVisit_calls visitor options _ _ name 0 curLevel s c hc).2

/-- The same for the whole loop. -/
theorem tdsEntries_calls {S : Type} (Q : VisitCall → Prop) (d : DirOps S) (visitor : Visitor S)
    (recurse : CStr → S → Option (TraverseResult S)) (options : Nat) (path : CStr)
    (curLevel : Nat)
    (hrec : ∀ p s1 t, recurse p s1 = some t → ∀ c ∈ t.calls, Q c)
    (hQ : ∀ c : VisitCall, c.level = curLevel → Q c) :
    ∀ (names : List CStr) (itemStat : Stat) (result : Int) (s : S) (t : TraverseResult S),
      tdsEntries d visitor recurse options path curLevel names itemStat result s = some t →
      ∀ c ∈ t.calls, Q c := by
  intro names
  induction names with
  | nil =>
    intro itemStat result s t h
    simp only [tdsEntries, Option.some.injEq] at h
    rw [← h]
    simp
  | cons n rest ih =>
    intro itemStat result s t h
    unfold tdsEntries at h
    by_cases hres : result ≠ 1
    · rw [if_pos hres] at h
      simp only [Option.some.injEq] at h
      rw [← h]
      simp
    · rw [if_neg hres] at h
      cases hstep : tdsStep d visitor recurse options path curLevel n itemStat s with
      | none => rw [hstep] at h; simp at h
      | some r =>
        rw [hstep] at h
        simp only [Option.map_eq_some'] at h
        obtain ⟨t2, ht2, rfl⟩ := h
        intro c hc
        simp only [List.mem_append] at hc
        rcases hc with hc | hc
        · exact tdsStep_calls Q d visitor recurse options path curLevel n itemStat s r
            hrec hQ hstep c hc
        · exact ih _ _ _ t2 ht2 c hc

/-- With a limit `maxLevel >= 0` every visitor invocation of `tds_traverseR` has a
level of at most `maxLevel`. -/
theorem tds_traverseR_level {S : Type} (d : DirOps S) (visitor : Visitor S) (maxLevel : Int)
    (options : Nat) (uninit : Stat) (hmax : 0 ≤ maxLevel) :
    ∀ (fuel : Nat) (path : CStr) (curLevel : Nat) (s : S) (t : TraverseResult S),
      tds_traverseR d visitor maxLevel options uninit fuel path curLevel s = some t →
      ∀ c ∈ t.calls, (c.level : Int) ≤ maxLevel := by
  intro fuel
  induction fuel with
  | zero =>
    intro path curLevel s t h
    simp [tds_traverseR] at h
  | succ n ih =>
    intro path curLevel s t h
    unfold tds_traverseR at h
    by_cases hlev : 0 ≤ maxLevel ∧ maxLevel < (curLevel : Int)
    · rw [if_pos hlev] at h
      simp only [Option.some.injEq] at h
      rw [← h]
      simp
    · rw [if_neg hlev] at h
      cases ho : d.opendir s path with
      | none =>
        rw [ho] at h
        simp only [Option.some.injEq] at h
        rw [← h]
        simp
      | some names =>
        rw [ho] at h
        refine tdsEntries_calls (fun c => (c.level : Int) ≤ maxLevel) d visitor _ options path
          curLevel ?_ ?_ names uninit 1 s t h
        · intro p s1 t1 h1
          exact ih p _ s1 t1 h1
        · intro c hc
          show (c.level : Int) ≤ maxLevel
          rw [hc]
          by_contra hcon
          exact hlev ⟨hmax, by omega⟩

/-- A loop that starts with `result != 1` ends at once. -/
theorem tdsEntries_of_ne_one {S : Type} (d : DirOps S) (visitor : Visitor S)
    (recurse : CStr → S → Option (TraverseResult S)) (options : Nat) (path : CStr)
    (curLevel : Nat) (names : List CStr) (itemStat : Stat) (result : Int) (s : S)
    (h : result ≠ 1) :
    tdsEntries d visitor recurse options path curLevel names itemStat result s =
      some ⟨result, s, []⟩ := by
  cases names with
  | nil => rfl
  | cons n rest =>
    unfold tdsEntries
    rw [if_pos h]

/-- A round returns when the recursive call for its entry does. -/
theorem tdsStep_total {S : Type} (d : DirOps S) (visitor : Visitor S)
    (recurse : CStr → S → Option (TraverseResult S)) (options : Nat) (path : CStr)
    (curLevel : Nat) (name : CStr) (itemStat : Stat) (s : S)
    (hrec : ¬ (name = ".".toList ∨ name = "..".toList) →
      ∀ s1, (recurse (tdsNewPath path name) s1).isSome = true) :
    (tdsStep d visitor recurse options path curLevel name itemStat s).isSome = true := by
  by_cases h1 : name = ".".toList ∨ name = "..".toList
  · rw [tdsStep_dots d visitor recurse options path curLevel name itemStat s h1]
    rfl
  · cases hdir : S_ISDIR ((d.stat s (tdsNewPath path name)).getD itemStat).st_mode with
    | true =>
      rw [tdsStep_dir d visitor recurse options path curLevel name itemStat s h1 hdir]
      rw [Option.isSome_map']
      exact hrec h1 _
    | false =>
      rw [tdsStep_item d visitor recurse options path curLevel name itemStat s h1 hdir]
      rfl

/-- Membership in the processed names. -/
theorem mem_realNames (names : List CStr) (name : CStr) :
    name ∈ realNames names ↔ name ∈ names ∧ ¬ (name = ".".toList ∨ name = "..".toList) := by
  unfold realNames
  simp [List.mem_filter]

/-- The loop returns when the recursive calls for its entries do. -/
theorem tdsEntries_total {S : Type} (d : DirOps S) (visitor : Visitor S)
    (recurse : CStr → S → Option (TraverseResult S)) (options : Nat) (path : CStr)
    (curLevel : Nat) :
    ∀ (names : List CStr) (itemStat : Stat) (result : Int) (s : S),
      (∀ name ∈ realNames names, ∀ s1, (recurse (tdsNewPath path name) s1).isSome = true) →
      (tdsEntries d visitor recurse options path curLevel names itemStat result s).isSome =
        true := by
  intro names
  induction names with
  | nil =>
    intro itemStat result s _
    rfl
  | cons n rest ih =>
    intro itemStat result s hrec
    unfold tdsEntries
    by_cases hres : result ≠ 1
    · rw [if_pos hres]
      rfl
    · rw [if_neg hres]
      have hstep := tdsStep_total d visitor recurse options path curLevel n itemStat s
        (fun hn s1 => hrec n ((mem_realNames _ _).2 ⟨List.mem_cons_self _ _, hn⟩) s1)
      cases hs : tdsStep d visitor recurse options path curLevel n itemStat s with
      | none => rw [hs] at hstep; simp at hstep
      | some r =>
        simp only [Option.isSome_map']
        apply ih
        intro name hname s1
        apply hrec
        rw [mem_realNames] at hname ⊢
        exact ⟨List.mem_cons_of_mem _ hname.1, hname.2⟩

/-- With a limit `0 <= maxLevel < 2^31` the recursion of `tds_traverseR` ends after
at most `maxLevel + 2` levels, whatever the file system looks like. -/
theorem tds_traverseR_total_limited {S : Type} (d : DirOps S) (visitor : Visitor S)
    (maxLevel : Int) (options : Nat) (uninit : Stat) (hmax : 0 ≤ maxLevel)
    (hint : maxLevel < 2 ^ 31) :
    ∀ (fuel : Nat) (path : CStr) (curLevel : Nat) (s : S),
      1 ≤ fuel → maxLevel + 2 ≤ (fuel : Int) + curLevel →
      (tds_traverseR d visitor maxLevel options uninit fuel path curLevel s).isSome = true := by
  intro fuel
  induction fuel with
  | zero =>
    intro path curLevel s h0 h
    omega
  | succ n ih =>
    intro path curLevel s _ h
    unfold tds_traverseR
    by_cases hlev : 0 ≤ maxLevel ∧ maxLevel < (curLevel : Int)
    · rw [if_pos hlev]
      rfl
    · rw [if_neg hlev]
      cases ho : d.opendir s path with
      | none => rfl
      | some names =>
        simp only
        apply tdsEntries_total
        intro name _ s1
        have h1 : (curLevel : Int) ≤ maxLevel := by
          by_contra hcon
          exact hlev ⟨hmax, by omega⟩
        have h2 : (curLevel + 1) % 2 ^ 32 = curLevel + 1 := by
          apply Nat.mod_eq_of_lt
          omega
        rw [h2]
        apply ih
        · omega
        · push_cast
          omega

/-- The processed names of a listing, entry by entry. -/
theorem realNames_cons (n : CStr) (rest : List CStr) :
    realNames (n :: rest) =
      if n = ".".toList ∨ n = "..".toList then realNames rest else n :: realNames rest := by
  unfold realNames
  by_cases h : n = ".".toList ∨ n = "..".toList
  · rw [if_pos h, List.filter_cons_of_neg]
    rcases h with h | h <;> simp [h]
  · rw [if_neg h, List.filter_cons_of_pos]
    simp only [Bool.not_eq_true', Bool.or_eq_false_iff, beq_eq_false_iff_ne, ne_eq]
    exact not_or.mp h

/-- The round for a processed name when both kinds of entries are reported: one
visitor invocation for the entry at the current level; an entry classified as a
directory is entered after it. -/
theorem tdsStep_real {S : Type} (d : DirOps S) (visitor : Visitor S)
    (recurse : CStr → S → Option (TraverseResult S)) (options : Nat) (path : CStr)
    (curLevel : Nat) (name : CStr) (itemStat : Stat) (s : S) (r : StepResult S)
    (hD : options &&& TDSO_DIRECTORY ≠ 0) (hI : options &&& TDSO_ITEM ≠ 0)
    (h1 : ¬ (name = ".".toList ∨ name = "..".toList))
    (h : tdsStep d visitor recurse options path curLevel name itemStat s = some r) :
    ∃ c : VisitCall, c.path = tdsNewPath path name ∧ c.level = curLevel ∧
      ((S_ISDIR ((d.stat s (tdsNewPath path name)).getD itemStat).st_mode = false ∧
          c.isDir = 0 ∧ r.calls = [c] ∧ r.result = if c.ret = 0 then 0 else 1) ∨
        (S_ISDIR ((d.stat s (tdsNewPath path name)).getD itemStat).st_mode = true ∧
          c.isDir = 1 ∧
          ∃ s1 rr, recurse (tdsNewPath path name) s1 = some rr ∧ r.calls = c :: rr.calls ∧
            r.result = if rr.ret = 0 then 0 else if rr.ret = 1 then
              (if c.ret = 0 then 0 else 1) else -1)) := by
  cases hdir : S_ISDIR ((d.stat s (tdsNewPath path name)).getD itemStat).st_mode with
  | true =>
    rw [tdsStep_dir d visitor recurse options path curLevel name itemStat s h1 hdir,
      Option.map_eq_some'] at h
    obtain ⟨rr, hrr, rfl⟩ := h
    obtain ⟨c, hp, hl, hi, hc, hret⟩ :=
      tdsVisit_set visitor options TDSO_DIRECTORY (tdsNewPath path name) name 1 curLevel s hD
    refine ⟨c, hp, hl, Or.inr ⟨rfl, hi, _, rr, hrr, ?_, ?_⟩⟩
    · simp only [hc, List.singleton_append]
    · simp only [hret]
  | false =>
    rw [tdsStep_item d visitor recurse options path curLevel name itemStat s h1 hdir] at h
    simp only [Option.some.injEq] at h
    obtain ⟨c, hp, hl, hi, hc, hret⟩ :=
      tdsVisit_set visitor options TDSO_ITEM (tdsNewPath path name) name 0 curLevel s hI
    refine ⟨c, hp, hl, Or.inl ⟨rfl, hi, ?_, ?_⟩⟩
    · rw [← h]
      exact hc
    · rw [← h]
      simp only [hret]

/-- The loop when the recursive calls do nothing (as they do one level below the
limit) and both kinds of entries are reported: it returns, with 1 or 0; the visitor
is invoked at the current level only, for the processed names in listing order, one
invocation each, up to the first invocation that returns 0 (if any); and the loop
returns 1 exactly when no invocation returned 0. -/
theorem tdsEntries_flat {S : Type} (d : DirOps S) (visitor : Visitor S)
    (recurse : CStr → S → Option (TraverseResult S)) (options : Nat) (path : CStr)
    (curLevel : Nat) (hD : options &&& TDSO_DIRECTORY ≠ 0) (hI : options &&& TDSO_ITEM ≠ 0)
    (hrec : ∀ p s1, recurse p s1 = some ⟨1, s1, []⟩) :
    ∀ (names : List CStr) (itemStat : Stat) (s : S),
      ∃ t, tdsEntries d visitor recurse options path curLevel names itemStat 1 s = some t ∧
        (t.ret = 1 ∨ t.ret = 0) ∧
        (∀ c ∈ t.calls, c.level = curLevel) ∧
        t.calls.map VisitCall.path <+: (realNames names).map (tdsNewPath path) ∧
        (t.ret = 1 → t.calls.map VisitCall.path = (realNames names).map (tdsNewPath path)) ∧
        (t.ret = 1 ↔ ∀ c ∈ t.calls, c.ret ≠ 0) := by
  intro names
  induction names with
  | nil =>
    intro itemStat s
    exact ⟨_, rfl, Or.inl rfl, by simp, by simp [realNames], by simp [realNames], by simp⟩
  | cons n rest ih =>
    intro itemStat s
    unfold tdsEntries
    rw [if_neg (by simp)]
    by_cases h1 : n = ".".toList ∨ n = "..".toList
    · rw [tdsStep_dots d visitor recurse options path curLevel n itemStat s h1]
      obtain ⟨t, ht, h⟩ := ih itemStat s
      refine ⟨_, by simp only [ht, Option.map_some']; rfl, ?_⟩
      simp only [List.nil_append]
      rw [realNames_cons, if_pos h1]
      exact h
    · have hsome := tdsStep_total d visitor recurse options path curLevel n itemStat s
        (fun _ s1 => by rw [hrec]; rfl)
      cases hs : tdsStep d visitor recurse options path curLevel n itemStat s with
      | none => rw [hs] at hsome; simp at hsome
      | some r =>
        obtain ⟨c, hp, hl, hcase⟩ := tdsStep_real d visitor recurse options path curLevel n
          itemStat s r hD hI h1 hs
        have hr : r.calls = [c] ∧ r.result = if c.ret = 0 then 0 else 1 := by
          rcases hcase with ⟨_, _, h2, h3⟩ | ⟨_, _, s1, rr, hrr, h2, h3⟩
          · exact ⟨h2, h3⟩
          · rw [hrec] at hrr
            simp only [Option.some.injEq] at hrr
            rw [← hrr] at h2 h3
            exact ⟨h2, by simpa using h3⟩
        rw [realNames_cons, if_neg h1]
        simp only
        by_cases hc0 : c.ret = 0
        · have h0 : r.result ≠ 1 := by rw [hr.2, if_pos hc0]; decide
          rw [tdsEntries_of_ne_one d visitor recurse options path curLevel rest _ _ _ h0]
          refine ⟨_, rfl, Or.inr (by simp [hr.2, hc0]), ?_, ?_, ?_, ?_⟩
          · intro c1 hc1
            simp only [hr.1, List.append_nil, List.mem_singleton] at hc1
            rw [hc1]
            exact hl
          · simp only [hr.1, List.append_nil, List.map_cons, List.map_nil, hp]
            exact List.prefix_iff_eq_take.mpr (by simp)
          · intro h
            simp [hr.2, hc0] at h
          · simp only [hr.1, hr.2, hc0, if_true, List.append_nil, List.mem_singleton]
            constructor
            · intro h
              exact absurd h (by decide)
            · intro h
              exact absurd hc0 (h c rfl)
        · have h1r : r.result = 1 := by rw [hr.2, if_neg hc0]
          obtain ⟨t, ht, hret, hlev, hpre, heq, hiff⟩ := ih r.itemStat r.state
          rw [h1r, ht]
          refine ⟨_, rfl, hret, ?_, ?_, ?_, ?_⟩
          · intro c1 hc1
            simp only [hr.1, List.singleton_append, List.mem_cons] at hc1
            rcases hc1 with hc1 | hc1
            · rw [hc1]; exact hl
            · exact hlev c1 hc1
          · simp only [hr.1, List.singleton_append, List.map_cons, hp]
            exact (List.prefix_cons_inj _).mpr hpre
          · intro h
            simp only [hr.1, List.singleton_append, List.map_cons, hp]
            rw [heq h]
          · simp only [hr.1, List.singleton_append, List.mem_cons, forall_eq_or_imp]
            rw [hiff]
            constructor
            · intro h
              exact ⟨hc0, h⟩
            · intro h
              exact h.2

/-- A loop that returns 1 has processed every name: each processed name got its
visitor invocation at the current level, and each one that `stat` reports as a
directory was entered by a recursive call that returned 1 and whose invocations
are among those of the loop. -/
theorem tdsEntries_complete {S : Type} (d : DirOps S) (visitor : Visitor S)
    (recurse : CStr → S → Option (TraverseResult S)) (options : Nat) (path : CStr)
    (curLevel : Nat) (st : CStr → Option Stat) (hst : ∀ s p, d.stat s p = st p)
    (hD : options &&& TDSO_DIRECTORY ≠ 0) (hI : options &&& TDSO_ITEM ≠ 0) :
    ∀ (names : List CStr) (itemStat : Stat) (s : S) (t : TraverseResult S),
      tdsEntries d visitor recurse options path curLevel names itemStat 1 s = some t →
      t.ret = 1 →
      ∀ name ∈ realNames names,
        (∃ c ∈ t.calls, c.path = tdsNewPath path name ∧ c.level = curLevel) ∧
        (∀ m, st (tdsNewPath path name) = some m → S_ISDIR m.st_mode = true →
          ∃ s1 rr, recurse (tdsNewPath path name) s1 = some rr ∧ rr.ret = 1 ∧
            ∀ c ∈ rr.calls, c ∈ t.calls) := by
  intro names
  induction names with
  | nil =>
    intro itemStat s t _ _ name hname
    simp [realNames] at hname
  | cons n rest ih =>
    intro itemStat s t h hret name hname
    unfold tdsEntries at h
    rw [if_neg (by simp)] at h
    cases hs : tdsStep d visitor recurse options path curLevel n itemStat s with
    | none => rw [hs] at h; simp at h
    | some r =>
      rw [hs] at h
      simp only [Option.map_eq_some'] at h
      obtain ⟨t2, ht2, rfl⟩ := h
      have hr1 : r.result = 1 := by
        by_contra hne
        rw [tdsEntries_of_ne_one d visitor recurse options path curLevel rest _ _ _ hne] at ht2
        simp only [Option.some.injEq] at ht2
        rw [← ht2] at hret
        exact hne hret
      rw [hr1] at ht2
      have hrest : name ∈ realNames rest →
          (∃ c ∈ r.calls ++ t2.calls, c.path = tdsNewPath path name ∧ c.level = curLevel) ∧
          (∀ m, st (tdsNewPath path name) = some m → S_ISDIR m.st_mode = true →
            ∃ s1 rr, recurse (tdsNewPath path name) s1 = some rr ∧ rr.ret = 1 ∧
              ∀ c ∈ rr.calls, c ∈ r.calls ++ t2.calls) := by
        intro hn
        obtain ⟨⟨c, hc, hcp⟩, hsub⟩ := ih r.itemStat r.state t2 ht2 hret name hn
        refine ⟨⟨c, List.mem_append_right _ hc, hcp⟩, ?_⟩
        intro m hm hdir
        obtain ⟨s1, rr, h1, h2, h3⟩ := hsub m hm hdir
        exact ⟨s1, rr, h1, h2, fun c hc => List.mem_append_right _ (h3 c hc)⟩
      rw [realNames_cons] at hname
      by_cases h1 : n = ".".toList ∨ n = "..".toList
      · rw [if_pos h1] at hname
        exact hrest hname
      · rw [if_neg h1, List.mem_cons] at hname
        rcases hname with rfl | hname
        · obtain ⟨c, hp, hl, hcase⟩ := tdsStep_real d visitor recurse options path curLevel
            name itemStat s r hD hI h1 hs
          rcases hcase with ⟨hnd, _, hcalls, _⟩ | ⟨_, _, s1, rr, hrr, hcalls, hres⟩
          · refine ⟨⟨c, ?_, hp, hl⟩, ?_⟩
            · simp only [hcalls, List.singleton_append, List.mem_cons, true_or]
            · intro m hm hdir
              rw [hst, hm] at hnd
              simp only [Option.getD_some] at hnd
              rw [hdir] at hnd
              exact absurd hnd (by decide)
          · refine ⟨⟨c, ?_, hp, hl⟩, ?_⟩
            · simp only [hcalls, List.cons_append, List.mem_cons, true_or]
            · intro m hm hdir
              refine ⟨s1, rr, hrr, ?_, ?_⟩
              · rw [hr1] at hres
                by_contra hne
                by_cases h0 : rr.ret = 0
                · rw [if_pos h0] at hres
                  exact absurd hres (by decide)
                · rw [if_neg h0, if_neg hne] at hres
                  exact absurd hres (by decide)
              · intro c1 hc1
                simp only [hcalls, List.cons_append, List.mem_cons, List.mem_append]
                exact Or.inr (Or.inl hc1)
        · exact hrest hname

/-- The same for one call of `tds_traverseR` without depth limit on a file system
that does not change during the traversal. -/
theorem tds_traverseR_complete {S : Type} (d : DirOps S) (visitor : Visitor S)
    (maxLevel : Int) (options : Nat) (uninit : Stat) (ls : CStr → Option (List CStr))
    (st : CStr → Option Stat) (hls : ∀ s p, d.opendir s p = ls p)
    (hst : ∀ s p, d.stat s p = st p) (hmax : maxLevel < 0)
    (hD : options &&& TDSO_DIRECTORY ≠ 0) (hI : options &&& TDSO_ITEM ≠ 0)
    (fuel : Nat) (path : CStr) (curLevel : Nat) (s : S) (t : TraverseResult S)
    (h : tds_traverseR d visitor maxLevel options uninit fuel path curLevel s = some t)
    (hret : t.ret = 1) (names : List CStr) (hnames : ls path = some names) (name : CStr)
    (hname : name ∈ realNames names) :
    (∃ c ∈ t.calls, c.path = tdsNewPath path name ∧ c.level = curLevel) ∧
      (∀ m, st (tdsNewPath path name) = some m → S_ISDIR m.st_mode = true →
        ∃ fuel1 s1 rr,
          tds_traverseR d visitor maxLevel options uninit fuel1 (tdsNewPath path name)
            ((curLevel + 1) % 2 ^ 32) s1 = some rr ∧ rr.ret = 1 ∧
          ∀ c ∈ rr.calls, c ∈ t.calls) := by
  cases fuel with
  | zero => simp [tds_traverseR] at h
  | succ n =>
    unfold tds_traverseR at h
    rw [if_neg (by omega), hls, hnames] at h
    obtain ⟨h1, h2⟩ := tdsEntries_complete d visitor _ options path curLevel st hst hD hI
      names uninit s t h hret name hname
    refine ⟨h1, ?_⟩
    intro m hm hdir
    obtain ⟨s1, rr, h3, h4, h5⟩ := h2 m hm hdir
    exact ⟨n, s1, rr, h3, h4, h5⟩

/-- A traversal without depth limit that returns 1 has invoked the visitor for
every entry of the tree, at the level that is the depth of the entry (modulo
`2^32`, the level being an `unsigned int`). -/
theorem isEntry_visited {S : Type} (d : DirOps S) (visitor : Visitor S)
    (maxLevel : Int) (options : Nat) (uninit : Stat) (ls : CStr → Option (List CStr))
    (st : CStr → Option Stat) (hls : ∀ s p, d.opendir s p = ls p)
    (hst : ∀ s p, d.stat s p = st p) (hmax : maxLevel < 0)
    (hD : options &&& TDSO_DIRECTORY ≠ 0) (hI : options &&& TDSO_ITEM ≠ 0)
    (fuel : Nat) (root : CStr) (s : S) (t : TraverseResult S)
    (h : tds_traverseR d visitor maxLevel options uninit fuel root 0 s = some t)
    (hret : t.ret = 1) (p : CStr) (k : Nat) (hp : IsEntry ls st root p k) :
    (∃ c ∈ t.calls, c.path = p ∧ c.level = k % 2 ^ 32) ∧
      (∀ m, st p = some m → S_ISDIR m.st_mode = true →
        ∃ fuel1 s1 rr,
          tds_traverseR d visitor maxLevel options uninit fuel1 p ((k + 1) % 2 ^ 32) s1 =
            some rr ∧ rr.ret = 1 ∧
          ∀ c ∈ rr.calls, c ∈ t.calls) := by
  induction hp with
  | child names name hnames hname =>
    exact tds_traverseR_complete d visitor maxLevel options uninit ls st hls hst hmax hD hI
      fuel root 0 s t h hret names hnames name hname
  | inside p k m names name _ hm hdir hnames hname ih =>
    obtain ⟨fuel1, s1, rr, hrr, hrr1, hsub⟩ := ih.2 m hm hdir
    obtain ⟨⟨c, hc, hcp, hcl⟩, h2⟩ := tds_traverseR_complete d visitor maxLevel options uninit
      ls st hls hst hmax hD hI fuel1 p _ s1 rr hrr hrr1 names hnames name hname
    refine ⟨⟨c, hsub c hc, hcp, ?_⟩, ?_⟩
    · rw [hcl]
    · intro m2 hm2 hdir2
      obtain ⟨fuel2, s2, rr2, h3, h4, h5⟩ := h2 m2 hm2 hdir2
      refine ⟨fuel2, s2, rr2, ?_, h4, fun c hc => hsub c (h5 c hc)⟩
      rw [← h3]
      congr 1
      omega

/-- On a file system that does not change during the traversal, `tds_traverseR`
returns when its fuel exceeds the depth of the tree. -/
theorem tds_traverseR_total_shallow {S : Type} (d : DirOps S) (visitor : Visitor S)
    (maxLevel : Int) (options : Nat) (uninit : Stat) (ls : CStr → Option (List CStr))
    (hls : ∀ s p, d.opendir s p = ls p) :
    ∀ (fuel : Nat) (path : CStr) (curLevel : Nat) (s : S),
      shallow ls fuel path = true →
      (tds_traverseR d visitor maxLevel options uninit fuel path curLevel s).isSome = true := by
  intro fuel
  induction fuel with
  | zero =>
    intro path curLevel s h
    simp [shallow] at h
  | succ n ih =>
    intro path curLevel s h
    unfold tds_traverseR
    by_cases hlev : 0 ≤ maxLevel ∧ maxLevel < (curLevel : Int)
    · rw [if_pos hlev]
      rfl
    · rw [if_neg hlev, hls]
      unfold shallow at h
      cases ho : ls path with
      | none => rfl
      | some names =>
        rw [ho] at h
        simp only [List.all_eq_true] at h
        simp only
        apply tdsEntries_total
        intro name hname s1
        exact ih _ _ _ (h name hname)

/-- Function `tds_traverse` with `maxLevel = 0` and both kinds of entries reported,
on a directory that can be listed: it returns (two levels of fuel are enough), with
1 or 0; all visitor invocations are at level 0, for the processed names of the
listing in order, one each, up to the first invocation that returns 0. -/
theorem tds_traverse_flat {S : Type} (d : DirOps S) (visitor : Visitor S) (uninit : Stat)
    (fuel : Nat) (path : CStr) (options : Nat) (s : S) (names : List CStr) (hfuel : 2 ≤ fuel)
    (hD : options &&& TDSO_DIRECTORY ≠ 0) (hI : options &&& TDSO_ITEM ≠ 0)
    (hls : d.opendir s path = some names) :
    ∃ t, tds_traverse d visitor uninit fuel path 0 options s = some t ∧
      (t.ret = 1 ∨ t.ret = 0) ∧
      (∀ c ∈ t.calls, c.level = 0) ∧
      t.calls.map VisitCall.path <+: (realNames names).map (tdsNewPath path) ∧
      (t.ret = 1 → t.calls.map VisitCall.path = (realNames names).map (tdsNewPath path)) ∧
      (t.ret = 1 ↔ ∀ c ∈ t.calls, c.ret ≠ 0) := by
  have hD1 : (options &&& TDSO_ALL) &&& TDSO_DIRECTORY ≠ 0 := by
    rw [tdso_clean options TDSO_DIRECTORY (by decide)]
    exact hD
  have hI1 : (options &&& TDSO_ALL) &&& TDSO_ITEM ≠ 0 := by
    rw [tdso_clean options TDSO_ITEM (by decide)]
    exact hI
  have hall : ¬ options &&& TDSO_ALL = 0 := by
    intro h0
    rw [h0] at hD1
    exact hD1 (Nat.zero_and _)
  obtain ⟨n, rfl⟩ : ∃ n, fuel = n + 2 := ⟨fuel - 2, by omega⟩
  unfold tds_traverse
  rw [if_neg hall]
  unfold tds_traverseR
  rw [if_neg (by simp), hls]
  exact tdsEntries_flat d visitor _ (options &&& TDSO_ALL) path 0 hD1 hI1
    (fun p s1 => by
      unfold tds_traverseR
      rw [if_pos (by decide)])
    names uninit s

/-- The loop returns 1 when, for every processed name, the visitor continues, `stat`
succeeds, and the recursive call for a name that is a directory returns 1. -/
theorem tdsEntries_ret_one {S : Type} (d : DirOps S) (visitor : Visitor S)
    (recurse : CStr → S → Option (TraverseResult S)) (options : Nat) (path : CStr)
    (curLevel : Nat) (st : CStr → Option Stat) (hst : ∀ s p, d.stat s p = st p)
    (hvis : ∀ p i x b l s, (visitor p i x b l s).1 ≠ 0) :
    ∀ (names : List CStr) (itemStat : Stat) (s : S) (t : TraverseResult S),
      (∀ name ∈ realNames names, ∃ m, st (tdsNewPath path name) = some m ∧
        (S_ISDIR m.st_mode = true →
          ∀ s1 rr, recurse (tdsNewPath path name) s1 = some rr → rr.ret = 1)) →
      tdsEntries d visitor recurse options path curLevel names itemStat 1 s = some t →
      t.ret = 1 := by
  intro names
  induction names with
  | nil =>
    intro itemStat s t _ h
    simp only [tdsEntries, Option.some.injEq] at h
    rw [← h]
  | cons n rest ih =>
    intro itemStat s t hnames h
    unfold tdsEntries at h
    rw [if_neg (by simp)] at h
    have hrest : ∀ name ∈ realNames rest, ∃ m, st (tdsNewPath path name) = some m ∧
        (S_ISDIR m.st_mode = true →
          ∀ s1 rr, recurse (tdsNewPath path name) s1 = some rr → rr.ret = 1) := by
      intro name hname
      apply hnames
      rw [mem_realNames] at hname ⊢
      exact ⟨List.mem_cons_of_mem _ hname.1, hname.2⟩
    cases hs : tdsStep d visitor recurse options path curLevel n itemStat s with
    | none => rw [hs] at h; simp at h
    | some r =>
      rw [hs] at h
      simp only [Option.map_eq_some'] at h
      obtain ⟨t2, ht2, rfl⟩ := h
      have hr1 : r.result = 1 := by
        by_cases h1 : n = ".".toList ∨ n = "..".toList
        · rw [tdsStep_dots d visitor recurse options path curLevel n itemStat s h1] at hs
          simp only [Option.some.injEq] at hs
          rw [← hs]
        · obtain ⟨m, hm, hdirm⟩ := hnames n ((mem_realNames _ _).2 ⟨List.mem_cons_self _ _, h1⟩)
          have hv : ∀ bit isDir,
              (tdsVisit visitor options bit (tdsNewPath path n) n isDir curLevel s).ret ≠ 0 := by
            intro bit isDir
            unfold tdsVisit
            split_ifs
            · exact hvis _ _ _ _ _ _
            · exact one_ne_zero
          cases hdir : S_ISDIR ((d.stat s (tdsNewPath path n)).getD itemStat).st_mode with
          | true =>
            rw [tdsStep_dir d visitor recurse options path curLevel n itemStat s h1 hdir,
              Option.map_eq_some'] at hs
            obtain ⟨rr, hrr, rfl⟩ := hs
            rw [hst, hm] at hdir
            have := hdirm hdir _ rr hrr
            simp only [this, if_neg (hv TDSO_DIRECTORY 1), if_true]
            decide
          | false =>
            rw [tdsStep_item d visitor recurse options path curLevel n itemStat s h1 hdir] at hs
            simp only [Option.some.injEq] at hs
            rw [← hs]
            simp only [if_neg (hv TDSO_ITEM 0)]
      rw [hr1] at ht2
      exact ih _ _ t2 hrest ht2

/-- A traversal without depth limit returns 1 when the visitor always continues,
the directory can be listed, every entry of the tree below it can be examined with
`stat`, and every entry that is a directory can be listed. -/
theorem tds_traverseR_ret_one {S : Type} (d : DirOps S) (visitor : Visitor S)
    (maxLevel : Int) (options : Nat) (uninit : Stat) (ls : CStr → Option (List CStr))
    (st : CStr → Option Stat) (hls : ∀ s p, d.opendir s p = ls p)
    (hst : ∀ s p, d.stat s p = st p) (hmax : maxLevel < 0)
    (hvis : ∀ p i x b l s, (visitor p i x b l s).1 ≠ 0) (root : CStr)
    (hent : ∀ p k, IsEntry ls st root p k →
      ∃ m, st p = some m ∧ (S_ISDIR m.st_mode = true → (ls p).isSome = true)) :
    ∀ (fuel : Nat) (path : CStr) (curLevel : Nat) (s : S) (t : TraverseResult S),
      (ls path).isSome = true →
      (∀ names name, ls path = some names → name ∈ realNames names →
        ∃ k, IsEntry ls st root (tdsNewPath path name) k) →
      tds_traverseR d visitor maxLevel options uninit fuel path curLevel s = some t →
      t.ret = 1 := by
  intro fuel
  induction fuel with
  | zero =>
    intro path curLevel s t _ _ h
    simp [tds_traverseR] at h
  | succ n ih =>
    intro path curLevel s t hlist hchild h
    unfold tds_traverseR at h
    rw [if_neg (by omega), hls] at h
    cases ho : ls path with
    | none => rw [ho] at hlist; simp at hlist
    | some names =>
      rw [ho] at h
      refine tdsEntries_ret_one d visitor _ options path curLevel st hst hvis names uninit s t
        ?_ h
      intro name hname
      obtain ⟨k, hk⟩ := hchild names name ho hname
      obtain ⟨m, hm, hdirm⟩ := hent _ k hk
      refine ⟨m, hm, ?_⟩
      intro hdir s1 rr hrr
      refine ih _ _ s1 rr (hdirm hdir) ?_ hrr
      intro names2 name2 hn2 hname2
      exact ⟨k + 1, IsEntry.inside _ k m names2 name2 hk hm hdir hn2 hname2⟩

/-- C17: depth limit of the traverser.  (1) For every `maxLevel >= 0`, every visitor
invocation made by `tds_traverse` has `level <= maxLevel`, and the traversal returns
whatever the directory tree looks like (fuel `maxLevel + 2` is enough for an `int`
limit).  (2) With `maxLevel = 0` and both `TDSO_DIRECTORY` and `TDSO_ITEM` set, on a
root that can be listed, the invocations are all at level 0 and are made for the names
listed in the root other than `.` and `..`, in listing order and once per listed name,
up to the first invocation that returns 0; when no invocation returns 0 the visited
paths are exactly the immediate children of the root.  (3) With a negative `maxLevel`,
both options set, and a tree that does not change during the traversal, the traversal
returns (fuel above the depth of the tree is enough), and when it returns 1 the
visitor has been invoked for every entry of the tree, at any depth `k`, with
`level = k mod 2^32`; it does return 1 when the visitor always continues, the root
can be listed, `stat` succeeds on every entry, and every entry that is a directory
can be listed. -/
theorem tds_traverse_depth_limit {S : Type} (d : DirOps S) (visitor : Visitor S)
    (uninit : Stat) (path : CStr) (options : Nat) (s : S) :
    (∀ (maxLevel : Int) (fuel : Nat), 0 ≤ maxLevel →
      (∀ t, tds_traverse d visitor uninit fuel path maxLevel options s = some t →
        ∀ c ∈ t.calls, (c.level : Int) ≤ maxLevel) ∧
      (maxLevel < 2 ^ 31 → maxLevel + 2 ≤ (fuel : Int) →
        (tds_traverse d visitor uninit fuel path maxLevel options s).isSome = true)) ∧
    (∀ (fuel : Nat) (names : List CStr), 2 ≤ fuel →
      options &&& TDSO_DIRECTORY ≠ 0 → options &&& TDSO_ITEM ≠ 0 →
      d.opendir s path = some names →
      ∃ t, tds_traverse d visitor uninit fuel path 0 options s = some t ∧
        (∀ c ∈ t.calls, c.level = 0) ∧
        t.calls.map VisitCall.path <+: (realNames names).map (tdsNewPath path) ∧
        ((∀ c ∈ t.calls, c.ret ≠ 0) →
          t.ret = 1 ∧ t.calls.map VisitCall.path = (realNames names).map (tdsNewPath path))) ∧
    (∀ (maxLevel : Int) (fuel : Nat) (ls : CStr → Option (List CStr))
        (st : CStr → Option Stat), maxLevel < 0 →
      options &&& TDSO_DIRECTORY ≠ 0 → options &&& TDSO_ITEM ≠ 0 →
      (∀ s1 p, d.opendir s1 p = ls p) → (∀ s1 p, d.stat s1 p = st p) →
      shallow ls fuel path = true →
      ∃ t, tds_traverse d visitor uninit fuel path maxLevel options s = some t ∧
        (t.ret = 1 → ∀ p k, IsEntry ls st path p k →
          ∃ c ∈ t.calls, c.path = p ∧ c.level = k % 2 ^ 32) ∧
        ((∀ p i x b l s1, (visitor p i x b l s1).1 ≠ 0) → (ls path).isSome = true →
          (∀ p k, IsEntry ls st path p k →
            ∃ m, st p = some m ∧ (S_ISDIR m.st_mode = true → (ls p).isSome = true)) →
          t.ret = 1)) := by
  refine ⟨?_, ?_, ?_⟩
  · intro maxLevel fuel hmax
    constructor
    · intro t h
      unfold tds_traverse at h
      by_cases hall : options &&& TDSO_ALL = 0
      · rw [if_pos hall] at h
        simp only [Option.some.injEq] at h
        rw [← h]
        simp
      · rw [if_neg hall] at h
        exact tds_traverseR_level d visitor maxLevel _ uninit hmax fuel path 0 s t h
    · intro hint hfuel
      unfold tds_traverse
      by_cases hall : options &&& TDSO_ALL = 0
      · rw [if_pos hall]
        rfl
      · rw [if_neg hall]
        exact tds_traverseR_total_limited d visitor maxLevel _ uninit hmax hint fuel path 0 s
          (by omega) (by simpa using hfuel)
  · intro fuel names hfuel hD hI hls
    obtain ⟨t, ht, _, hlev, hpre, heq, hiff⟩ :=
      tds_traverse_flat d visitor uninit fuel path options s names hfuel hD hI hls
    exact ⟨t, ht, hlev, hpre, fun h => ⟨hiff.2 h, heq (hiff.2 h)⟩⟩
  · intro maxLevel fuel ls st hmax hD hI hls hst hsh
    have hD1 : (options &&& TDSO_ALL) &&& TDSO_DIRECTORY ≠ 0 := by
      rw [tdso_clean options TDSO_DIRECTORY (by decide)]
      exact hD
    have hI1 : (options &&& TDSO_ALL) &&& TDSO_ITEM ≠ 0 := by
      rw [tdso_clean options TDSO_ITEM (by decide)]
      exact hI
    have hall : ¬ options &&& TDSO_ALL = 0 := by
      intro h0
      rw [h0] at hD1
      exact hD1 (Nat.zero_and _)
    have hsome := tds_traverseR_total_shallow d visitor maxLevel (options &&& TDSO_ALL) uninit
      ls hls fuel path 0 s hsh
    unfold tds_traverse
    rw [if_neg hall]
    cases ht : tds_traverseR d visitor maxLevel (options &&& TDSO_ALL) uninit fuel path 0 s with
    | none => rw [ht] at hsome; simp at hsome
    | some t =>
      refine ⟨t, rfl, ?_, ?_⟩
      · intro hret p k hp
        exact (isEntry_visited d visitor maxLevel _ uninit ls st hls hst hmax hD1 hI1 fuel path
          s t ht hret p k hp).1
      · intro hvis hroot hent
        exact tds_traverseR_ret_one d visitor maxLevel _ uninit ls st hls hst hmax hvis path
          hent fuel path 0 s t hroot
          (fun names name hn hname => ⟨0, IsEntry.child names name hn hname⟩) ht

/-- The file `a/y/z` is an entry at depth 1 of the tree below `a`. -/
theorem isEntry_ayz : IsEntry (simOpendir fsTreeA) fsTreeA.stat "a".toList "a/y/z".toList 1 :=
  IsEntry.inside "a/y".toList 0 dirStat [".".toList, "..".toList, "z".toList] "z".toList
    (IsEntry.child [".".toList, "..".toList, "x".toList, "y".toList] "y".toList (by decide)
      (by decide))
    (by decide) (by decide) (by decide) (by decide)

/-- C17 on the tree `a/x`, `a/y/z`: with `maxLevel = 0` the levels are at most 0 and the
visited paths are among `a/x`, `a/y`; without limit the traversal returns 1 and has
visited `a/y/z` at level 1. -/
theorem tds_traverse_depth_limit_witness :
    (∀ t, tds_traverse (frozenDirOps Nat fsTreeA) countVisitor dirStat 5 "a".toList 0 TDSO_ALL
        0 = some t → ∀ c ∈ t.calls, (c.level : Int) ≤ 0) ∧
    (∃ t, tds_traverse (frozenDirOps Nat fsTreeA) countVisitor dirStat 5 "a".toList 0 TDSO_ALL
        0 = some t ∧
      t.calls.map VisitCall.path <+: ["a/x".toList, "a/y".toList]) ∧
    (∃ t, tds_traverse (frozenDirOps Nat fsTreeA) countVisitor dirStat 5 "a".toList (-1)
        TDSO_ALL 0 = some t ∧ t.ret = 1 ∧
      ∃ c ∈ t.calls, c.path = "a/y/z".toList ∧ c.level = 1) := by
  refine ⟨((tds_traverse_depth_limit (frozenDirOps Nat fsTreeA) countVisitor dirStat
      "a".toList TDSO_ALL 0).1 0 5 (by decide)).1,
    ((tds_traverse_depth_limit (frozenDirOps Nat fsTreeA) countVisitor dirStat "a".toList
      TDSO_ALL 0).2.1 5 [".".toList, "..".toList, "x".toList, "y".toList] (by decide)
      (by decide) (by decide) (by decide)).imp (fun t h => ⟨h.1, h.2.2.1⟩), ?_⟩
  obtain ⟨t, ht, h⟩ := (tds_traverse_depth_limit (frozenDirOps Nat fsTreeA) countVisitor dirStat
    "a".toList TDSO_ALL 0).2.2 (-1) 5 (simOpendir fsTreeA) fsTreeA.stat (by decide)
    (by decide) (by decide) (fun _ _ => rfl) (fun _ _ => rfl) (by decide)
  have hret : t.ret = 1 := by
    have h1 : (tds_traverse (frozenDirOps Nat fsTreeA) countVisitor dirStat 5 "a".toList (-1)
      TDSO_ALL 0).map TraverseResult.ret = some 1 := by decide
    rw [ht] at h1
    simpa using h1
  exact ⟨t, ht, hret, h.1 hret _ _ isEntry_ayz⟩

/-! ## The driver: a directory source without `--recursive` -/

/-- With a limit `0 <= maxLevel < 2^31`, `tds_traverse` returns with fuel
`maxLevel + 2`, whatever the file system looks like. -/
theorem tds_traverse_total_limited {S : Type} (d : DirOps S) (visitor : Visitor S)
    (uninit : Stat) (fuel : Nat) (path : CStr) (maxLevel : Int) (options : Nat) (s : S)
    (hmax : 0 ≤ maxLevel) (hint : maxLevel < 2 ^ 31) (hfuel : maxLevel + 2 ≤ (fuel : Int)) :
    (tds_traverse d visitor uninit fuel path maxLevel options s).isSome = true := by
  unfold tds_traverse
  by_cases hall : options &&& TDSO_ALL = 0
  · rw [if_pos hall]
    rfl
  · rw [if_neg hall]
    exact tds_traverseR_total_limited d visitor maxLevel _ uninit hmax hint fuel path 0 s
      (by omega) (by simpa using hfuel)

/-- A run without `--recursive` returns with two levels of fuel. -/
theorem mainLoop_total_nonrecursive {σ : Type} (P : Platform) (ops : IoOps σ) (d : DirOps σ)
    (uninit : Stat) (fuel : Nat) (hfuel : 2 ≤ fuel) :
    ∀ (sources : List CStr) (st : RunState σ), st.opt.recursive = 0 →
      (mainLoop P ops d uninit fuel sources st).isSome = true := by
  intro sources
  induction sources with
  | nil =>
    intro st _
    rfl
  | cons src rest ih =>
    intro st hrec
    unfold mainLoop
    by_cases h1 : ops.signalReceived st.world ≠ 0
    · rw [if_pos h1]
      rfl
    · rw [if_neg h1]
      by_cases h2 : ops.isFile st.world src ≠ 0
      · rw [if_pos h2]
        by_cases h3 : (visitorOn P ops src none none 0 0 st).1 ≠ 0
        · rw [if_pos h3, Option.isSome_map']
          apply ih
          show (visitorOn P ops src none none 0 0 st).2.opt.recursive = 0
          rw [(visitorOn_keeps P ops src none none 0 0 st).2]
          exact hrec
        · rw [if_neg h3]
          rfl
      · rw [if_neg h2]
        by_cases h4 : ops.isDirectory st.world src ≠ 0
        · rw [if_pos h4]
          by_cases h5 : (visitorOn P ops src none none 1 0 st).1 = 0
          · rw [if_pos h5]
            rfl
          · rw [if_neg h5]
            have htot := tds_traverse_total_limited (runDirOps d) (visitorOn P ops) uninit fuel
              src 0 (TDSO_DIRECTORY ||| TDSO_ITEM) (visitorOn P ops src none none 1 0 st).2
              (le_refl _) (by decide) (by simpa using hfuel)
            simp only [hrec, if_true]
            cases ht : tds_traverse (runDirOps d) (visitorOn P ops) uninit fuel src 0
                (TDSO_DIRECTORY ||| TDSO_ITEM) (visitorOn P ops src none none 1 0 st).2 with
            | none => rw [ht] at htot; simp at htot
            | some t =>
              simp only
              by_cases h6 : t.ret = 0 ∨ t.ret = -1
              · rw [if_pos h6]
                rfl
              · rw [if_neg h6, Option.isSome_map']
                apply ih
                show t.state.opt.recursive = 0
                exact tds_traverse_inv (fun a : RunState σ => a.opt.recursive = 0) (runDirOps d)
                  (visitorOn P ops) uninit fuel src _ _
                  (fun p i x b l a ha => ((visitorOn_keeps P ops p i x b l a).2).trans ha)
                  _ t (((visitorOn_keeps P ops src none none 1 0 st).2).trans hrec) ht
        · rw [if_neg h4]
          rfl

/-- C15 (as the code behaves): for a directory source without `--recursive` the driver
invokes the visitor for the directory itself (which creates the destination
directory) and then, unless that failed, traverses the source with `max_level = 0`:
the visitor is invoked at level 0 for the entries directly inside the source
directory, in listing order, one invocation each, up to the first invocation that
returns 0, and for every one of them when none returns 0.  So files directly inside
the source are copied and its subdirectories are created; only what lies inside
those subdirectories is left out.  The run returns (two levels of fuel are enough). -/
theorem driver_nonrecursive_directory {σ : Type} (P : Platform) (ops : IoOps σ) (d : DirOps σ)
    (uninit : Stat) (fuel : Nat) (src : CStr) (rest : List CStr) (st : RunState σ)
    (names : List CStr)
    (hsig : ops.signalReceived st.world = 0) (hfile : ops.isFile st.world src = 0)
    (hdir : ops.isDirectory st.world src ≠ 0) (hrec : st.opt.recursive = 0)
    (hfuel : 2 ≤ fuel)
    (hvis : (visitorOn P ops src none none 1 0 st).1 ≠ 0)
    (hls : d.opendir (visitorOn P ops src none none 1 0 st).2.world src = some names) :
    ∃ (r : DriverResult σ) (t : TraverseResult (RunState σ)) (later : List DriverEvent),
      mainLoop P ops d uninit fuel (src :: rest) st = some r ∧
      r.log = DriverEvent.visit st.opt.srcIndex src 1
          (visitorOn P ops src none none 1 0 st).1 ::
        DriverEvent.traverse st.opt.srcIndex src 0 (TDSO_DIRECTORY ||| TDSO_ITEM) t.ret
          t.calls :: later ∧
      (∀ e ∈ later, st.opt.srcIndex < e.srcIndex) ∧
      (∀ c ∈ t.calls, c.level = 0) ∧
      t.calls.map VisitCall.path <+: (realNames names).map (tdsNewPath src) ∧
      ((∀ c ∈ t.calls, c.ret ≠ 0) →
        t.calls.map VisitCall.path = (realNames names).map (tdsNewPath src)) := by
  obtain ⟨t, ht, hret, hlev, hpre, heq, hiff⟩ :=
    tds_traverse_flat (runDirOps d) (visitorOn P ops) uninit fuel src
      (TDSO_DIRECTORY ||| TDSO_ITEM) (visitorOn P ops src none none 1 0 st).2 names hfuel
      (by decide) (by decide) hls
  have hk1 := (visitorOn_keeps P ops src none none 1 0 st).1
  have hidx := tds_traverse_inv
    (fun a : RunState σ => a.opt.srcIndex = st.opt.srcIndex) (runDirOps d)
    (visitorOn P ops) uninit fuel src _ _
    (fun p i x b l a ha => ((visitorOn_keeps P ops p i x b l a).1).trans ha)
    _ t hk1 ht
  have hsome := mainLoop_total_nonrecursive P ops d uninit fuel hfuel (src :: rest) st hrec
  cases hr : mainLoop P ops d uninit fuel (src :: rest) st with
  | none => rw [hr] at hsome; simp at hsome
  | some r =>
    refine ⟨r, t, ?_⟩
    rcases mainLoop_cons_cases P ops d uninit fuel src rest st r hsig hr with
      ⟨hf, _⟩ | ⟨hf, _⟩ | ⟨_, _, hv, _⟩ | ⟨_, _, _, t1, ht1, _, rfl⟩ |
      ⟨_, _, _, t1, r2, ht1, _, hr2, rfl⟩ | ⟨_, hd, _⟩
    · exact absurd hfile hf
    · exact absurd hfile hf
    · exact absurd hv hvis
    · simp only [hrec, if_true] at ht1 ⊢
      rw [ht] at ht1
      simp only [Option.some.injEq] at ht1
      subst ht1
      exact ⟨[], trivial, rfl, by simp, hlev, hpre, fun h => heq (hiff.2 h)⟩
    · simp only [hrec, if_true] at ht1 ⊢
      rw [ht] at ht1
      simp only [Option.some.injEq] at ht1
      subst ht1
      refine ⟨r2.log, trivial, rfl, ?_, hlev, hpre, fun h => heq (hiff.2 h)⟩
      intro e he
      have := mainLoop_log_index P ops d uninit fuel rest _ r2 hr2 e he
      simp only [nextSource] at this
      omega
    · exact absurd hd hdir

/-- C15 for the run `lsync a out` over the tree `a/x`, `a/y/z`: after the visitor call for
`a` the source is traversed with level 0, and the visited paths are among `a/x`,
`a/y`. -/
theorem driver_nonrecursive_directory_witness :
    ∃ (r : DriverResult SimFs) (t : TraverseResult (RunState SimFs))
        (later : List DriverEvent),
      mainLoop linux (simOps 1 1 1) (Linux.dirOps simPosixFs) dirStat 10 ["a".toList]
        stNonRecursive = some r ∧
      r.log = DriverEvent.visit 0 "a".toList 1 1 ::
        DriverEvent.traverse 0 "a".toList 0 3 t.ret t.calls :: later ∧
      t.calls.map VisitCall.path <+: ["a/x".toList, "a/y".toList] := by
  obtain ⟨r, t, later, h1, h2, _, _, h3, _⟩ :=
    driver_nonrecursive_directory linux (simOps 1 1 1) (Linux.dirOps simPosixFs) dirStat 10
      "a".toList [] stNonRecursive [".".toList, "..".toList, "x".toList, "y".toList]
      (by decide) (by decide) (by decide) (by decide) (by decide) (by decide) (by decide)
  exact ⟨r, t, later, h1, h2, h3⟩

/-- C15, the run of scenario S2: `lsync a out` over the tree `a/x`, `a/y/z` succeeds, has
called `copyFile` for `a/x` with the destination `out/a/x`, and has created the
directory `out/a/y`, so `out/a` is not left empty. -/
theorem driver_nonrecursive_copies_children :
    ∃ r, runNonRecursive = some r ∧ r.exit = EXIT_SUCCESS ∧
      (∃ e ∈ r.state.trace,
        e.call = Call.copyFile "a/x".toList "out/a/x".toList 0 ∧ e.ret = 1) ∧
      (r.state.world.lookup "out/a/y".toList).isSome = true := by
  decide

/-! ## The traverser: a directory is entered after the visitor asked to abort -/

/-- C16: the traverser on the tree `a/x`, `a/y/z` with a visitor that returns 0 for the
directory `a/y` and 1 otherwise: after the invocation for `a/y` has returned 0, the
directory is still entered and the visitor is invoked for `a/y/z`; only then does the
traversal stop and return 0. -/
theorem tds_traverse_enters_after_abort :
    (tds_traverse (Linux.dirOps simPosixFs) (abortAt "a/y".toList) dirStat 10 "a".toList (-1)
        TDSO_ALL fsTreeA).map
      (fun t => (t.ret, t.calls.map (fun c => (c.path, c.isDir, c.level, c.ret)))) =
    some (0, [("a/x".toList, 0, 0, 1), ("a/y".toList, 1, 0, 0), ("a/y/z".toList, 0, 1, 1)]) := by
  decide

/-! ## The POSIX `copyFile`: file types and `deleteIfFile` -/

/-- A FIFO is no device, no socket and no symbolic link. -/
theorem not_device_of_S_ISFIFO (m : Nat) (h : S_ISFIFO m = true) :
    ¬ (S_ISCHR m = true ∨ S_ISBLK m = true ∨ S_ISSOCK m = true) ∧ S_ISLNK m = false := by
  unfold S_ISFIFO at h
  have h1 : m &&& 0o170000 = 0o010000 := by simpa using h
  unfold S_ISCHR S_ISBLK S_ISSOCK S_ISLNK
  rw [h1]
  decide

/-- The calls of `deleteIfFile` are `unlink` calls, and it returns 1 or 0. -/
theorem deleteIfFile_calls {σ : Type} (px : PosixFs σ) (w : σ) (dst : CStr) (verbose : Int) :
    (∀ e ∈ (Linux.deleteIfFile px w dst verbose).calls, e.call = Sys.unlink dst) ∧
      ((Linux.deleteIfFile px w dst verbose).ret = 1 ∨
        (Linux.deleteIfFile px w dst verbose).ret = 0) := by
  unfold Linux.deleteIfFile
  split_ifs <;> simp

/-! ## The bits of the attribute mask -/

/-- C21: over a destination `o` that already exists as a regular file, `copyFile` for
the FIFO `p` with `CP_SPECIALS` makes the single call `mkfifo("o", 0777)`, which fails
because `o` exists, and returns 0 with the file system unchanged: nothing removes `o`
first.  The branch for devices does remove it: for the device `d` with `CP_DEVICES`
the calls are `unlink("o")` and `mknod("o", ...)`, and the result is 1. -/
theorem copyFile_fifo_keeps_existing :
    (Linux.copyFile simPosixFs noFileIO 0 fsSpecialAgain "p".toList "o".toList CP_SPECIALS
        0).map (fun r => (r.ret, r.world, r.calls)) =
      some (0, fsSpecialAgain, [⟨Sys.mkfifo "o".toList 0o777, -1⟩]) ∧
    (Linux.copyFile simPosixFs noFileIO 0 fsSpecialAgain "d".toList "o".toList CP_DEVICES
        0).map (fun r => (r.ret, r.calls)) =
      some (1, [⟨Sys.unlink "o".toList, 0⟩, ⟨Sys.mknod "o".toList 0o020644 259, 0⟩]) := by
  decide

/-! ## The copy loop of the POSIX `copyFile` -/

/-- One round of the copy loop with nothing pending when `read` reports the end of
the file: the loops are left and `result = 1` follows. -/
theorem copyLoop_read_eof {σ : Type} (fio : FileIO σ) (fdIn fdOut : Int) (n errno : Nat)
    (w w1 : σ) (h : fio.read w fdIn 16384 = (ReadResult.data [], w1)) :
    Linux.copyLoop fio fdIn fdOut (n + 1) [] errno w =
      some ⟨1, w1, [⟨Sys.read fdIn 16384, 0⟩]⟩ := by
  simp only [Linux.copyLoop, h]

/-- One round with nothing pending when `read` delivers bytes and `errno` is clear or
transient: the bytes are pending for `write`. -/
theorem copyLoop_read_data {σ : Type} (fio : FileIO σ) (fdIn fdOut : Int) (n errno : Nat)
    (w w1 : σ) (b : Nat) (bs : List Nat)
    (h : fio.read w fdIn 16384 = (ReadResult.data (b :: bs), w1))
    (herr : errno = 0 ∨ errno = EAGAIN) :
    Linux.copyLoop fio fdIn fdOut (n + 1) [] errno w =
      (Linux.copyLoop fio fdIn fdOut n (b :: bs) errno w1).map
        (fun r => ⟨r.ret, r.world,
          ⟨Sys.read fdIn 16384, ((b :: bs).length : Int)⟩ :: r.calls⟩) := by
  have hc : ¬ (errno ≠ 0 ∧ errno ≠ EAGAIN ∧ errno ≠ EWOULDBLOCK) := by
    rcases herr with h0 | h0 <;> simp [h0]
  simp only [Linux.copyLoop, h, if_neg hc]

/-- One round with nothing pending when `read` fails with `errno` left at 0, `EAGAIN`
or `EWOULDBLOCK`: the `do` loop goes round again. -/
theorem copyLoop_read_again {σ : Type} (fio : FileIO σ) (fdIn fdOut : Int) (n errno e : Nat)
    (w w1 : σ) (h : fio.read w fdIn 16384 = (ReadResult.error e, w1))
    (he : e = 0 ∨ e = EAGAIN ∨ e = EWOULDBLOCK) :
    Linux.copyLoop fio fdIn fdOut (n + 1) [] errno w =
      (Linux.copyLoop fio fdIn fdOut n [] 0 w1).map
        (fun r => ⟨r.ret, r.world, ⟨Sys.read fdIn 16384, -1⟩ :: r.calls⟩) := by
  simp only [Linux.copyLoop, h, if_pos he]

/-- One round with nothing pending when `read` fails with any other `errno`: both
loops are left and `result = 1` follows, as at the end of the file. -/
theorem copyLoop_read_failed {σ : Type} (fio : FileIO σ) (fdIn fdOut : Int) (n errno e : Nat)
    (w w1 : σ) (h : fio.read w fdIn 16384 = (ReadResult.error e, w1))
    (he : ¬ (e = 0 ∨ e = EAGAIN ∨ e = EWOULDBLOCK)) :
    Linux.copyLoop fio fdIn fdOut (n + 1) [] errno w =
      some ⟨1, w1, [⟨Sys.read fdIn 16384, -1⟩]⟩ := by
  simp only [Linux.copyLoop, h, if_neg he]

/-- One round with bytes pending when `write` accepts `k` of them. -/
theorem copyLoop_write_done {σ : Type} (fio : FileIO σ) (fdIn fdOut : Int) (n errno k : Nat)
    (w w1 : σ) (b : Nat) (bs : List Nat)
    (h : fio.write w fdOut (b :: bs) = (WriteResult.done k, w1)) :
    Linux.copyLoop fio fdIn fdOut (n + 1) (b :: bs) errno w =
      (Linux.copyLoop fio fdIn fdOut n ((b :: bs).drop k) 0 w1).map
        (fun r => ⟨r.ret, r.world, ⟨Sys.write fdOut (b :: bs), (k : Int)⟩ :: r.calls⟩) := by
  simp only [Linux.copyLoop, h]

/-- One round with bytes pending when `write` fails with `EAGAIN` or `EWOULDBLOCK`
(or leaves `errno` at 0): the same bytes are offered again. -/
theorem copyLoop_write_again {σ : Type} (fio : FileIO σ) (fdIn fdOut : Int) (n errno e : Nat)
    (w w1 : σ) (b : Nat) (bs : List Nat)
    (h : fio.write w fdOut (b :: bs) = (WriteResult.error e, w1))
    (he : e = 0 ∨ e = EAGAIN ∨ e = EWOULDBLOCK) :
    Linux.copyLoop fio fdIn fdOut (n + 1) (b :: bs) errno w =
      (Linux.copyLoop fio fdIn fdOut n (b :: bs) e w1).map
        (fun r => ⟨r.ret, r.world, ⟨Sys.write fdOut (b :: bs), -1⟩ :: r.calls⟩) := by
  have hc : ¬ (e ≠ 0 ∧ e ≠ EAGAIN ∧ e ≠ EWOULDBLOCK) := by
    rcases he with h0 | h0 | h0 <;> simp [h0]
  simp only [Linux.copyLoop, h, if_neg hc]

/-- One round with bytes pending when `write` fails with any other `errno`:
`goto onError`. -/
theorem copyLoop_write_failed {σ : Type} (fio : FileIO σ) (fdIn fdOut : Int) (n errno e : Nat)
    (w w1 : σ) (b : Nat) (bs : List Nat)
    (h : fio.write w fdOut (b :: bs) = (WriteResult.error e, w1))
    (he : e ≠ 0 ∧ e ≠ EAGAIN ∧ e ≠ EWOULDBLOCK) :
    Linux.copyLoop fio fdIn fdOut (n + 1) (b :: bs) errno w =
      some ⟨0, w1, [⟨Sys.write fdOut (b :: bs), -1⟩]⟩ := by
  simp only [Linux.copyLoop, h, if_pos he]

/-- A `read` on a tape whose next result holds no more bytes than asked for
delivers them all. -/
theorem tapeIO_read_data (bytes : List Nat) (rs : List ReadResult) (ws : List WriteResult)
    (out : List Nat) (fd : Int) (count : Nat) (hlen : bytes.length ≤ count) :
    tapeIO.read ⟨ReadResult.data bytes :: rs, ws, out⟩ fd count =
      (ReadResult.data bytes, ⟨rs, ws, out⟩) := by
  show (ReadResult.data (bytes.take count),
    ({ reads := if count < bytes.length then ReadResult.data (bytes.drop count) :: rs else rs,
       writes := ws, out := out } : Tape)) = _
  rw [List.take_of_length_le hlen, if_neg (by omega)]

/-- The other results of the calls on a tape, case by case. -/
theorem tapeIO_read_nil (ws : List WriteResult) (out : List Nat) (fd : Int) (count : Nat) :
    tapeIO.read ⟨[], ws, out⟩ fd count = (ReadResult.data [], ⟨[], ws, out⟩) := rfl

theorem tapeIO_read_error (e : Nat) (rs : List ReadResult) (ws : List WriteResult)
    (out : List Nat) (fd : Int) (count : Nat) :
    tapeIO.read ⟨ReadResult.error e :: rs, ws, out⟩ fd count =
      (ReadResult.error e, ⟨rs, ws, out⟩) := rfl

theorem tapeIO_write_nil (rs : List ReadResult) (out : List Nat) (fd : Int)
    (bytes : List Nat) :
    tapeIO.write ⟨rs, [], out⟩ fd bytes =
      (WriteResult.done bytes.length, ⟨rs, [], out ++ bytes⟩) := rfl

theorem tapeIO_write_done (k : Nat) (rs : List ReadResult) (ws : List WriteResult)
    (out : List Nat) (fd : Int) (bytes : List Nat) :
    tapeIO.write ⟨rs, WriteResult.done k :: ws, out⟩ fd bytes =
      (WriteResult.done (min k bytes.length), ⟨rs, ws, out ++ bytes.take k⟩) := rfl

theorem tapeIO_write_error (e : Nat) (rs : List ReadResult) (ws : List WriteResult)
    (out : List Nat) (fd : Int) (bytes : List Nat) :
    tapeIO.write ⟨rs, WriteResult.error e :: ws, out⟩ fd bytes =
      (WriteResult.error e, ⟨rs, ws, out⟩) := rfl

/-- The copy loop over a tape that is at most transiently disturbed returns 1 (fuel for
two rounds per read result and one per write result is enough), having written what
was pending and then all the bytes the reads deliver. -/
theorem copyLoop_tape (fdIn fdOut : Int) :
    ∀ (fuel : Nat) (pending : List Nat) (errno : Nat) (w : Tape),
      2 * w.reads.length + w.writes.length + (if pending = [] then 0 else 1) + 1 ≤ fuel →
      (∀ x ∈ w.reads, x.benign) → (∀ x ∈ w.writes, x.benign) →
      (errno = 0 ∨ errno = EAGAIN) →
      ∃ r, Linux.copyLoop tapeIO fdIn fdOut fuel pending errno w = some r ∧ r.ret = 1 ∧
        r.world.out = w.out ++ pending ++ readData w.reads ∧ r.world.reads = [] ∧
        r.world.writes.length ≤ w.writes.length := by
  intro fuel
  induction fuel with
  | zero =>
    intro pending errno w h
    omega
  | succ n ih =>
    intro pending errno w hfuel hreads hwrites herr
    obtain ⟨reads, writes, out⟩ := w
    cases pending with
    | nil =>
      simp only [if_true] at hfuel
      cases reads with
      | nil =>
        rw [copyLoop_read_eof tapeIO fdIn fdOut n errno _ _ (tapeIO_read_nil writes out fdIn 16384)]
        exact ⟨_, rfl, rfl, by simp [readData], rfl, le_refl _⟩
      | cons x rs =>
        have hx := hreads x (List.mem_cons_self _ _)
        have hrs : ∀ y ∈ rs, y.benign := fun y hy => hreads y (List.mem_cons_of_mem _ hy)
        simp only [List.length_cons] at hfuel
        cases x with
        | data bytes =>
          obtain ⟨hne, hlen⟩ := hx
          obtain ⟨b, bs, rfl⟩ := List.exists_cons_of_ne_nil hne
          obtain ⟨r, hr, hret, hout, hrd, hwr⟩ := ih (b :: bs) errno ⟨rs, writes, out⟩
            (by simp; omega) hrs hwrites herr
          rw [copyLoop_read_data tapeIO fdIn fdOut n errno _ _ b bs
            (tapeIO_read_data (b :: bs) rs writes out fdIn 16384 hlen) herr, hr]
          refine ⟨_, rfl, hret, ?_, hrd, hwr⟩
          simp only [hout, readData, List.append_nil, List.append_assoc]
        | error e =>
          obtain ⟨r, hr, hret, hout, hrd, hwr⟩ := ih [] 0 ⟨rs, writes, out⟩
            (by simp; omega) hrs hwrites (Or.inl rfl)
          rw [copyLoop_read_again tapeIO fdIn fdOut n errno e _ _
            (tapeIO_read_error e rs writes out fdIn 16384) (Or.inr hx), hr]
          refine ⟨_, rfl, hret, ?_, hrd, hwr⟩
          simp only [hout, readData]
    | cons b bs =>
      simp only [if_false, List.cons_ne_nil] at hfuel
      cases writes with
      | nil =>
        obtain ⟨r, hr, hret, hout, hrd, hwr⟩ := ih [] 0 ⟨reads, [], out ++ b :: bs⟩
          (by simp at hfuel ⊢; omega) hreads hwrites (Or.inl rfl)
        rw [copyLoop_write_done tapeIO fdIn fdOut n errno (b :: bs).length _ _ b bs
          (tapeIO_write_nil reads out fdOut (b :: bs)), List.drop_length, hr]
        refine ⟨_, rfl, hret, ?_, hrd, hwr⟩
        simp only [hout, List.append_nil]
      | cons x ws =>
        have hws : ∀ y ∈ ws, y.benign := fun y hy => hwrites y (List.mem_cons_of_mem _ hy)
        have hx := hwrites x (List.mem_cons_self _ _)
        simp only [List.length_cons] at hfuel
        cases x with
        | done k =>
          obtain ⟨r, hr, hret, hout, hrd, hwr⟩ := ih ((b :: bs).drop (min k (b :: bs).length))
            0 ⟨reads, ws, out ++ (b :: bs).take k⟩
            (by simp only; split_ifs <;> omega) hreads hws (Or.inl rfl)
          rw [copyLoop_write_done tapeIO fdIn fdOut n errno (min k (b :: bs).length) _ _ b bs
            (tapeIO_write_done k reads ws out fdOut (b :: bs)), hr]
          have hwr2 : r.world.writes.length ≤ ws.length := hwr
          refine ⟨_, rfl, hret, ?_, hrd, by simp only [List.length_cons]; omega⟩
          rw [hout]
          simp only [List.append_assoc]
          congr 1
          rw [← List.append_assoc]
          congr 1
          by_cases hk : k ≤ (b :: bs).length
          · rw [min_eq_left hk, List.take_append_drop]
          · rw [min_eq_right (by omega), List.drop_length, List.append_nil,
              List.take_of_length_le (by omega)]
        | error e =>
          obtain ⟨r, hr, hret, hout, hrd, hwr⟩ := ih (b :: bs) e ⟨reads, ws, out⟩
            (by simp; omega) hreads hws (by rcases hx with h | h <;> exact Or.inr h)
          rw [copyLoop_write_again tapeIO fdIn fdOut n errno e _ _ b bs
            (tapeIO_write_error e reads ws out fdOut (b :: bs)) (Or.inr hx), hr]
          have hwr2 : r.world.writes.length ≤ ws.length := hwr
          exact ⟨_, rfl, hret, hout, hrd, by simp only [List.length_cons]; omega⟩

/-- The bytes delivered by reads that all succeed are the chunks, one after the
other. -/
theorem readData_data (chunks : List (List Nat)) :
    readData (chunks.map ReadResult.data) = chunks.flatten := by
  induction chunks with
  | nil => rfl
  | cons c rest ih => simp only [List.map_cons, readData, ih, List.flatten_cons]

/-- Function `copyFile` for a regular source and a destination that does not exist,
over a tape: the file is opened and the result is that of the copy loop. -/
theorem copyFile_tape_eq (src dst : CStr) (mask : Nat) (verbose : Int) (fuel : Nat) (w : Tape)
    (hsd : dst ≠ src) :
    Linux.copyFile (tapePosixFs src) tapeIO fuel w src dst mask verbose =
      (Linux.copyLoop tapeIO 3 4 fuel [] 0 w).map
        (fun r => ⟨r.ret, r.world,
          [⟨Sys.openRead src, 3⟩, ⟨Sys.openCreate dst 0o777, 4⟩] ++ r.calls ++
            [⟨Sys.close 3, 0⟩, ⟨Sys.close 4, 0⟩]⟩) := by
  have hstat : (tapePosixFs src).stat w src = some (regStat 0 0 0) := by
    show (if src = src then some (regStat 0 0 0) else none) = _
    rw [if_pos rfl]
  have hdst : (tapePosixFs src).stat w dst = none := by
    show (if dst = src then some (regStat 0 0 0) else none) = _
    rw [if_neg hsd]
  have hdel : Linux.deleteIfFile (tapePosixFs src) w dst verbose = ⟨1, w, []⟩ := by
    unfold Linux.deleteIfFile Linux.isFile
    rw [hdst]
    rfl
  unfold Linux.copyFile
  rw [hstat]
  simp only
  rw [if_neg (by decide), if_neg (by decide), if_neg (by decide)]
  unfold Linux.copyRegular
  rw [hdel]
  rfl

/-- C25: content preservation of the POSIX regular-file copy.  For every way the
reads deliver the source as a sequence of non-empty chunks of at most 16384 bytes
and every sequence of numbers of bytes that the coming writes accept at most
(partial writes, a write may even accept nothing; no call fails), `copyFile` returns
(fuel for two rounds per chunk and one per partial write is enough) with the result
1, and the bytes the destination has accepted are exactly the bytes of the source:
the chunks one after the other, nothing dropped, nothing duplicated. -/
theorem copyFile_content_preserved (src dst : CStr) (mask : Nat) (verbose : Int) (fuel : Nat)
    (chunks : List (List Nat)) (accepts : List Nat) (hsd : dst ≠ src)
    (hchunks : ∀ c ∈ chunks, c ≠ [] ∧ c.length ≤ 16384)
    (hfuel : 2 * chunks.length + accepts.length + 1 ≤ fuel) :
    ∃ r, Linux.copyFile (tapePosixFs src) tapeIO fuel
        ⟨chunks.map ReadResult.data, accepts.map WriteResult.done, []⟩ src dst mask verbose =
          some r ∧
      r.ret = 1 ∧ r.world.out = chunks.flatten ∧ r.world.reads = [] := by
  obtain ⟨r, hr, hret, hout, hrd, _⟩ := copyLoop_tape 3 4 fuel [] 0
    ⟨chunks.map ReadResult.data, accepts.map WriteResult.done, []⟩
    (by simpa using hfuel)
    (by
      intro x hx
      simp only [List.mem_map] at hx
      obtain ⟨c, hc, rfl⟩ := hx
      exact hchunks c hc)
    (by
      intro x hx
      simp only [List.mem_map] at hx
      obtain ⟨c, _, rfl⟩ := hx
      trivial)
    (Or.inl rfl)
  rw [copyFile_tape_eq src dst mask verbose fuel _ hsd, hr]
  refine ⟨_, rfl, hret, ?_, hrd⟩
  simp only [hout, List.nil_append, List.append_nil, readData_data]

/-- C25 for a source of three bytes read as `[1, 2]` and `[3]`, with writes that first
accept one byte and then none. -/
theorem copyFile_content_preserved_witness :
    ∃ r, Linux.copyFile (tapePosixFs "s".toList) tapeIO 7
        ⟨[ReadResult.data [1, 2], ReadResult.data [3]],
          [WriteResult.done 1, WriteResult.done 0], []⟩ "s".toList "d".toList 0 0 = some r ∧
      r.ret = 1 ∧ r.world.out = [1, 2, 3] ∧ r.world.reads = [] :=
  copyFile_content_preserved "s".toList "d".toList 0 0 7 [[1, 2], [3]] [1, 0] (by decide)
    (by decide) (by decide)

/-- C24, amended: transient errors in the POSIX regular-file copy loop.  A read or a
write that fails with `EAGAIN` / `EWOULDBLOCK` is retried: when these are the only
failures, `copyFile` returns 1 having written every byte the reads deliver up to the
end of the file.  `EINTR` is not among the retried values: a write that fails with it
(or with any `errno` other than `EAGAIN` / `EWOULDBLOCK`) makes `copyFile` return 0. -/
theorem copyFile_transient_errors (src dst : CStr) (mask : Nat) (verbose : Int) (fuel : Nat)
    (w : Tape) (hsd : dst ≠ src) :
    ((∀ x ∈ w.reads, x.benign) → (∀ x ∈ w.writes, x.benign) →
      2 * w.reads.length + w.writes.length + 1 ≤ fuel →
      ∃ r, Linux.copyFile (tapePosixFs src) tapeIO fuel w src dst mask verbose = some r ∧
        r.ret = 1 ∧ r.world.out = w.out ++ readData w.reads ∧ r.world.reads = []) ∧
    (∀ b bs rs e ws, w.reads = ReadResult.data (b :: bs) :: rs → (b :: bs).length ≤ 16384 →
      w.writes = WriteResult.error e :: ws → e ≠ 0 ∧ e ≠ EAGAIN ∧ e ≠ EWOULDBLOCK →
      2 ≤ fuel →
      ∃ r, Linux.copyFile (tapePosixFs src) tapeIO fuel w src dst mask verbose = some r ∧
        r.ret = 0 ∧ r.world.out = w.out) := by
  constructor
  · intro hreads hwrites hfuel
    obtain ⟨r, hr, hret, hout, hrd, _⟩ := copyLoop_tape 3 4 fuel [] 0 w
      (by simpa using hfuel) hreads hwrites (Or.inl rfl)
    rw [copyFile_tape_eq src dst mask verbose fuel _ hsd, hr]
    refine ⟨_, rfl, hret, ?_, hrd⟩
    simp only [hout, List.append_nil]
  · intro b bs rs e ws hr hlen hw he hfuel
    obtain ⟨rd, wr, out⟩ := w
    simp only at hr hw
    subst hr hw
    obtain ⟨n, rfl⟩ : ∃ n, fuel = n + 2 := ⟨fuel - 2, by omega⟩
    rw [copyFile_tape_eq src dst mask verbose _ _ hsd,
      copyLoop_read_data tapeIO 3 4 (n + 1) 0 _ _ b bs
        (tapeIO_read_data (b :: bs) rs _ out 3 16384 hlen) (Or.inl rfl),
      copyLoop_write_failed tapeIO 3 4 n 0 e _ _ b bs
        (tapeIO_write_error e rs ws out 4 (b :: bs)) he]
    exact ⟨_, rfl, rfl, rfl⟩

/-- C24, amended, on a source read as `[1, 2]`, a failed read (`EAGAIN`), `[3]`, with a
first write that fails with `EAGAIN`: the copy returns 1 and all three bytes are
written. -/
theorem copyFile_transient_errors_witness :
    ∃ r, Linux.copyFile (tapePosixFs "s".toList) tapeIO 8
        ⟨[ReadResult.data [1, 2], ReadResult.error EAGAIN, ReadResult.data [3]],
          [WriteResult.error EAGAIN], []⟩ "s".toList "d".toList 0 0 = some r ∧
      r.ret = 1 ∧ r.world.out = [1, 2, 3] ∧ r.world.reads = [] :=
  (copyFile_transient_errors "s".toList "d".toList 0 0 8
    ⟨[ReadResult.data [1, 2], ReadResult.error EAGAIN, ReadResult.data [3]],
      [WriteResult.error EAGAIN], []⟩ (by decide)).1
    (by
      intro x hx
      simp only [List.mem_cons, List.mem_singleton, List.not_mem_nil, or_false] at hx
      rcases hx with rfl | rfl | rfl
      · exact ⟨by decide, by decide⟩
      · exact Or.inl rfl
      · exact ⟨by decide, by decide⟩)
    (by
      intro x hx
      simp only [List.mem_singleton] at hx
      subst hx
      exact Or.inl rfl)
    (by decide)

/-- C24 as stated fails for `EINTR`: when the first write fails with `EINTR`, `copyFile`
returns 0 and nothing has been written. -/
theorem copyFile_write_eintr_returns_zero :
    (Linux.copyFile (tapePosixFs "s".toList) tapeIO 50
        ⟨[ReadResult.data [1, 2], ReadResult.data [3]], [WriteResult.error EINTR], []⟩
        "s".toList "d".toList 0 0).map (fun r => (r.ret, r.world.out)) = some (0, []) := by
  decide

/-- C28: after a first read of two bytes, the second read fails with `EIO` while the
source still holds the byte 3: `copyFile` makes no further call but the two `close`
calls and returns 1, with only the first two bytes written. -/
theorem copyFile_read_error_returns_one :
    (Linux.copyFile (tapePosixFs "s".toList) tapeIO 50
        ⟨[ReadResult.data [1, 2], ReadResult.error EIO, ReadResult.data [3]], [], []⟩
        "s".toList "d".toList 0 0).map (fun r => (r.ret, r.world, r.calls)) =
      some (1, ⟨[ReadResult.data [3]], [], [1, 2]⟩,
        [⟨Sys.openRead "s".toList, 3⟩, ⟨Sys.openCreate "d".toList 0o777, 4⟩,
         ⟨Sys.read 3 16384, 2⟩, ⟨Sys.write 4 [1, 2], 2⟩, ⟨Sys.read 3 16384, -1⟩,
         ⟨Sys.close 3, 0⟩, ⟨Sys.close 4, 0⟩]) := by
  decide

/-! ## Symbolic links to directories in the traverser -/

/-- C26: the directory `a` holds the entry `a/l`, a symbolic link (so says `lstat`) to a
directory with the file `f`.  A traversal of `a` without `TDSO_FOLLOW_LINKS` reports
`a/l` as a directory and then enters it all the same: the visitor is invoked for
`a/l/f` at level 1. -/
theorem tds_traverse_enters_symlinked_directory :
    (fsSymlinkDir.lstat "a/l".toList).map (fun st => S_ISLNK st.st_mode) = some true ∧
    (TDSO_DIRECTORY ||| TDSO_ITEM) &&& TDSO_FOLLOW_LINKS = 0 ∧
    (tds_traverse (linkDirOps Nat fsSymlinkDir) countVisitor dirStat 10 "a".toList (-1)
        (TDSO_DIRECTORY ||| TDSO_ITEM) 0).map
      (fun t => (t.ret, t.calls.map (fun c => (c.path, c.isDir, c.level)))) =
    some (1, [("a/l".toList, 1, 0), ("a/l/f".toList, 0, 1)]) := by
  decide

theorem or_follow_and (options bit : Nat) (hbit : TDSO_FOLLOW_LINKS &&& bit = 0) :
    (options ||| TDSO_FOLLOW_LINKS) &&& bit = options &&& bit := by
  rw [Nat.and_comm, Nat.and_or_distrib_left, Nat.and_comm bit TDSO_FOLLOW_LINKS, hbit,
    Nat.or_zero, Nat.and_comm]

/-- The guarded visitor invocation does not look at `TDSO_FOLLOW_LINKS`. -/
theorem tdsVisit_follow_links {S : Type} (visitor : Visitor S) (options bit : Nat)
    (newPath name : CStr) (isDir : Int) (curLevel : Nat) (s : S)
    (hbit : TDSO_FOLLOW_LINKS &&& bit = 0) :
    tdsVisit visitor (options ||| TDSO_FOLLOW_LINKS) bit newPath name isDir curLevel s =
      tdsVisit visitor options bit newPath name isDir curLevel s := by
  unfold tdsVisit
  rw [or_follow_and options bit hbit]

/-- One round of the loop does the same with and without `TDSO_FOLLOW_LINKS`: an entry
that `stat` reports as a directory is never reported as a symbolic link. -/
theorem tdsStep_follow_links {S : Type} (d : DirOps S) (visitor : Visitor S)
    (recurse : CStr → S → Option (TraverseResult S)) (options : Nat) (path : CStr)
    (curLevel : Nat) (name : CStr) (itemStat : Stat) (s : S) :
    tdsStep d visitor recurse (options ||| TDSO_FOLLOW_LINKS) path curLevel name itemStat s =
      tdsStep d visitor recurse options path curLevel name itemStat s := by
  by_cases h1 : name = ".".toList ∨ name = "..".toList
  · rw [tdsStep_dots _ _ _ _ _ _ _ _ _ h1, tdsStep_dots _ _ _ _ _ _ _ _ _ h1]
  · cases hdir : S_ISDIR ((d.stat s (tdsNewPath path name)).getD itemStat).st_mode with
    | true =>
      rw [tdsStep_dir _ _ _ _ _ _ _ _ _ h1 hdir, tdsStep_dir _ _ _ _ _ _ _ _ _ h1 hdir,
        tdsVisit_follow_links visitor options TDSO_DIRECTORY _ _ _ _ _ (by decide)]
    | false =>
      rw [tdsStep_item _ _ _ _ _ _ _ _ _ h1 hdir, tdsStep_item _ _ _ _ _ _ _ _ _ h1 hdir,
        tdsVisit_follow_links visitor options TDSO_ITEM _ _ _ _ _ (by decide)]

/-- The loop does the same with and without `TDSO_FOLLOW_LINKS`. -/
theorem tdsEntries_follow_links {S : Type} (d : DirOps S) (visitor : Visitor S)
    (recurse : CStr → S → Option (TraverseResult S)) (options : Nat) (path : CStr)
    (curLevel : Nat) :
    ∀ (names : List CStr) (itemStat : Stat) (result : Int) (s : S),
      tdsEntries d visitor recurse (options ||| TDSO_FOLLOW_LINKS) path curLevel names itemStat
          result s =
        tdsEntries d visitor recurse options path curLevel names itemStat result s := by
  intro names
  induction names with
  | nil => intro itemStat result s; rfl
  | cons n rest ih =>
    intro itemStat result s
    unfold tdsEntries
    rw [tdsStep_follow_links]
    by_cases hres : result ≠ 1
    · rw [if_pos hres, if_pos hres]
    · rw [if_neg hres, if_neg hres]
      cases tdsStep d visitor recurse options path curLevel n itemStat s with
      | none => rfl
      | some r => simp only [ih]

/-- The option `TDSO_FOLLOW_LINKS` has no effect on `tds_traverseR` (POSIX branch):
whatever the file system, the result, the final state and the visitor invocations
are the same with and without it. -/
theorem tds_traverseR_follow_links {S : Type} (d : DirOps S) (visitor : Visitor S)
    (maxLevel : Int) (options : Nat) (uninit : Stat) :
    ∀ (fuel : Nat) (path : CStr) (curLevel : Nat) (s : S),
      tds_traverseR d visitor maxLevel (options ||| TDSO_FOLLOW_LINKS) uninit fuel path
          curLevel s =
        tds_traverseR d visitor maxLevel options uninit fuel path curLevel s := by
  intro fuel
  induction fuel with
  | zero => intro path curLevel s; rfl
  | succ n ih =>
    intro path curLevel s
    unfold tds_traverseR
    by_cases hlev : 0 ≤ maxLevel ∧ maxLevel < (curLevel : Int)
    · rw [if_pos hlev, if_pos hlev]
    · rw [if_neg hlev, if_neg hlev]
      cases d.opendir s path with
      | none => rfl
      | some names =>
        simp only
        rw [tdsEntries_follow_links]
        congr 1
        funext p s1
        exact ih p _ s1

/-! ## The positions handed to the visitor -/

/-- The call `strrchr(s, c)` finds nothing exactly when `c` does not occur in `s`. -/
theorem strrchr_eq_none (s : CStr) (c : Char) : strrchr s c = none ↔ c ∉ s := by
  induction s with
  | nil => simp [strrchr]
  | cons a as ih =>
    unfold strrchr
    cases h : strrchr as c with
    | none =>
      have hc := ih.1 h
      by_cases hac : a = c
      · simp [hac]
      · simp only [if_neg hac, true_iff, List.mem_cons, not_or]
        exact ⟨fun h2 => hac h2.symm, hc⟩
    | some r =>
      have hc : c ∈ as := by
        by_contra hn
        rw [ih.2 hn] at h
        exact Option.noConfusion h
      simp [hc]

/-- The call `strrchr(s, c)` returns the suffix of `s` that starts at the last `c`. -/
theorem strrchr_eq_some (s r : CStr) (c : Char) (h : strrchr s c = some r) :
    ∃ stem rest, s = stem ++ c :: rest ∧ c ∉ rest ∧ r = c :: rest := by
  induction s generalizing r with
  | nil => simp [strrchr] at h
  | cons a as ih =>
    unfold strrchr at h
    cases h1 : strrchr as c with
    | none =>
      rw [h1] at h
      by_cases hac : a = c
      · simp only [if_pos hac, Option.some.injEq] at h
        exact ⟨[], as, by rw [hac]; rfl, (strrchr_eq_none as c).1 h1, by rw [← h, hac]⟩
      · simp only [if_neg hac] at h
        exact Option.noConfusion h
    | some r1 =>
      rw [h1] at h
      simp only [Option.some.injEq] at h
      obtain ⟨stem, rest, hs, hr, hr1⟩ := ih r1 h1
      exact ⟨a :: stem, rest, by rw [hs]; rfl, hr, by rw [← h, hr1]⟩

/-- The full path ends with the entry name. -/
theorem tdsNewPath_suffix (path name : CStr) :
    ∃ front, tdsNewPath path name = front ++ name ∧
      (front = path ∨ front = path ++ ['/']) := by
  unfold tdsNewPath
  split_ifs
  · exact ⟨path, rfl, Or.inl rfl⟩
  · exact ⟨path ++ ['/'], by simp, Or.inr rfl⟩

/-- The pointer `itemName` spells the entry name. -/
theorem tdsItemName_eq (path name : CStr) : tdsItemName (tdsNewPath path name) name = name := by
  obtain ⟨front, h, _⟩ := tdsNewPath_suffix path name
  unfold tdsItemName
  rw [h, List.length_append, Nat.add_sub_cancel, List.drop_left]

/-- C27: item and extension positions passed to the visitor.  For every non-empty
parent path and every entry name: the full path is `parent ++ name` when the parent
ends in `/` or in a backslash and `parent ++ "/" ++ name` otherwise (POSIX build);
`item` is the suffix of the full path that has the length of the name, and it spells
the name; `ext` is a suffix of the full path too: when the name holds a `.`, it starts
at the last `.` of the name, and otherwise it is the empty string at the end of the
full path; and these three are what the traverser hands to the visitor with the
level and the directory flag. -/
theorem tdsVisit_positions {S : Type} (visitor : Visitor S) (options bit : Nat)
    (path name : CStr) (isDir : Int) (curLevel : Nat) (s : S) (hpath : path ≠ [])
    (hbit : options &&& bit ≠ 0) :
    (((path.getLast? = some '/' ∨ path.getLast? = some '\\') →
        tdsNewPath path name = path ++ name) ∧
      (¬ (path.getLast? = some '/' ∨ path.getLast? = some '\\') →
        tdsNewPath path name = path ++ '/' :: name)) ∧
    (tdsItemName (tdsNewPath path name) name = name ∧
      tdsItemName (tdsNewPath path name) name =
        (tdsNewPath path name).drop ((tdsNewPath path name).length - name.length)) ∧
    (('.' ∈ name → ∃ stem rest, name = stem ++ '.' :: rest ∧ '.' ∉ rest ∧
        tdsItemExt (tdsNewPath path name) name = '.' :: rest) ∧
      ('.' ∉ name → tdsItemExt (tdsNewPath path name) name = []) ∧
      tdsItemExt (tdsNewPath path name) name =
        (tdsNewPath path name).drop
          ((tdsNewPath path name).length -
            (tdsItemExt (tdsNewPath path name) name).length)) ∧
    (tdsVisit visitor options bit (tdsNewPath path name) name isDir curLevel s).calls =
      [⟨tdsNewPath path name, tdsItemName (tdsNewPath path name) name,
        tdsItemExt (tdsNewPath path name) name, isDir, curLevel,
        (visitor (tdsNewPath path name) (some (tdsItemName (tdsNewPath path name) name))
          (some (tdsItemExt (tdsNewPath path name) name)) isDir curLevel s).1⟩] := by
  have hitem := tdsItemName_eq path name
  have hextDot : '.' ∈ name → ∃ stem rest, name = stem ++ '.' :: rest ∧ '.' ∉ rest ∧
      tdsItemExt (tdsNewPath path name) name = '.' :: rest := by
    intro hdot
    unfold tdsItemExt
    rw [hitem]
    cases h : strrchr name '.' with
    | none => exact absurd hdot ((strrchr_eq_none name '.').1 h)
    | some r =>
      obtain ⟨stem, rest, h1, h2, h3⟩ := strrchr_eq_some name r '.' h
      exact ⟨stem, rest, h1, h2, h3⟩
  have hextNone : '.' ∉ name → tdsItemExt (tdsNewPath path name) name = [] := by
    intro hdot
    unfold tdsItemExt
    rw [hitem, (strrchr_eq_none name '.').2 hdot]
    simp
  refine ⟨⟨?_, ?_⟩, ⟨hitem, rfl⟩, ⟨hextDot, hextNone, ?_⟩, ?_⟩
  · intro h
    unfold tdsNewPath
    rw [if_pos (by tauto)]
  · intro h
    unfold tdsNewPath
    rw [if_neg (by tauto)]
  · obtain ⟨front, hfront, _⟩ := tdsNewPath_suffix path name
    by_cases hdot : '.' ∈ name
    · obtain ⟨stem, rest, h1, _, h3⟩ := hextDot hdot
      rw [h3, hfront, h1]
      have : front ++ (stem ++ '.' :: rest) = (front ++ stem) ++ '.' :: rest := by simp
      rw [this, List.length_append, Nat.add_sub_cancel, List.drop_left]
    · rw [hextNone hdot]
      simp
  · unfold tdsVisit
    rw [if_pos hbit]

/-- C27 for the parent `a/b` and the name `x.tar.gz`: the full path is `a/b/x.tar.gz`, the
item is `x.tar.gz` and the extension `.gz`. -/
theorem tdsVisit_positions_witness :
    tdsNewPath "a/b".toList "x.tar.gz".toList = "a/b/x.tar.gz".toList ∧
      tdsItemName (tdsNewPath "a/b".toList "x.tar.gz".toList) "x.tar.gz".toList =
        "x.tar.gz".toList ∧
      tdsItemExt (tdsNewPath "a/b".toList "x.tar.gz".toList) "x.tar.gz".toList =
        ".gz".toList :=
  ⟨((tdsVisit_positions countVisitor TDSO_ALL TDSO_ITEM "a/b".toList "x.tar.gz".toList 0 0 0
      (by decide) (by decide)).1.2 (by decide)).trans (by decide),
    (tdsVisit_positions countVisitor TDSO_ALL TDSO_ITEM "a/b".toList "x.tar.gz".toList 0 0 0
      (by decide) (by decide)).2.1.1,
    by decide⟩

/-! ## A source root that ends in a path separator -/

/-- C29: source root with a trailing separator.  When the source argument the driver
is working on ends in a path separator (`root = front ++ [c]` with `c` in `PATH_SEPS`),
the base component `srcElement` is the empty string; for an entry of the tree, handed
over as `src = root ++ rel` (the traverser adds no separator behind such a root), and
for the driver's own call for the directory (`rel` empty, `isDir = 1`), the `dst` buffer
holds `destination ++ SEP ++ SEP ++ rel` when that fits: nothing named after the source
directory stands between the destination and `rel`.  (The format for a single file,
`isDir = 0` with `item = NULL`, has no `rel`; it gives `destination ++ SEP`.) -/
theorem backupVisitor_root_trailing_separator {σ : Type} (P : Platform) (ops : IoOps σ)
    (opt : tOptions) (w : σ) (front rel src : CStr) (c : Char) (item ext : Option CStr)
    (isDir : Int) (level : Nat)
    (hsig : ops.signalReceived w = 0)
    (hroot : srcRoot opt = front ++ [c]) (hc : c ∈ P.PATH_SEPS)
    (hsrc : src = front ++ [c] ++ rel) :
    srcElement P opt = [] ∧
    (¬ (isDir = 0 ∧ item = none) →
      (opt.dstArg ++ P.PCF_PATH_SEP :: P.PCF_PATH_SEP :: rel).length < 32768 →
      (backupVisitor P ops src item ext isDir level opt w).opt.dst =
        opt.dstArg ++ P.PCF_PATH_SEP :: P.PCF_PATH_SEP :: rel) ∧
    ((isDir = 0 ∧ item = none) →
      (opt.dstArg ++ [P.PCF_PATH_SEP]).length < 32768 →
      (backupVisitor P ops src item ext isDir level opt w).opt.dst =
        opt.dstArg ++ [P.PCF_PATH_SEP]) := by
  have hbase : srcElement P opt = [] :=
    srcElement_eq_base P opt (front ++ [c]) [] hroot
      (Or.inr ⟨front, c, rfl, hc, fun d hd => absurd hd (List.not_mem_nil d)⟩)
  have hdrop : src.drop (srcLen P opt src) = rel := by
    rw [hsrc]
    exact drop_srcLen_of_sep P opt (front ++ [c]) rel c hroot hc (by simp)
  refine ⟨hbase, ?_, ?_⟩
  · intro htree hfit
    rw [backupVisitor_dst_buffer P ops src item ext isDir level opt w hsig]
    unfold formatPath
    rw [if_neg htree, hbase, hdrop]
    unfold sntprintf BUFFER_SIZE
    simp only [List.nil_append]
    apply List.take_of_length_le
    omega
  · intro hfile hfit
    rw [backupVisitor_dst_buffer P ops src item ext isDir level opt w hsig]
    unfold formatPath
    rw [if_pos hfile, hbase]
    unfold sntprintf BUFFER_SIZE
    apply List.take_of_length_le
    omega

/-- C29 at the root `a/b/` and the entry `a/b/x`: the destination path is `c//x`. -/
theorem backupVisitor_root_trailing_separator_witness :
    srcElement linux optTrailing = [] ∧
      (backupVisitor linux (simOps 1 1 1) "a/b/x".toList (some "x".toList) (some []) 0 0
        optTrailing ⟨[], 0⟩).opt.dst = "c//x".toList :=
  ⟨(backupVisitor_root_trailing_separator linux (simOps 1 1 1) optTrailing ⟨[], 0⟩
      "a/b".toList "x".toList "a/b/x".toList '/' (some "x".toList) (some []) 0 0
      (by decide) (by decide) (by decide) (by decide)).1,
    ((backupVisitor_root_trailing_separator linux (simOps 1 1 1) optTrailing ⟨[], 0⟩
      "a/b".toList "x".toList "a/b/x".toList '/' (some "x".toList) (some []) 0 0
      (by decide) (by decide) (by decide) (by decide)).2.1 (by decide) (by decide)).trans
      (by decide)⟩

/-! ## The Windows `copyAttributes` -/

/-- C30: on a system where every Win32 call succeeds (`GetFileSecurity` and
`SetFileSecurity` return non-zero, the times can be read and written), the Windows
`copyAttributes` with the mask `AT_OWNER` returns 0 right after `GetFileSecurity` has
succeeded: that is its only call, `SetFileSecurity` is never reached.  On the system
where the two security calls fail (return 0) and the rest succeeds, it returns 1. -/
theorem winCopyAttributes_fails_on_success :
    ((Win.copyAttributes win32Healthy () "s".toList "d".toList AT_OWNER 0).ret,
      (Win.copyAttributes win32Healthy () "s".toList "d".toList AT_OWNER 0).calls) =
      (0, [⟨WinCall.GetFileSecurity "s".toList OWNER_SECURITY_INFORMATION, 1⟩]) ∧
    (Win.copyAttributes win32SecurityFails () "s".toList "d".toList AT_OWNER 0).ret = 1 := by
  decide

/-- The part that copies the times keeps the calls made before it. -/
theorem winCopyTimes_calls {σ : Type} (wx : Win32Attr σ) (w : σ) (src dst : CStr)
    (calls : List WinEvent) :
    ∃ more, (Win.copyTimes wx w src dst calls).calls = calls ++ more := by
  unfold Win.copyTimes
  split_ifs
  · split
    · exact ⟨_, rfl⟩
    · split
      · exact ⟨_, rfl⟩
      · split
        · exact ⟨_, rfl⟩
        · exact ⟨_, rfl⟩
  · exact ⟨_, rfl⟩

/-- With a non-empty mask the Windows `copyAttributes` returns 1 only when both
`GetFileSecurity` and `SetFileSecurity` were called and returned 0, which is how the
Win32 API reports that they failed. -/
theorem winCopyAttributes_ret_one {σ : Type} (wx : Win32Attr σ) (w : σ) (src dst : CStr)
    (mask : Nat) (verbose : Int) (hmask : mask ≠ AT_NONE)
    (h : (Win.copyAttributes wx w src dst mask verbose).ret = 1) :
    (⟨WinCall.GetFileSecurity src (Win.securityFlags mask), 0⟩ : WinEvent) ∈
        (Win.copyAttributes wx w src dst mask verbose).calls ∧
      ∃ descriptor,
        (⟨WinCall.SetFileSecurity dst (Win.securityFlags mask) descriptor, 0⟩ : WinEvent) ∈
          (Win.copyAttributes wx w src dst mask verbose).calls := by
  unfold Win.copyAttributes at h ⊢
  rw [if_neg hmask] at h ⊢
  simp only at h ⊢
  generalize (if wx.hasSecurityPrivilege w ≠ true then
    ((wx.setCurrentPrivilege w).2,
      [(⟨WinCall.setCurrentPrivilege, (wx.setCurrentPrivilege w).1⟩ : WinEvent)])
    else (w, [])) = p at h ⊢
  by_cases hg : (wx.GetFileSecurity p.1 src (Win.securityFlags mask)).1 ≠ ERROR_SUCCESS
  · rw [if_pos hg] at h
    simp at h
  · rw [if_neg hg] at h ⊢
    by_cases hs : (wx.SetFileSecurity p.1 dst (Win.securityFlags mask)
        (wx.GetFileSecurity p.1 src (Win.securityFlags mask)).2).1 ≠ ERROR_SUCCESS
    · rw [if_pos hs] at h
      simp at h
    · rw [if_neg hs]
      obtain ⟨more, hmore⟩ := winCopyTimes_calls wx
        (wx.SetFileSecurity p.1 dst (Win.securityFlags mask)
          (wx.GetFileSecurity p.1 src (Win.securityFlags mask)).2).2 src dst
        (p.2 ++ [⟨WinCall.GetFileSecurity src (Win.securityFlags mask),
            (wx.GetFileSecurity p.1 src (Win.securityFlags mask)).1⟩] ++
          [⟨WinCall.SetFileSecurity dst (Win.securityFlags mask)
            (wx.GetFileSecurity p.1 src (Win.securityFlags mask)).2,
            (wx.SetFileSecurity p.1 dst (Win.securityFlags mask)
              (wx.GetFileSecurity p.1 src (Win.securityFlags mask)).2).1⟩])
      rw [hmore, not_not.mp hg, not_not.mp hs]
      refine ⟨?_, (wx.GetFileSecurity p.1 src (Win.securityFlags mask)).2, ?_⟩
      · simp [ERROR_SUCCESS]
      · simp [ERROR_SUCCESS]

/-! ## The effect of the options -/

/-- C23: the settings `(recursive, attrMask, copyMask)` that single options lead to.
Only the long forms `--recursive`, `--owner` and `--perms`, whose rows of the option
table have a `flag` pointer and a non-zero value, and `-a` / `--archive`, which the
`switch` handles, set anything.  The short forms `-r`, `-o`, `-p` come back from
`getopt_long` as characters and the `switch` does nothing for them ("already handled by
flags"); `-g` / `--group`, `-l` / `--links` and `-D` have no `flag` pointer and no
assignment; `--devices` and `--specials` store the value 0.  After each of these
`recursive` is 0 and both masks are empty. -/
theorem parseCommandLine_option_effects :
    settingsOf ["-r", "a", "out"] = some (0, AT_NONE, CP_NONE) ∧
    settingsOf ["--recursive", "a", "out"] = some (charCode 'r', AT_NONE, CP_NONE) ∧
    settingsOf ["-g", "a", "out"] = some (0, AT_NONE, CP_NONE) ∧
    settingsOf ["--group", "a", "out"] = some (0, AT_NONE, CP_NONE) ∧
    settingsOf ["-o", "a", "out"] = some (0, AT_NONE, CP_NONE) ∧
    settingsOf ["--owner", "a", "out"] = some (0, AT_OWNER, CP_NONE) ∧
    settingsOf ["-p", "a", "out"] = some (0, AT_NONE, CP_NONE) ∧
    settingsOf ["--perms", "a", "out"] = some (0, AT_PERMS, CP_NONE) ∧
    settingsOf ["-l", "a", "out"] = some (0, AT_NONE, CP_NONE) ∧
    settingsOf ["--links", "a", "out"] = some (0, AT_NONE, CP_NONE) ∧
    settingsOf ["--devices", "a", "out"] = some (0, AT_NONE, CP_NONE) ∧
    settingsOf ["--specials", "a", "out"] = some (0, AT_NONE, CP_NONE) ∧
    settingsOf ["-D", "a", "out"] = some (0, AT_NONE, CP_NONE) ∧
    settingsOf ["-a", "a", "out"] =
      some (1, AT_GROUP ||| AT_OWNER ||| AT_PERMS, CP_DEVICES ||| CP_LINKS ||| CP_SPECIALS) := by
  refine ⟨?_, ?_, ?_, ?_, ?_, ?_, ?_, ?_, ?_, ?_, ?_, ?_, ?_, ?_⟩ <;> decide

/-! ## The driver: every run returns -/

/-- The simulated `stat` follows links: it never reports a symbolic link. -/
theorem simFs_stat_not_link (w : SimFs) (p : CStr) (st : Stat) (h : w.stat p = some st) :
    S_ISLNK st.st_mode = false := by
  unfold SimFs.stat at h
  cases hl : w.lookup p with
  | none => rw [hl] at h; simp at h
  | some s0 =>
    rw [hl] at h
    simp only at h
    by_cases h1 : S_ISLNK s0.st_mode = true
    · rw [if_pos h1] at h
      simp at h
    · rw [if_neg h1] at h
      by_cases h2 : p.getLast? = some '/' ∧ S_ISDIR s0.st_mode = false
      · rw [if_pos h2] at h
        simp at h
      · rw [if_neg h2] at h
        simp only [Option.some.injEq] at h
        rw [← h]
        simpa using h1

/-- On a file system with a link, too, `stat` never reports a symbolic link. -/
theorem linkPosixFs_stat_not_link (w : LinkFs) (p : CStr) (st : Stat)
    (h : linkPosixFs.stat w p = some st) : S_ISLNK st.st_mode = false :=
  simFs_stat_not_link w.fs (w.resolve p) st h

/-- When `stat` does not report the source as a symbolic link, `copyFile` takes no
notice of the calls `readlink` and `symlink`: with any other two in their place the
result is the same. -/
theorem copyFile_without_symlink {σ : Type} (px : PosixFs σ) (fio : FileIO σ) (fuel : Nat)
    (w : σ) (src dst : CStr) (mask : Nat) (verbose : Int)
    (rl : σ → CStr → Nat → Int × CStr) (sl : σ → CStr → CStr → Int × σ)
    (h : ∀ st, px.stat w src = some st → S_ISLNK st.st_mode = false) :
    Linux.copyFile { px with readlink := rl, symlink := sl } fio fuel w src dst mask verbose =
      Linux.copyFile px fio fuel w src dst mask verbose := by
  unfold Linux.copyFile
  cases hs : px.stat w src with
  | none => rfl
  | some stats =>
    have hl := h stats hs
    show (if _ then _ else if S_ISLNK stats.st_mode = true then _ else _) =
      (if _ then _ else if S_ISLNK stats.st_mode = true then _ else _)
    simp only [hl, Bool.false_eq_true, if_false]
    rfl

/-- The branch of `copyFile` for devices and sockets, exactly: without `CP_DEVICES`
nothing is done and the result is 1; with it, `deleteIfFile(dst)` is called, and
unless that fails (result 0) the call `mknod(dst, st_mode, st_rdev)` is made in the
state it left; the result is 1 exactly when `mknod` succeeded, and the state is the
one `mknod` left. -/
theorem copyFile_device_gating {σ : Type} (px : PosixFs σ) (fio : FileIO σ) (fuel : Nat)
    (w : σ) (src dst : CStr) (mask : Nat) (verbose : Int) (stats : Stat)
    (hstat : px.stat w src = some stats)
    (hdev : S_ISCHR stats.st_mode = true ∨ S_ISBLK stats.st_mode = true ∨
      S_ISSOCK stats.st_mode = true) :
    (mask &&& CP_DEVICES = 0 →
      Linux.copyFile px fio fuel w src dst mask verbose = some ⟨1, w, []⟩) ∧
    (mask &&& CP_DEVICES ≠ 0 → (Linux.deleteIfFile px w dst verbose).ret = 0 →
      Linux.copyFile px fio fuel w src dst mask verbose =
        some ⟨0, (Linux.deleteIfFile px w dst verbose).world,
          (Linux.deleteIfFile px w dst verbose).calls⟩) ∧
    (mask &&& CP_DEVICES ≠ 0 → (Linux.deleteIfFile px w dst verbose).ret ≠ 0 →
      Linux.copyFile px fio fuel w src dst mask verbose =
        some ⟨if (px.mknod (Linux.deleteIfFile px w dst verbose).world dst stats.st_mode
            stats.st_rdev).1 < 0 then 0 else 1,
          (px.mknod (Linux.deleteIfFile px w dst verbose).world dst stats.st_mode
            stats.st_rdev).2,
          (Linux.deleteIfFile px w dst verbose).calls ++
            [⟨Sys.mknod dst stats.st_mode stats.st_rdev,
              (px.mknod (Linux.deleteIfFile px w dst verbose).world dst stats.st_mode
                stats.st_rdev).1⟩]⟩) := by
  refine ⟨?_, ?_, ?_⟩
  · intro hbit
    unfold Linux.copyFile
    rw [hstat]
    simp only
    rw [if_pos hdev, if_neg (not_not.mpr hbit)]
  · intro hbit hd
    unfold Linux.copyFile
    rw [hstat]
    simp only
    rw [if_pos hdev, if_pos hbit, if_pos hd]
  · intro hbit hd
    unfold Linux.copyFile
    rw [hstat]
    simp only
    rw [if_pos hdev, if_pos hbit, if_neg hd]

/-- The branch of `copyFile` for a FIFO, exactly: without `CP_SPECIALS` nothing is done
and the result is 1; with it the call `mkfifo(dst, 0777)` is made, the result is 1
exactly when it succeeded, and the state is the one the call left. -/
theorem copyFile_fifo_gating {σ : Type} (px : PosixFs σ) (fio : FileIO σ) (fuel : Nat)
    (w : σ) (src dst : CStr) (mask : Nat) (verbose : Int) (stats : Stat)
    (hstat : px.stat w src = some stats) (hff : S_ISFIFO stats.st_mode = true) :
    (mask &&& CP_SPECIALS = 0 →
      Linux.copyFile px fio fuel w src dst mask verbose = some ⟨1, w, []⟩) ∧
    (mask &&& CP_SPECIALS ≠ 0 →
      Linux.copyFile px fio fuel w src dst mask verbose =
        some ⟨if (px.mkfifo w dst 0o777).1 < 0 then 0 else 1, (px.mkfifo w dst 0o777).2,
          [⟨Sys.mkfifo dst 0o777, (px.mkfifo w dst 0o777).1⟩]⟩) := by
  refine ⟨?_, ?_⟩
  · intro hbit
    unfold Linux.copyFile
    rw [hstat]
    simp only
    rw [if_neg (not_device_of_S_ISFIFO _ hff).1]
    simp only [(not_device_of_S_ISFIFO _ hff).2, Bool.false_eq_true, if_false]
    rw [if_pos hff, if_neg (not_not.mpr hbit)]
  · intro hbit
    unfold Linux.copyFile
    rw [hstat]
    simp only
    rw [if_neg (not_device_of_S_ISFIFO _ hff).1]
    simp only [(not_device_of_S_ISFIFO _ hff).2, Bool.false_eq_true, if_false]
    rw [if_pos hff, if_pos hbit]

/-- C14: the symbolic link `l` (its own metadata says so, its text is `d`) is not
classified as a symbolic link, because `stat` follows it to the character device
`d`.  With `CP_LINKS` in the mask `copyFile` returns 1 without any system call and
nothing exists at the destination `o`; with all three bits in the mask it makes the
call `mknod("o", ...)` and the destination is a character device, not a symbolic
link.  For the device `d` and the FIFO `p` the bit decides: with `CP_DEVICES`
(`CP_SPECIALS`) the node is created at `o` by `mknod` (`mkfifo`), and with the other
two bits only, nothing is done and the result is 1. -/
theorem copyFile_symlink_never_created :
    fsLinkToDevice.lstat "l".toList = some lnkStat ∧ S_ISLNK lnkStat.st_mode = true ∧
    linkPosixFs.readlink fsLinkToDevice "l".toList 1 = (1, "d".toList) ∧
    (Linux.copyFile linkPosixFs noFileIOLink 0 fsLinkToDevice "l".toList "o".toList CP_LINKS
        0).map (fun r => (r.ret, r.world, r.calls)) = some (1, fsLinkToDevice, []) ∧
    (Linux.copyFile linkPosixFs noFileIOLink 0 fsLinkToDevice "l".toList "o".toList
        (CP_DEVICES ||| CP_LINKS ||| CP_SPECIALS) 0).map
      (fun r => (r.ret, r.calls, (r.world.lstat "o".toList).map (fun st => st.st_mode))) =
      some (1, [⟨Sys.mknod "o".toList 0o020644 259, 0⟩], some 0o020644) ∧
    (Linux.copyFile linkPosixFs noFileIOLink 0 fsLinkToDevice "d".toList "o".toList CP_DEVICES
        0).map
      (fun r => (r.ret, r.calls, (r.world.lstat "o".toList).map (fun st => st.st_mode))) =
      some (1, [⟨Sys.mknod "o".toList 0o020644 259, 0⟩], some 0o020644) ∧
    (Linux.copyFile linkPosixFs noFileIOLink 0 fsLinkToDevice "d".toList "o".toList
        (CP_LINKS ||| CP_SPECIALS) 0).map (fun r => (r.ret, r.world, r.calls)) =
      some (1, fsLinkToDevice, []) ∧
    (Linux.copyFile linkPosixFs noFileIOLink 0 fsLinkToDevice "p".toList "o".toList CP_SPECIALS
        0).map
      (fun r => (r.ret, r.calls, (r.world.lstat "o".toList).map (fun st => st.st_mode))) =
      some (1, [⟨Sys.mkfifo "o".toList 0o777, 0⟩], some 0o010777) ∧
    (Linux.copyFile linkPosixFs noFileIOLink 0 fsLinkToDevice "p".toList "o".toList
        (CP_DEVICES ||| CP_LINKS) 0).map (fun r => (r.ret, r.world, r.calls)) =
      some (1, fsLinkToDevice, []) := by
  refine ⟨?_, ?_, ?_, ?_, ?_, ?_, ?_, ?_, ?_⟩ <;> decide

/-- C22: the source `l` is a symbolic link (its own metadata says so) whose text `t`
names nothing, and `readlink` would deliver that text.  `copyFile` with `CP_LINKS`
asks `stat`, which follows the link and fails: the function returns 0 without any
system call, and nothing exists at the destination `o`.  For the symbolic link `l`
whose text names the device `d`, `copyFile` with `CP_LINKS` returns 1, again without
any system call and with nothing at `o`. -/
theorem copyFile_symlink_source_not_copied :
    fsDangling.lstat "l".toList = some lnkStat ∧ S_ISLNK lnkStat.st_mode = true ∧
    linkPosixFs.readlink fsDangling "l".toList 1 = (1, "t".toList) ∧
    linkPosixFs.stat fsDangling "l".toList = none ∧
    (Linux.copyFile linkPosixFs noFileIOLink 0 fsDangling "l".toList "o".toList CP_LINKS
        0).map (fun r => (r.ret, r.calls, r.world.lstat "o".toList)) = some (0, [], none) ∧
    (Linux.copyFile linkPosixFs noFileIOLink 0 fsLinkToDevice "l".toList "o".toList CP_LINKS
        0).map (fun r => (r.ret, r.calls, r.world.lstat "o".toList)) = some (1, [], none) := by
  refine ⟨?_, ?_, ?_, ?_, ?_, ?_⟩ <;> decide

/-! ## Attribute selection in the POSIX `copyAttributes`: the calls and the file system -/

/-- One round of the copy loop with nothing pending when `read` delivers bytes while
`errno` holds another value than 0 or `EAGAIN`: `goto onError`. -/
theorem copyLoop_read_data_failed {σ : Type} (fio : FileIO σ) (fdIn fdOut : Int)
    (n errno : Nat) (w w1 : σ) (b : Nat) (bs : List Nat)
    (h : fio.read w fdIn 16384 = (ReadResult.data (b :: bs), w1))
    (herr : ¬ (errno = 0 ∨ errno = EAGAIN)) :
    Linux.copyLoop fio fdIn fdOut (n + 1) [] errno w =
      some ⟨0, w1, [⟨Sys.read fdIn 16384, ((b :: bs).length : Int)⟩]⟩ := by
  have hbad : errno ≠ 0 ∧ errno ≠ EAGAIN ∧ errno ≠ EWOULDBLOCK := by
    refine ⟨fun h0 => herr (Or.inl h0), fun h1 => herr (Or.inr h1), fun h1 => herr (Or.inr h1)⟩
  unfold Linux.copyLoop
  rw [h]
  simp only
  rw [if_pos hbad]

/-- When the copy loop over a tape whose reads are at most transiently disturbed
returns another result than 0, whatever the writes did, the destination has
accepted what was pending and then all the bytes the reads deliver. -/
theorem copyLoop_tape_complete (fdIn fdOut : Int) :
    ∀ (fuel : Nat) (pending : List Nat) (errno : Nat) (w : Tape),
      (∀ x ∈ w.reads, x.benign) →
      ∀ r, Linux.copyLoop tapeIO fdIn fdOut fuel pending errno w = some r → r.ret ≠ 0 →
        r.world.out = w.out ++ pending ++ readData w.reads := by
  intro fuel
  induction fuel with
  | zero =>
    intro pending errno w _ r h
    simp [Linux.copyLoop] at h
  | succ n ih =>
    intro pending errno w hreads r h hret
    obtain ⟨reads, writes, out⟩ := w
    cases pending with
    | nil =>
      cases reads with
      | nil =>
        rw [copyLoop_read_eof tapeIO fdIn fdOut n errno _ _ (tapeIO_read_nil writes out fdIn 16384)]
          at h
        simp only [Option.some.injEq] at h
        rw [← h]
        simp [readData]
      | cons x rs =>
        have hx := hreads x (List.mem_cons_self _ _)
        have hrs : ∀ y ∈ rs, y.benign := fun y hy => hreads y (List.mem_cons_of_mem _ hy)
        cases x with
        | data bytes =>
          obtain ⟨hne, hlen⟩ := hx
          obtain ⟨b, bs, rfl⟩ := List.exists_cons_of_ne_nil hne
          by_cases herr : errno = 0 ∨ errno = EAGAIN
          · rw [copyLoop_read_data tapeIO fdIn fdOut n errno _ _ b bs
              (tapeIO_read_data (b :: bs) rs writes out fdIn 16384 hlen) herr] at h
            obtain ⟨r2, hr2, rfl⟩ := Option.map_eq_some'.mp h
            have := ih (b :: bs) errno ⟨rs, writes, out⟩ hrs r2 hr2 hret
            show r2.world.out = _
            rw [this]
            simp only [readData, List.append_nil, List.append_assoc]
          · rw [copyLoop_read_data_failed tapeIO fdIn fdOut n errno _ _ b bs
              (tapeIO_read_data (b :: bs) rs writes out fdIn 16384 hlen) herr] at h
            simp only [Option.some.injEq] at h
            rw [← h] at hret
            exact absurd rfl hret
        | error e =>
          rw [copyLoop_read_again tapeIO fdIn fdOut n errno e _ _
            (tapeIO_read_error e rs writes out fdIn 16384) (Or.inr hx)] at h
          obtain ⟨r2, hr2, rfl⟩ := Option.map_eq_some'.mp h
          have := ih [] 0 ⟨rs, writes, out⟩ hrs r2 hr2 hret
          show r2.world.out = _
          rw [this]
          simp only [readData]
    | cons b bs =>
      cases writes with
      | nil =>
        rw [copyLoop_write_done tapeIO fdIn fdOut n errno (b :: bs).length _ _ b bs
          (tapeIO_write_nil reads out fdOut (b :: bs)), List.drop_length] at h
        obtain ⟨r2, hr2, rfl⟩ := Option.map_eq_some'.mp h
        have := ih [] 0 ⟨reads, [], out ++ b :: bs⟩ hreads r2 hr2 hret
        show r2.world.out = _
        rw [this]
        simp only [List.append_nil]
      | cons x ws =>
        cases x with
        | done k =>
          rw [copyLoop_write_done tapeIO fdIn fdOut n errno (min k (b :: bs).length) _ _ b bs
            (tapeIO_write_done k reads ws out fdOut (b :: bs))] at h
          obtain ⟨r2, hr2, rfl⟩ := Option.map_eq_some'.mp h
          have := ih _ 0 ⟨reads, ws, out ++ (b :: bs).take k⟩ hreads r2 hr2 hret
          show r2.world.out = _
          rw [this]
          simp only [List.append_assoc]
          congr 1
          rw [← List.append_assoc]
          congr 1
          by_cases hk : k ≤ (b :: bs).length
          · rw [min_eq_left hk, List.take_append_drop]
          · rw [min_eq_right (by omega), List.drop_length, List.append_nil,
              List.take_of_length_le (by omega)]
        | error e =>
          by_cases he : e = 0 ∨ e = EAGAIN ∨ e = EWOULDBLOCK
          · rw [copyLoop_write_again tapeIO fdIn fdOut n errno e _ _ b bs
              (tapeIO_write_error e reads ws out fdOut (b :: bs)) he] at h
            obtain ⟨r2, hr2, rfl⟩ := Option.map_eq_some'.mp h
            exact ih (b :: bs) e ⟨reads, ws, out⟩ hreads r2 hr2 hret
          · rw [copyLoop_write_failed tapeIO fdIn fdOut n errno e _ _ b bs
              (tapeIO_write_error e reads ws out fdOut (b :: bs))
              ⟨fun h0 => he (Or.inl h0), fun h1 => he (Or.inr (Or.inl h1)),
                fun h2 => he (Or.inr (Or.inr h2))⟩] at h
            simp only [Option.some.injEq] at h
            rw [← h] at hret
            exact absurd rfl hret

/-- Function `copyFile` for a regular source and a destination that does not exist,
over a tape in a run with `--link-dest`: the file is opened and the result is that
of the copy loop. -/
theorem copyFile_tape_ref_eq (src ref dst : CStr) (mask : Nat) (verbose : Int) (fuel : Nat)
    (w : Tape) (hsd : dst ≠ src) (hrd : dst ≠ ref) :
    Linux.copyFile (tapePosixFsRef src ref) tapeIO fuel w src dst mask verbose =
      (Linux.copyLoop tapeIO 3 4 fuel [] 0 w).map
        (fun r => ⟨r.ret, r.world,
          [⟨Sys.openRead src, 3⟩, ⟨Sys.openCreate dst 0o777, 4⟩] ++ r.calls ++
            [⟨Sys.close 3, 0⟩, ⟨Sys.close 4, 0⟩]⟩) := by
  have hstat : (tapePosixFsRef src ref).stat w src = some (regStat 0 0 0) := by
    show (if src = src ∨ src = ref then some (regStat 0 0 0) else none) = _
    rw [if_pos (Or.inl rfl)]
  have hdst : (tapePosixFsRef src ref).stat w dst = none := by
    show (if dst = src ∨ dst = ref then some (regStat 0 0 0) else none) = _
    rw [if_neg (by rintro (h | h); exact hsd h; exact hrd h)]
  have hdel : Linux.deleteIfFile (tapePosixFsRef src ref) w dst verbose = ⟨1, w, []⟩ := by
    unfold Linux.deleteIfFile Linux.isFile
    rw [hdst]
    rfl
  unfold Linux.copyFile
  rw [hstat]
  simp only
  rw [if_neg (by decide), if_neg (by decide), if_neg (by decide)]
  unfold Linux.copyRegular
  rw [hdel]
  rfl

/-- The reference file of `tapePosixFsRef` is as new as the source. -/
theorem isNewerFile_tape_ref (src ref : CStr) (w : Tape) (verbose : Int) :
    Linux.isNewerFile (tapePosixFsRef src ref).toPosix w ref src verbose = 0 := by
  have h1 : (tapePosixFsRef src ref).stat w ref = some (regStat 0 0 0) := by
    show (if ref = src ∨ ref = ref then some (regStat 0 0 0) else none) = _
    rw [if_pos (Or.inr rfl)]
  have h2 : (tapePosixFsRef src ref).stat w src = some (regStat 0 0 0) := by
    show (if src = src ∨ src = ref then some (regStat 0 0 0) else none) = _
    rw [if_pos (Or.inl rfl)]
  unfold Linux.isNewerFile
  rw [h1, h2]
  rfl

/-- The hard link from the reference file to a destination that does not exist
fails and changes nothing. -/
theorem createHardLink_tape_ref (src ref dst : CStr) (w : Tape) (verbose : Int)
    (hsd : dst ≠ src) (hrd : dst ≠ ref) :
    (Linux.createHardLink (tapePosixFsRef src ref) w ref dst verbose).ret = 0 ∧
      (Linux.createHardLink (tapePosixFsRef src ref) w ref dst verbose).world = w := by
  have hdst : (tapePosixFsRef src ref).stat w dst = none := by
    show (if dst = src ∨ dst = ref then some (regStat 0 0 0) else none) = _
    rw [if_neg (by rintro (h | h); exact hsd h; exact hrd h)]
  have hdel : Linux.deleteIfFile (tapePosixFsRef src ref) w dst verbose = ⟨1, w, []⟩ := by
    unfold Linux.deleteIfFile Linux.isFile
    rw [hdst]
    rfl
  unfold Linux.createHardLink
  rw [hdel]
  exact ⟨rfl, rfl⟩

/-- The attribute calls around a tape fail and change nothing. -/
theorem copyAttributes_tape_world (src ref : CStr) (nsec : Bool) (w : Tape) (a b : CStr)
    (mask : Nat) (verbose : Int) :
    (Linux.copyAttributes (tapePosixFsRef src ref) nsec w a b mask verbose).world = w := by
  unfold Linux.copyAttributes
  by_cases h : mask = AT_NONE
  · rw [if_pos h]
  · rw [if_neg h]
    cases (tapePosixFsRef src ref).stat w a with
    | none => rfl
    | some stats =>
      simp only
      by_cases hgo : mask &&& (AT_GROUP ||| AT_OWNER) ≠ 0
      · rw [if_pos hgo]
        rfl
      · rw [if_neg hgo]
        by_cases hp : mask &&& AT_PERMS ≠ 0
        · simp only [if_pos hp]
          rfl
        · simp only [if_neg hp]
          rfl

/-- The POSIX `copyFile` behind the platform operations, for a regular source over a
tape whose reads are at most transiently disturbed: when it reports success the
destination has accepted exactly the bytes of the source, and it does report
success when the writes are at most transiently disturbed, too, and the fuel is
enough. -/
theorem ops_copyFile_tape (src ref dst : CStr) (nsec : Bool) (fuel : Nat) (sig : Tape → Int)
    (mask : Nat) (verbose : Int) (w : Tape) (hsd : dst ≠ src) (hrd : dst ≠ ref)
    (hreads : ∀ x ∈ w.reads, x.benign) :
    (((Linux.ops (tapePosixFsRef src ref) tapeIO nsec fuel sig).copyFile w src dst mask
        verbose).1 ≠ 0 →
      ((Linux.ops (tapePosixFsRef src ref) tapeIO nsec fuel sig).copyFile w src dst mask
        verbose).2.out = w.out ++ readData w.reads) ∧
    ((∀ x ∈ w.writes, x.benign) → 2 * w.reads.length + w.writes.length + 1 ≤ fuel →
      ((Linux.ops (tapePosixFsRef src ref) tapeIO nsec fuel sig).copyFile w src dst mask
        verbose).1 = 1) := by
  simp only [Linux.ops]
  rw [copyFile_tape_ref_eq src ref dst mask verbose fuel w hsd hrd]
  constructor
  · cases hl : Linux.copyLoop tapeIO 3 4 fuel [] 0 w with
    | none =>
      intro h
      exact absurd rfl h
    | some r =>
      intro h
      have := copyLoop_tape_complete 3 4 fuel [] 0 w hreads r hl h
      simpa using this
  · intro hwrites hfuel
    obtain ⟨r, hr, hret, _⟩ := copyLoop_tape 3 4 fuel [] 0 w (by simpa using hfuel) hreads
      hwrites (Or.inl rfl)
    rw [hr]
    exact hret

/-- C4, amended: link-dest fallback.  For a non-directory entry for which the hard
link from `ref_path` to `dst_path` is attempted (`isNewerFile(ref_path, src)` is 0) and
`createHardLink` fails, the visitor invokes `copyFile(src, dst_path)` exactly once and
returns 1 if and only if that copy succeeds (otherwise 0).  With the POSIX `copyFile`
and a source that is a regular file whose reads do not fail other than transiently
(the reference file is as new as the source, the hard link is refused, and the
destination does not exist): whenever the visitor reports success, the destination
has accepted exactly the bytes of the source, whatever the writes did; and the
visitor does report success when the writes do not fail other than transiently and
the fuel is enough. -/
theorem backupVisitor_link_fallback {σ : Type} (P : Platform) (ops : IoOps σ) (src : CStr)
    (item ext : Option CStr) (level : Nat) (opt : tOptions) (w : σ) (ld : CStr)
    (hsig : ops.signalReceived w = 0) (hld : opt.linkDest = some ld)
    (hdst : (formatPath P opt opt.dstArg src item 0).length < BUFFER_SIZE)
    (href : (formatPath P opt ld src item 0).length < BUFFER_SIZE)
    (hn : (ops.isNewerFile w (formatPath P opt ld src item 0) src 0).1 = 0)
    (hl : (ops.createHardLink (ops.isNewerFile w (formatPath P opt ld src item 0) src 0).2
      (formatPath P opt ld src item 0) (formatPath P opt opt.dstArg src item 0)
      opt.verbose).1 = 0) :
    (((backupVisitor P ops src item ext 0 level opt w).trace.filter
        (fun e => e.call.isCopyFile)).map (fun e => e.call) =
      [Call.copyFile src (formatPath P opt opt.dstArg src item 0) opt.copyMask]) ∧
    ((backupVisitor P ops src item ext 0 level opt w).ret = 1 ↔
      (ops.copyFile
        (ops.createHardLink (ops.isNewerFile w (formatPath P opt ld src item 0) src 0).2
          (formatPath P opt ld src item 0) (formatPath P opt opt.dstArg src item 0)
          opt.verbose).2
        src (formatPath P opt opt.dstArg src item 0) opt.copyMask opt.verbose).1 ≠ 0) ∧
    ((backupVisitor P ops src item ext 0 level opt w).ret ≠ 1 →
      (backupVisitor P ops src item ext 0 level opt w).ret = 0) ∧
    (∀ (nsec : Bool) (fuel : Nat) (t : Tape),
      formatPath P opt opt.dstArg src item 0 ≠ src →
      formatPath P opt opt.dstArg src item 0 ≠ formatPath P opt ld src item 0 →
      (∀ x ∈ t.reads, x.benign) →
      ((backupVisitor P
          (Linux.ops (tapePosixFsRef src (formatPath P opt ld src item 0)) tapeIO nsec fuel
            (fun _ => 0)) src item ext 0 level opt t).ret = 1 →
        (backupVisitor P
          (Linux.ops (tapePosixFsRef src (formatPath P opt ld src item 0)) tapeIO nsec fuel
            (fun _ => 0)) src item ext 0 level opt t).world.out = t.out ++ readData t.reads) ∧
      ((∀ x ∈ t.writes, x.benign) → 2 * t.reads.length + t.writes.length + 1 ≤ fuel →
        (backupVisitor P
          (Linux.ops (tapePosixFsRef src (formatPath P opt ld src item 0)) tapeIO nsec fuel
            (fun _ => 0)) src item ext 0 level opt t).ret = 1)) := by
  refine ⟨?_, ?_, ?_, ?_⟩
  · rw [backupVisitor_eq_visitorLinkDest P ops src item ext level opt w ld hsig hld hdst href,
      visitorLinkDest_trace_link_failed ops src _ w hn hl, visitorCopy_trace]
    split_ifs <;> simp [List.filter, Call.isCopyFile]
  · rw [backupVisitor_eq_visitorLinkDest P ops src item ext level opt w ld hsig hld hdst href,
      visitorLinkDest_trace_link_failed ops src _ w hn hl, visitorCopy_ret]
    split_ifs with h <;> simp [h]
  · rw [backupVisitor_eq_visitorLinkDest P ops src item ext level opt w ld hsig hld hdst href,
      visitorLinkDest_trace_link_failed ops src _ w hn hl, visitorCopy_ret]
    split_ifs with h <;> simp
  · intro nsec fuel t hsd hrd hreads
    have hl2 := createHardLink_tape_ref src (formatPath P opt ld src item 0)
      (formatPath P opt opt.dstArg src item 0) t opt.verbose hsd hrd
    have hc := ops_copyFile_tape src (formatPath P opt ld src item 0)
      (formatPath P opt opt.dstArg src item 0) nsec fuel (fun _ => 0) opt.copyMask opt.verbose t
      hsd hrd hreads
    rw [backupVisitor_eq_visitorLinkDest P _ src item ext level opt t ld rfl hld hdst href,
      visitorLinkDest_trace_link_failed _ src _ t
        (isNewerFile_tape_ref src (formatPath P opt ld src item 0) t 0) hl2.1]
    have hw : ((Linux.ops (tapePosixFsRef src (formatPath P opt ld src item 0)) tapeIO nsec fuel
        (fun _ => 0)).createHardLink
        ((Linux.ops (tapePosixFsRef src (formatPath P opt ld src item 0)) tapeIO nsec fuel
          (fun _ => 0)).isNewerFile t (formatPath P opt ld src item 0) src 0).2
        (formatPath P opt ld src item 0) (formatPath P opt opt.dstArg src item 0)
        opt.verbose).2 = t := hl2.2
    simp only [hw]
    unfold visitorCopy
    simp only
    by_cases h0 : ((Linux.ops (tapePosixFsRef src (formatPath P opt ld src item 0)) tapeIO nsec
        fuel (fun _ => 0)).copyFile t src (formatPath P opt opt.dstArg src item 0) opt.copyMask
        opt.verbose).1 = 0
    · rw [if_pos h0]
      refine ⟨fun h => by simp at h, ?_⟩
      intro hwrites hfuel
      have := hc.2 hwrites hfuel
      rw [h0] at this
      exact absurd this (by decide)
    · rw [if_neg h0]
      refine ⟨fun _ => ?_, fun _ _ => rfl⟩
      unfold visitorFinish
      have ha : ∀ v a b m vb,
          ((Linux.ops (tapePosixFsRef src (formatPath P opt ld src item 0)) tapeIO nsec fuel
            (fun _ => 0)).copyAttributes v a b m vb).2 = v :=
        fun v a b m vb => copyAttributes_tape_world src _ nsec v a b m vb
      simp only [ha]
      exact hc.1 h0

/-- C4 as stated fails in its closing clause: in the run `lsync --link-dest=r p c`
(without `--specials`) over the FIFO `p` and an identical reference `r/p`, on a file
system that refuses the hard link, the visitor falls back to `copyFile("p", "c/p")`,
which skips the FIFO and returns 1; the visitor reports success, and no destination
file `c/p` exists. -/
theorem backupVisitor_fallback_skips_fifo :
    (backupVisitor linux (Linux.ops simPosixFsNoLink noFileIO true 0 (fun w => w.signalReceived))
        "p".toList none none 0 0 optLinkFifo fsFifoLinked).ret = 1 ∧
    (backupVisitor linux (Linux.ops simPosixFsNoLink noFileIO true 0 (fun w => w.signalReceived))
        "p".toList none none 0 0 optLinkFifo fsFifoLinked).trace =
      [⟨Call.isNewerFile "r/p".toList "p".toList, 0⟩,
        ⟨Call.createHardLink "r/p".toList "c/p".toList, 0⟩,
        ⟨Call.copyFile "p".toList "c/p".toList 0, 1⟩,
        ⟨Call.copyAttributes "p".toList "c/p".toList 0, 1⟩] ∧
    (backupVisitor linux (Linux.ops simPosixFsNoLink noFileIO true 0 (fun w => w.signalReceived))
        "p".toList none none 0 0 optLinkFifo fsFifoLinked).world.lookup "c/p".toList = none := by
  refine ⟨?_, ?_, ?_⟩ <;> decide

/-- C4, amended, for the single file `b` when the hard link fails and the copy
succeeds: the visitor returns 1; and with the POSIX `copyFile` over a source of three
bytes read as `[1, 2]` and `[3]`, with writes that first accept one byte and then are
disturbed once: the visitor returns 1 and the destination holds `[1, 2, 3]`. -/
theorem backupVisitor_link_fallback_witness :
    (backupVisitor linux (simOps 0 1 1) "b".toList none none 0 0 optLink fsLinked).ret = 1 ∧
    (backupVisitor linux
        (Linux.ops (tapePosixFsRef "b".toList "r/b".toList) tapeIO true 9 (fun _ => 0))
        "b".toList none none 0 0 optLink
        ⟨[ReadResult.data [1, 2], ReadResult.data [3]],
          [WriteResult.done 1, WriteResult.error EAGAIN], []⟩).ret = 1 ∧
    (backupVisitor linux
        (Linux.ops (tapePosixFsRef "b".toList "r/b".toList) tapeIO true 9 (fun _ => 0))
        "b".toList none none 0 0 optLink
        ⟨[ReadResult.data [1, 2], ReadResult.data [3]],
          [WriteResult.done 1, WriteResult.error EAGAIN], []⟩).world.out = [1, 2, 3] := by
  have h := backupVisitor_link_fallback linux (simOps 0 1 1) "b".toList none none 0 optLink
    fsLinked "r".toList rfl rfl (by decide) (by decide) (by decide) (by decide)
  have h4 := h.2.2.2 true 9
    ⟨[ReadResult.data [1, 2], ReadResult.data [3]],
      [WriteResult.done 1, WriteResult.error EAGAIN], []⟩ (by decide) (by decide)
    (by
      intro x hx
      simp only [List.mem_cons, List.mem_singleton, List.not_mem_nil, or_false] at hx
      rcases hx with rfl | rfl
      · exact ⟨by decide, by decide⟩
      · exact ⟨by decide, by decide⟩)
  have hret := h4.2
    (by
      intro x hx
      simp only [List.mem_cons, List.mem_singleton, List.not_mem_nil, or_false] at hx
      rcases hx with rfl | rfl
      · trivial
      · exact Or.inl rfl)
    (by decide)
  exact ⟨h.2.1.mpr (by decide), hret, (h4.1 hret).trans (by decide)⟩

end Lsync
